import Mathlib

/-!
A shallow embedding of the `hashheap` crate: the growable `HashHeap` of
`src/lib.rs` and the bounded `ConstHashHeap` of `src/consthashheap.rs`.

Modelling conventions:
* Rust `Vec<T>` and fixed arrays become `List`s; indexing `v[i]` becomes
  `List.getD i default` (all verified paths keep indices in range, and the
  places where the source would panic on a bad index are modelled by an
  explicit `none` result where observable).
* The per-instance `RandomState` hasher is an arbitrary function field
  (`defaulthash` / `hashf`): the source is generic over `KT : Hash`, so the
  hash may be any function of the key.
* Probe loops that the source runs unboundedly are given a fuel parameter;
  a `none` result means the source's loop has not terminated within the
  fuel (for the growable variant a sufficiency lemma shows the default
  linear-probing loop always terminates within the chosen fuel).
* Rust `HashMap<usize,(usize,usize)>` (`kmap`) becomes an association list
  whose lookup sees the most recent insertion first.
-/

set_option autoImplicit false
set_option linter.unusedSectionVars false
set_option linter.unusedVariables false

/-! ### Heap index arithmetic — src/lib.rs lines 94-96, consthashheap.rs 49-51.
`lib.rs` defines `parent i = if i>0 then (i-1)/2 else 0`, which in `Nat`
arithmetic equals `(i-1)/2` (the consthashheap form) at `i = 0` as well. -/

def heapLeft (i : Nat) : Nat := 2*i+1

def heapRight (i : Nat) : Nat := 2*i+2

def heapParent (i : Nat) : Nat := (i-1)/2

/-- `Vec::swap` / array `swap` on the list model: exchange positions `i` and `j`
(reads both from the original list). -/
def lswap {α : Type} [Inhabited α] (l : List α) (i j : Nat) : List α :=
  (l.set i (l.getD j default)).set j (l.getD i default)

/-! ## The growable variant: `HashHeap` (src/lib.rs) -/

structure HashHeap (KT VT : Type) where
  keys : List (Option KT)
  vals : List (VT × Nat)
  userhash : Option (KT → Nat)
  rehash : Nat → Nat → Nat
  kmap : List (Nat × Nat × Nat)  -- entries (hashindex, (ki, vi)); lookup sees newest first
  lessthan : VT → VT → Bool
  defaulthash : KT → Nat         -- models the RandomState-derived hash
  minmax : Bool

/-- `HashMap::get_mut(&h).map(|(_,vi)| *vi = newvi)`: update the `vi` component
of the entry at hash index `h` (shadowed duplicates are updated too, which is
invisible to lookup). -/
def kmapUpdateVi (m : List (Nat × Nat × Nat)) (h : Nat) (newvi : Nat) :
    List (Nat × Nat × Nat) :=
  m.map (fun e => if e.1 = h then (e.1, e.2.1, newvi) else e)

namespace HashHeap

variable {KT VT : Type} [DecidableEq KT] [LinearOrder VT] [Inhabited VT]

/-- `HashHeap::with_capacity` (lib.rs 124-138).  The capacity argument only
pre-allocates in the source and has no semantic effect; the `RandomState` drawn
at construction is the `dh` argument. -/
def with_capacity (_cap : Nat) (maxheap : Bool) (dh : KT → Nat) : HashHeap KT VT :=
  { keys := []
    vals := []
    userhash := none
    rehash := fun h c => h + c
    kmap := []
    lessthan := if maxheap then (fun a b => decide (a < b)) else (fun a b => decide (b < a))
    defaulthash := dh
    minmax := maxheap }

/-- `HashHeap::set_hash` (lib.rs 159-163). -/
def set_hash (s : HashHeap KT VT) (h : KT → Nat) : Bool × HashHeap KT VT :=
  if s.keys.length > 0 then (false, s)
  else (true, { s with userhash := some h })

/-- `HashHeap::set_rehash` (lib.rs 179-183). -/
def set_rehash (s : HashHeap KT VT) (rh : Nat → Nat → Nat) : Bool × HashHeap KT VT :=
  if s.keys.length > 0 then (false, s)
  else (true, { s with rehash := rh })

/-- `HashHeap::set_cmp` (lib.rs 189-195). -/
def set_cmp (s : HashHeap KT VT) (cmp : VT → VT → Bool) : Bool × HashHeap KT VT :=
  if s.keys.length > 1 then (false, s)
  else (true, { s with lessthan := cmp })

/-- `HashHeap::autohash` (lib.rs 197-201). -/
def autohash (s : HashHeap KT VT) (k : KT) : Nat :=
  match s.userhash with
  | some f => f k
  | none => s.defaulthash k

/-- The `while let` loop of `HashHeap::findslot` (lib.rs 206-228), with fuel.
`none` means the loop has not exited within the fuel. -/
def findslotGo (s : HashHeap KT VT) (key : KT) (h0 : Nat) :
    Nat → Nat → Option Nat → Nat → Option (Nat × Bool)
  | _, _, _, 0 => none
  | h, collisions, reuse, fuel+1 =>
    match List.lookup h s.kmap with
    | some (ki, _) =>
      match s.keys.getD ki none with
      | some key2 =>
        if key2 = key then some (h, true)
        else findslotGo s key h0 (s.rehash h0 (collisions+1)) (collisions+1) reuse fuel
      | none =>
        findslotGo s key h0 (s.rehash h0 (collisions+1)) (collisions+1)
          (match reuse with | some g => some g | none => some h) fuel
    | none => some (match reuse with | some g => (g, false) | none => (h, false))

/-- Fuel sufficient for the default linear-probing rehash: one past the largest
hash index in `kmap`, plus one. -/
def kmapBound (s : HashHeap KT VT) : Nat :=
  (s.kmap.map (fun e => e.1)).foldr max 0 + 2

/-- `HashHeap::findslot` (lib.rs 206-228). -/
def findslot (s : HashHeap KT VT) (key : KT) : Option (Nat × Bool) :=
  findslotGo s key (autohash s key) (autohash s key) 0 none (kmapBound s)

/-- `HashHeap::heapswap` (lib.rs 439-447). -/
def heapswap (s : HashHeap KT VT) (i j : Nat) : HashHeap KT VT :=
  if i = j then s
  else
    let ih := (s.vals.getD i default).2
    let jh := (s.vals.getD j default).2
    { s with vals := lswap s.vals i j
             kmap := kmapUpdateVi (kmapUpdateVi s.kmap ih j) jh i }

/-- The `while` loop of `HashHeap::swapup` (lib.rs 400-409), by structural
recursion on a fuel that bounds the iteration count: the index strictly
decreases to its parent each iteration, so fuel `i+1` (the call-site value)
never runs out. -/
def swapupGo : HashHeap KT VT → Nat → Nat → HashHeap KT VT × Nat
  | s, i, 0 => (s, i)
  | s, i, fuel+1 =>
    if 0 < i ∧
        s.lessthan (s.vals.getD (heapParent i) default).1 (s.vals.getD i default).1 = true then
      swapupGo (heapswap s i (heapParent i)) (heapParent i) fuel
    else (s, i)

/-- `HashHeap::swapup` (lib.rs 400-409), including the initial bounds guard. -/
def swapup (s : HashHeap KT VT) (i : Nat) : HashHeap KT VT × Nat :=
  if i ≥ s.vals.length then (s, i) else swapupGo s i (i+1)

/-- The `sc` selection inside one iteration of `HashHeap::swapdown`
(lib.rs 414-423).  The source's `usize::MAX` sentinel for "no swap" is
modelled by `Option Nat`. -/
def swapdownSc (s : HashHeap KT VT) (i : Nat) : Option Nat :=
  let size := s.vals.length
  let li := heapLeft i
  let ri := heapRight i
  let sc0 : Option Nat :=
    if li < size ∧ s.lessthan (s.vals.getD i default).1 (s.vals.getD li default).1 = true
    then some li else none
  if ri < size ∧ s.lessthan (s.vals.getD i default).1 (s.vals.getD ri default).1 = true
      ∧ s.lessthan (s.vals.getD li default).1 (s.vals.getD ri default).1 = true
  then some ri else sc0

/-- The `while` loop of `HashHeap::swapdown` (lib.rs 411-430): one iteration
picks `sc` via `swapdownSc` and swaps, stopping when no child dominates or `i`
is a leaf.  The index strictly increases and stays below `vals.len()`, so the
call-site fuel `vals.len()+1` never runs out. -/
def swapdownGo : HashHeap KT VT → Nat → Nat → HashHeap KT VT × Nat
  | s, i, 0 => (s, i)
  | s, i, fuel+1 =>
    if i < s.vals.length - (s.vals.length+1)/2 then
      match swapdownSc s i with
      | some k => swapdownGo (heapswap s i k) k fuel
      | none => (s, i)
    else (s, i)

/-- `HashHeap::swapdown` (lib.rs 411-430). -/
def swapdown (s : HashHeap KT VT) (i : Nat) : HashHeap KT VT × Nat :=
  swapdownGo s i (s.vals.length + 1)

/-- `HashHeap::reposition` (lib.rs 432-436). -/
def reposition (s : HashHeap KT VT) (i : Nat) : HashHeap KT VT × Nat :=
  let r := swapup s i
  if r.2 = i then swapdown r.1 i else r

/-- `HashHeap::insert` (lib.rs 237-258).  Outer `none` models a probe loop
that does not terminate within the fuel, or a source panic (`unwrap` of a
missing entry / out-of-range index). -/
def insert (s : HashHeap KT VT) (key : KT) (val : VT) :
    Option (Option (KT × VT) × HashHeap KT VT) :=
  match findslot s key with
  | none => none
  | some (h, true) =>
    match List.lookup h s.kmap with
    | none => none                    -- source: kmap.get(&h).unwrap()
    | some (ki, vi) =>
      if vi < s.vals.length ∧ ki < s.keys.length then
        match s.keys.getD ki none with
        | none => none                -- source: newkey.unwrap()
        | some oldkey =>
          let oldval := s.vals.getD vi default
          let s1 : HashHeap KT VT :=
            { s with keys := s.keys.set ki (some key), vals := s.vals.set vi (val, h) }
          some (some (oldkey, oldval.1), (reposition s1 vi).1)
      else none                       -- source: index out of bounds panic
  | some (h, false) =>
    let kn := s.keys.length
    let vn := s.vals.length
    let s1 : HashHeap KT VT :=
      { s with keys := s.keys ++ [some key], vals := s.vals ++ [(val, h)],
               kmap := (h, kn, vn) :: s.kmap }
    some (none, (swapup s1 vn).1)

/-- `HashHeap::push` (lib.rs 262-274). -/
def push (s : HashHeap KT VT) (key : KT) (val : VT) : Option (Bool × HashHeap KT VT) :=
  match findslot s key with
  | none => none
  | some (_, true) => some (false, s)
  | some (h, false) =>
    let kn := s.keys.length
    let vn := s.vals.length
    let s1 : HashHeap KT VT :=
      { s with keys := s.keys ++ [some key], vals := s.vals ++ [(val, h)],
               kmap := (h, kn, vn) :: s.kmap }
    some (true, (swapup s1 vn).1)

/-- `HashHeap::pop` (lib.rs 320-331). -/
def pop (s : HashHeap KT VT) : Option (Option (KT × VT) × HashHeap KT VT) :=
  let vn := s.vals.length
  if vn = 0 then some (none, s)
  else
    let s1 := heapswap s 0 (vn-1)
    let Vp := s1.vals.getD (vn-1) default
    let s2 : HashHeap KT VT := { s1 with vals := s1.vals.dropLast }
    match List.lookup Vp.2 s2.kmap with
    | none => none                    -- source: kmap.get(&iv).unwrap()
    | some (ki, _) =>
      if ki < s2.keys.length then
        match s2.keys.getD ki none with
        | none => none                -- source: Kopt.unwrap()
        | some K =>
          let s3 : HashHeap KT VT := { s2 with keys := s2.keys.set ki none }
          some (some (K, Vp.1), (swapdown s3 0).1)
      else none

/-- `HashHeap::peek` (lib.rs 310-315). -/
def peek (s : HashHeap KT VT) : Option (Option (KT × VT)) :=
  if s.vals.length = 0 then some none
  else
    let Vp := s.vals.getD 0 default
    match List.lookup Vp.2 s.kmap with
    | none => none
    | some (ki, _) =>
      match s.keys.getD ki none with
      | none => none
      | some K => some (some (K, Vp.1))

/-- `HashHeap::get` (lib.rs 340-346). -/
def get (s : HashHeap KT VT) (key : KT) : Option (Option VT) :=
  match findslot s key with
  | none => none
  | some (h, true) =>
    match List.lookup h s.kmap with
    | none => none                    -- source: self.kmap[&h] panics if absent
    | some (_, vi) =>
      if vi < s.vals.length then some (some (s.vals.getD vi default).1)
      else none
  | some (_, false) => some none

/-- `HashHeap::modify` (lib.rs 353-363), with the closure as a function. -/
def modify (s : HashHeap KT VT) (key : KT) (f : VT → VT) :
    Option (Bool × HashHeap KT VT) :=
  match findslot s key with
  | none => none
  | some (h, true) =>
    match List.lookup h s.kmap with
    | none => none
    | some (_, vi) =>
      if vi < s.vals.length then
        let v := s.vals.getD vi default
        let s1 : HashHeap KT VT := { s with vals := s.vals.set vi (f v.1, v.2) }
        some (true, (reposition s1 vi).1)
      else none
  | some (_, false) => some (false, s)

/-- `HashHeap::remove` (lib.rs 367-379). -/
def remove (s : HashHeap KT VT) (key : KT) :
    Option (Option (KT × VT) × HashHeap KT VT) :=
  match findslot s key with
  | none => none
  | some (h, true) =>
    match List.lookup h s.kmap with
    | none => none
    | some (ki, vi) =>
      if 0 < s.vals.length ∧ vi < s.vals.length ∧ ki < s.keys.length then
        let s1 := heapswap s vi (s.vals.length - 1)
        let Vp := s1.vals.getD (s1.vals.length - 1) default
        let s2 : HashHeap KT VT := { s1 with vals := s1.vals.dropLast }
        let s3 := (reposition s2 vi).1
        match s3.keys.getD ki none with
        | none => none                -- source: K.unwrap()
        | some K =>
          some (some (K, Vp.1), { s3 with keys := s3.keys.set ki none })
      else none
  | some (_, false) => some (none, s)

/-- `HashHeap::top_swap` (lib.rs 281-305). -/
def top_swap (s : HashHeap KT VT) (key : KT) (val : VT) :
    Option (Option (KT × VT) × HashHeap KT VT) :=
  if s.vals.length = 0 then
    match push s key val with
    | none => none
    | some (_, s1) => some (none, s1)
  else
    match findslot s key with
    | none => none
    | some (h, true) =>
      match List.lookup h s.kmap with
      | none => none
      | some (ki, vi) =>
        if ki < s.keys.length ∧ vi < s.vals.length then
          let s1 : HashHeap KT VT :=
            { s with keys := s.keys.set ki (some key), vals := s.vals.set vi (val, h) }
          pop (reposition s1 vi).1
        else none
    | some (h, false) =>
      let it := (s.vals.getD 0 default).2
      match List.lookup it s.kmap with
      | none => none                  -- source: kmap.get(it).unwrap()
      | some (tki, tvi) =>
        if tvi = 0 ∧ tki < s.keys.length then  -- source: assert!(tvi==0)
          match s.keys.getD tki none with
          | none => none              -- source: newkey.unwrap()
          | some oldkey =>
            let oldval := s.vals.getD 0 default
            let s1 : HashHeap KT VT :=
              { s with keys := s.keys.set tki (some key),
                       vals := s.vals.set 0 (val, h),
                       kmap := (h, tki, 0) :: s.kmap }
            some (some (oldkey, oldval.1), (swapdown s1 0).1)
        else none

/-- `HashHeap::len` (lib.rs 473). -/
def len (s : HashHeap KT VT) : Nat := s.vals.length

/-- `HashHeap::contains_key` (lib.rs 383-385). -/
def contains_key (s : HashHeap KT VT) (key : KT) : Option Bool :=
  (findslot s key).map (fun r => r.2)

/-- The insertion loop of `HashHeap::heapify` (lib.rs 455-464).  The running
`vi` counter always equals `vals.len()` because the loop starts from a cleared
structure. -/
def heapifyLoopIns (s : HashHeap KT VT) : List (KT × VT) → Option (HashHeap KT VT)
  | [] => some s
  | (k, v) :: rest =>
    match findslot s k with
    | none => none
    | some (kh, _) =>
      let vi := s.vals.length
      heapifyLoopIns
        { s with keys := s.keys ++ [some k], vals := s.vals ++ [(v, kh)],
                 kmap := (kh, vi, vi) :: s.kmap } rest

/-- The `while vi>0` heapify loop (lib.rs 465-469): `swapdown (vi-1)` down to
`swapdown 0`. -/
def heapifyDownLoop (s : HashHeap KT VT) : Nat → HashHeap KT VT
  | 0 => s
  | vi+1 => heapifyDownLoop (swapdown s vi).1 vi

/-- `HashHeap::heapify` (lib.rs 449-470). -/
def heapify (s : HashHeap KT VT) (vkv : List (KT × VT)) : Option (HashHeap KT VT) :=
  let s0 : HashHeap KT VT :=
    if s.keys.length > 0 then { s with keys := [], vals := [], kmap := [] } else s
  let vn := vkv.length
  let nonleafs := vn - (vn+1)/2
  match heapifyLoopIns s0 vkv with
  | none => none
  | some s1 => some (heapifyDownLoop s1 nonleafs)

/-- `HashHeap::from_pairs` (lib.rs 149-153). -/
def from_pairs (kvpairs : List (KT × VT)) (maxheap : Bool) (dh : KT → Nat) :
    Option (HashHeap KT VT) :=
  heapify (with_capacity (kvpairs.length+1) maxheap dh) kvpairs

end HashHeap

/-! ## The bounded variant: `ConstHashHeap` (src/consthashheap.rs) -/

/-- `optcmp` (consthashheap.rs 53-60). -/
def optcmp {VT : Type} [LinearOrder VT] (a b : Option (VT × Nat)) (neg : Bool) : Bool :=
  match a, b, neg with
  | some (av, _), some (bv, _), true => decide (av < bv)
  | some (av, _), some (bv, _), false => decide (bv < av)
  | _, _, _ => false

structure ConstHashHeap (KT VT : Type) (CAP : Nat) where
  keys : List (Option (KT × Nat))   -- (key, vi): vi indexes vals
  vals : List (Option (VT × Nat))   -- (val, ki): ki indexes keys
  maxhashes : List Nat
  size : Nat
  hashf : KT → Nat                  -- models the RandomState-derived hash, pre-modulus
  lessthan : Option (VT × Nat) → Option (VT × Nat) → Bool

namespace ConstHashHeap

variable {KT VT : Type} [DecidableEq KT] [LinearOrder VT] {CAP : Nat}

/-- `ConstHashHeap::new` (consthashheap.rs 81-90). -/
def new (maxheap : Bool) (hf : KT → Nat) : ConstHashHeap KT VT CAP :=
  { keys := List.replicate CAP none
    vals := List.replicate CAP none
    maxhashes := List.replicate CAP 0
    size := 0
    hashf := hf
    lessthan := if maxheap then (fun a b => optcmp a b true) else (fun a b => optcmp a b false) }

/-- `ConstHashHeap::hash` (consthashheap.rs 92-96). -/
def hash (s : ConstHashHeap KT VT CAP) (key : KT) : Nat := s.hashf key % CAP

/-- `ConstHashHeap::rehash` (consthashheap.rs 98), with the capacity explicit. -/
def rehash (N h : Nat) : Nat := (h+1) % N

/-- `ConstHashHeap::borrow_hash` (consthashheap.rs 100-104): hash under a
borrowed `RandomState`, reduced modulo the *receiver's* capacity `N`. -/
def borrow_hash (N : Nat) (rs : KT → Nat) (key : KT) : Nat := rs key % N

/-- `self.keys[ik].as_mut().map(|p| p.1 = newvi)`: rewrite the value-index
stored at key slot `ik`. -/
def updKeyVi (keys : List (Option (KT × Nat))) (ik newvi : Nat) :
    List (Option (KT × Nat)) :=
  keys.set ik ((keys.getD ik none).map (fun p => (p.1, newvi)))

/-- `ConstHashHeap::swap` (consthashheap.rs 106-114): swap two value slots and
rewrite the back-references of both moved values through their key slots. -/
def swap (s : ConstHashHeap KT VT CAP) (i k : Nat) : ConstHashHeap KT VT CAP :=
  let vals2 := lswap s.vals i k
  let keys2 :=
    match vals2.getD i none with
    | some (_, ik) => updKeyVi s.keys ik i
    | none => s.keys
  let keys3 :=
    match vals2.getD k none with
    | some (_, kk) => updKeyVi keys2 kk k
    | none => keys2
  { s with vals := vals2, keys := keys3 }

/-- `ConstHashHeap::swapup` (consthashheap.rs 116-124), by structural
recursion on a fuel bounding the iteration count (the index strictly
decreases; the call-site fuel `i+1` never runs out). -/
def swapupGo : ConstHashHeap KT VT CAP → Nat → Nat → ConstHashHeap KT VT CAP × Nat
  | s, i, 0 => (s, i)
  | s, i, fuel+1 =>
    if 0 < i ∧ s.lessthan (s.vals.getD (heapParent i) none) (s.vals.getD i none) = true then
      swapupGo (swap s i (heapParent i)) (heapParent i) fuel
    else (s, i)

/-- `ConstHashHeap::swapup` (consthashheap.rs 116-124). -/
def swapup (s : ConstHashHeap KT VT CAP) (i : Nat) : ConstHashHeap KT VT CAP × Nat :=
  swapupGo s i (i+1)

/-- The `si` selection inside one iteration of `ConstHashHeap::swapdown`
(consthashheap.rs 130-140). -/
def swapdownSi (s : ConstHashHeap KT VT CAP) (i : Nat) : Option Nat :=
  let lf := heapLeft i
  let rt := heapRight i
  let s1 : Option Nat :=
    if lf < s.size ∧ s.lessthan (s.vals.getD i none) (s.vals.getD lf none) = true
    then some lf else none
  if rt < s.size ∧ s.lessthan (s.vals.getD i none) (s.vals.getD rt none) = true
      ∧ s.lessthan (s.vals.getD lf none) (s.vals.getD rt none) = true
  then some rt else s1

/-- `ConstHashHeap::swapdown` (consthashheap.rs 126-147): the do-while loop,
stopping at the first iteration that selects no child.  The index strictly
increases but stays below `size`, so the call-site fuel `size+1` never runs
out. -/
def swapdownGo : ConstHashHeap KT VT CAP → Nat → Nat → ConstHashHeap KT VT CAP × Nat
  | s, i, 0 => (s, i)
  | s, i, fuel+1 =>
    match swapdownSi s i with
    | some k => swapdownGo (swap s i k) k fuel
    | none => (s, i)

/-- `ConstHashHeap::swapdown` (consthashheap.rs 126-147). -/
def swapdown (s : ConstHashHeap KT VT CAP) (i : Nat) : ConstHashHeap KT VT CAP × Nat :=
  swapdownGo s i (s.size + 1)

/-- `ConstHashHeap::adjust` (consthashheap.rs 149-152). -/
def adjust (s : ConstHashHeap KT VT CAP) (i : Nat) (both : Bool) :
    ConstHashHeap KT VT CAP × Nat :=
  let r := swapup s i
  if r.2 = i ∧ both = true then swapdown r.1 i else r

/-- The probe loop of `ConstHashHeap::insert` (consthashheap.rs 171-188), with
fuel; `none` means the loop has not exited within the fuel (which genuinely
happens when the table is full and the key is new).  On exit it returns
`(keyfoundloc, h, hashes, target_index)`. -/
def insertGo (s : ConstHashHeap KT VT CAP) (key : KT) (h0 : Nat) :
    Nat → Nat → Option Nat → Nat → Option (Nat × Nat × Nat × Option Nat)
  | _, _, _, 0 => none
  | h, hashes, target, fuel+1 =>
    match s.keys.getD h none with
    | some (k, vi) =>
      if k = key then some (vi, h, hashes, target)
      else insertGo s key h0 (rehash CAP h) (hashes+1) target fuel
    | none =>
      if hashes < s.maxhashes.getD h0 0 then
        insertGo s key h0 (rehash CAP h) (hashes+1)
          (match target with | some t => some t | none => some h) fuel
      else some (s.size, h, hashes, target)

/-- `ConstHashHeap::insert` (consthashheap.rs 163-208). -/
def insert (fuel : Nat) (s : ConstHashHeap KT VT CAP) (key : KT) (val : VT) :
    Option (Bool × ConstHashHeap KT VT CAP) :=
  let h0 := hash s key
  match insertGo s key h0 h0 1 none fuel with
  | none => none
  | some (vi, h1, hashes, target) =>
    if vi = s.size ∧ s.size ≥ CAP then some (false, s)
    else
      let snew := if vi = s.size then { s with size := s.size + 1 } else s
      let h := if vi = s.size then (match target with | some t => t | none => h1) else h1
      let s2 := if hashes > snew.maxhashes.getD h0 0
                then { snew with maxhashes := snew.maxhashes.set h0 hashes }
                else snew
      let s3 := { s2 with keys := s2.keys.set h (some (key, vi)),
                          vals := s2.vals.set vi (some (val, h)) }
      some (true, (adjust s3 vi (decide (vi+1 < s3.size))).1)

/-- `ConstHashHeap::push` (consthashheap.rs 279-281): an alias for `insert`. -/
def push (fuel : Nat) (s : ConstHashHeap KT VT CAP) (key : KT) (val : VT) :
    Option (Bool × ConstHashHeap KT VT CAP) :=
  insert fuel s key val

/-- The bounded probe loop shared by `getopt`, `modify_opt` and `remove_opt`
(consthashheap.rs 314-326, 370-382, 426-438): returns `(vi, h)` when the key
is found, `none` when the probe gives up.  Every continuing step requires
`hashes < maxhashes[h0]` and increments `hashes`, so the call-site fuel
`maxhashes[h0]+1` never runs out. -/
def probeGo (s : ConstHashHeap KT VT CAP) (key : KT) (h0 : Nat) :
    Nat → Nat → Nat → Option (Nat × Nat)
  | _, _, 0 => none
  | h, hashes, fuel+1 =>
    match s.keys.getD h none with
    | some (k, vi) =>
      if k = key then some (vi, h)
      else if hashes < s.maxhashes.getD h0 0 then
        probeGo s key h0 (rehash CAP h) (hashes+1) fuel
      else none
    | none =>
      if hashes < s.maxhashes.getD h0 0 then
        probeGo s key h0 (rehash CAP h) (hashes+1) fuel
      else none

/-- The full probe of the lookup-style operations: start at the home address
with `hashes = 1`. -/
def probe (s : ConstHashHeap KT VT CAP) (key : KT) : Option (Nat × Nat) :=
  probeGo s key (hash s key) (hash s key) 1 (s.maxhashes.getD (hash s key) 0 + 1)

/-- `ConstHashHeap::getopt` (consthashheap.rs 297-328). -/
def getopt (s : ConstHashHeap KT VT CAP) (iopt : Option Nat) (key : KT) : Option VT :=
  let probeVal : Option VT :=
    match probe s key with
    | some (vi, _) => (s.vals.getD vi none).map (fun p => p.1)
    | none => none
  match iopt with
  | some h =>
    if h < s.keys.length then
      match s.keys.getD h none with
      | some (k, vi) =>
        if k = key then (s.vals.getD vi none).map (fun p => p.1) else probeVal
      | none => probeVal
    else probeVal
  | none => probeVal

/-- `ConstHashHeap::get` (consthashheap.rs 286-288). -/
def get (s : ConstHashHeap KT VT CAP) (key : KT) : Option VT :=
  getopt s none key

/-- `ConstHashHeap::get_at` (consthashheap.rs 293-295). -/
def get_at (s : ConstHashHeap KT VT CAP) (index : Nat) (key : KT) : Option VT :=
  getopt s (some index) key

/-- `self.vals[vi].as_mut().map(|p| f(&mut p.0))`. -/
def valUpd (vals : List (Option (VT × Nat))) (vi : Nat) (f : VT → VT) :
    List (Option (VT × Nat)) :=
  vals.set vi ((vals.getD vi none).map (fun p => (f p.1, p.2)))

/-- `ConstHashHeap::modify_opt` (consthashheap.rs 349-389). -/
def modify_opt (s : ConstHashHeap KT VT CAP) (iopt : Option Nat) (key : KT)
    (f : VT → VT) : Option Nat × ConstHashHeap KT VT CAP :=
  let probeRes : Option Nat × ConstHashHeap KT VT CAP :=
    match probe s key with
    | some (vi, h) =>
      let s1 := { s with vals := valUpd s.vals vi f }
      (some h, (adjust s1 vi (decide (vi+1 < s1.size))).1)
    | none => (none, s)
  match iopt with
  | some h =>
    if h < s.keys.length then
      match s.keys.getD h none with
      | some (k, vi) =>
        if k = key then
          let s1 := { s with vals := valUpd s.vals vi f }
          (some h, (adjust s1 vi (decide (vi+1 < s1.size))).1)
        else probeRes
      | none => probeRes
    else probeRes
  | none => probeRes

/-- `ConstHashHeap::modify` (consthashheap.rs 335-337). -/
def modify (s : ConstHashHeap KT VT CAP) (key : KT) (f : VT → VT) :
    Bool × ConstHashHeap KT VT CAP :=
  let r := modify_opt s none key f
  (r.1.isSome, r.2)

/-- `ConstHashHeap::modify_at` (consthashheap.rs 343-347). -/
def modify_at (s : ConstHashHeap KT VT CAP) (index : Nat) (key : KT) (f : VT → VT) :
    Option Nat × ConstHashHeap KT VT CAP :=
  modify_opt s (some index) key f

/-- `ConstHashHeap::remove_opt` (consthashheap.rs 406-455). -/
def remove_opt (s : ConstHashHeap KT VT CAP) (iopt : Option Nat) (key : KT) :
    Option (KT × VT) × ConstHashHeap KT VT CAP :=
  let hintRes : Option (Nat × Nat) :=
    match iopt with
    | some idx =>
      if idx < s.keys.length then
        match s.keys.getD idx none with
        | some (k, vi) => if k = key then some (vi, idx) else none
        | none => none
      else none
    | none => none
  let found : Option (Nat × Nat) :=
    match hintRes with
    | some r => some r
    | none => probe s key
  match found with
  | none => (none, s)
  | some (vi, h) =>
    let ak := s.keys.getD h none
    let av := s.vals.getD vi none
    let s1 : ConstHashHeap KT VT CAP :=
      { s with keys := s.keys.set h none, vals := s.vals.set vi none }
    let answer : Option (KT × VT) :=
      match ak, av with
      | some a, some b => some (a.1, b.1)
      | _, _ => none
    let s2 : ConstHashHeap KT VT CAP :=
      if vi + 1 ≠ s1.size then (adjust (swap s1 vi (s1.size - 1)) vi true).1 else s1
    (answer, { s2 with size := s2.size - 1 })

/-- `ConstHashHeap::remove` (consthashheap.rs 395-397). -/
def remove (s : ConstHashHeap KT VT CAP) (key : KT) :
    Option (KT × VT) × ConstHashHeap KT VT CAP :=
  remove_opt s none key

/-- `ConstHashHeap::remove_at` (consthashheap.rs 402-404). -/
def remove_at (s : ConstHashHeap KT VT CAP) (index : Nat) (key : KT) :
    Option (KT × VT) × ConstHashHeap KT VT CAP :=
  remove_opt s (some index) key

/-- `ConstHashHeap::pop` (consthashheap.rs 458-474). -/
def pop (s : ConstHashHeap KT VT CAP) : Option (KT × VT) × ConstHashHeap KT VT CAP :=
  if s.size < 1 then (none, s)
  else
    match s.vals.getD 0 none with
    | some (_, ki) =>
      let ak := s.keys.getD ki none
      let av := s.vals.getD 0 none
      let s1 : ConstHashHeap KT VT CAP :=
        { s with keys := s.keys.set ki none, vals := s.vals.set 0 none }
      let answer : Option (KT × VT) :=
        match ak, av with
        | some a, some b => some (a.1, b.1)
        | _, _ => none
      let s2 : ConstHashHeap KT VT CAP := { s1 with size := s1.size - 1 }
      let s3 : ConstHashHeap KT VT CAP :=
        if 0 < s2.size then (swapdown (swap s2 0 s2.size) 0).1 else s2
      (answer, s3)
    | none => (none, s)

/-- `ConstHashHeap::peek` (consthashheap.rs 478-484). -/
def peek (s : ConstHashHeap KT VT CAP) : Option (KT × VT) :=
  if s.size < 1 then none
  else (s.vals.getD 0 none).bind
    (fun vp => (s.keys.getD vp.2 none).map (fun kp => (kp.1, vp.1)))

/-- The inner empty-slot probe of `ConstHashHeap::resize`
(consthashheap.rs 503-514), with fuel; returns `(h, hashes)`. -/
def probeEmptyGo (keys2 : List (Option (KT × Nat))) (N : Nat) :
    Nat → Nat → Nat → Option (Nat × Nat)
  | _, _, 0 => none
  | h, hashes, fuel+1 =>
    match keys2.getD h none with
    | some _ => probeEmptyGo keys2 N ((h+1) % N) (hashes+1) fuel
    | none => some (h, hashes)

/-- One iteration `i` of the `resize` copy loop (consthashheap.rs 497-521). -/
def resizeStep {NEWCAP : Nat} (self : ConstHashHeap KT VT CAP)
    (hp2 : ConstHashHeap KT VT NEWCAP) (i : Nat) :
    Option (ConstHashHeap KT VT CAP × ConstHashHeap KT VT NEWCAP) :=
  let go : Option (ConstHashHeap KT VT CAP × ConstHashHeap KT VT NEWCAP) :=
    match self.vals.getD i none with
    | some (_, ki) =>
      let step1 : Option (Nat × ConstHashHeap KT VT NEWCAP) :=
        match self.keys.getD ki none with
        | some (key, _) =>
          let h0 := borrow_hash NEWCAP self.hashf key
          match probeEmptyGo hp2.keys NEWCAP h0 1 (NEWCAP+1) with
          | none => none
          | some (h, hashes) =>
            some (h, { hp2 with maxhashes := hp2.maxhashes.set h0 hashes })
        | none => some (0, hp2)   -- closure skipped; `h` keeps its dummy 0
      match step1 with
      | none => none
      | some (h, hp2a) =>
        -- core::mem::swap(&mut hp2.keys[h], &mut self.keys[ki])
        let tmpk := hp2a.keys.getD h none
        let selfk := self.keys.getD ki none
        let hp2b : ConstHashHeap KT VT NEWCAP := { hp2a with keys := hp2a.keys.set h selfk }
        let selfa : ConstHashHeap KT VT CAP := { self with keys := self.keys.set ki tmpk }
        -- self.vals[i].as_mut().map(|p| p.1 = h)
        let selfb : ConstHashHeap KT VT CAP := { selfa with
          vals := selfa.vals.set i ((selfa.vals.getD i none).map (fun p => (p.1, h))) }
        some (selfb, hp2b)
    | none => some (self, hp2)
  match go with
  | none => none
  | some (selfc, hp2c) =>
    -- core::mem::swap(&mut hp2.vals[i], &mut self.vals[i])
    let tv := hp2c.vals.getD i none
    let sv := selfc.vals.getD i none
    some ({ selfc with vals := selfc.vals.set i tv },
          { hp2c with vals := hp2c.vals.set i sv })

/-- The `for i in 0..self.size` loop of `resize`, iterating `resizeStep` from
index `i` with `k` iterations remaining. -/
def resizeGo {NEWCAP : Nat} :
    (ConstHashHeap KT VT CAP × ConstHashHeap KT VT NEWCAP) → Nat → Nat →
    Option (ConstHashHeap KT VT CAP × ConstHashHeap KT VT NEWCAP)
  | p, _, 0 => some p
  | p, i, k+1 => (resizeStep p.1 p.2 i).bind (fun q => resizeGo q (i+1) k)

/-- `ConstHashHeap::resize` (consthashheap.rs 493-524).  The final
`hp2.autostate = self.autostate` transfer is modelled by constructing `hp2`
with `self`'s hash function (its own fresh `RandomState` is never consulted:
`borrow_hash` always uses `self`'s). -/
def resize (s : ConstHashHeap KT VT CAP) (NEWCAP : Nat) :
    Option (ConstHashHeap KT VT NEWCAP) :=
  let hp2 : ConstHashHeap KT VT NEWCAP := new true s.hashf
  let hp2a := { hp2 with lessthan := s.lessthan, size := s.size }
  (resizeGo (s, hp2a) 0 s.size).map (fun q => q.2)

/-- `ConstHashHeap::refresh` (consthashheap.rs 529-531). -/
def refresh (s : ConstHashHeap KT VT CAP) : Option (ConstHashHeap KT VT CAP) :=
  resize s CAP

end ConstHashHeap

/-! ## Draining (repeated `pop`), both variants.

The consuming iterators (`IntoIter::next` in lib.rs 681-687 and
`PriorityStream::next` in consthashheap.rs 633-642) are exactly repeated
`pop`; `drain` below iterates `pop` until it reports absence (fuel
`len+1`/`size+1` suffices because each successful `pop` removes one entry). -/

namespace HashHeap

variable {KT VT : Type} [DecidableEq KT] [LinearOrder VT] [Inhabited VT]

def drainGo : HashHeap KT VT → Nat → List (KT × VT) × HashHeap KT VT
  | s, 0 => ([], s)
  | s, fuel+1 =>
    match pop s with
    | some (some p, s2) =>
      let r := drainGo s2 fuel
      (p :: r.1, r.2)
    | some (none, s2) => ([], s2)
    | none => ([], s)

/-- Repeated `pop` until absence (the consuming-iterator stream). -/
def drain (s : HashHeap KT VT) : List (KT × VT) × HashHeap KT VT :=
  drainGo s (s.vals.length + 1)

end HashHeap

namespace ConstHashHeap

variable {KT VT : Type} [DecidableEq KT] [LinearOrder VT] {CAP : Nat}

def drainGo : ConstHashHeap KT VT CAP → Nat → List (KT × VT) × ConstHashHeap KT VT CAP
  | s, 0 => ([], s)
  | s, fuel+1 =>
    match pop s with
    | (some p, s2) =>
      let r := drainGo s2 fuel
      (p :: r.1, r.2)
    | (none, s2) => ([], s2)

/-- Repeated `pop` until absence (the `priority_stream` iterator). -/
def drain (s : ConstHashHeap KT VT CAP) : List (KT × VT) × ConstHashHeap KT VT CAP :=
  drainGo s (s.size + 1)

end ConstHashHeap

/-! ## Generic binary-heap order development over lists.

Both variants' sift loops act on their value arrays in the same way
(`lswap` plus back-reference bookkeeping that does not affect the array of
values); the heap-order reasoning is done once here over plain lists and
transferred to each variant by projection lemmas. -/

/-- Heap order on the first `n` positions of `l`: no child is above its
parent, where `lt a b` reads "`a` has lower priority than `b`". -/
def HeapD {α : Type} [Inhabited α] (lt : α → α → Bool) (l : List α) (n : Nat) : Prop :=
  ∀ c, 0 < c → c < n → lt (l.getD (heapParent c) default) (l.getD c default) = false

/-- The dominated-child selection common to both variants' `swapdown`
(lib.rs 416-423 with `n = l.length`, consthashheap.rs 130-140 with
`n = size`). -/
def heapPick {α : Type} [Inhabited α] (lt : α → α → Bool) (n : Nat) (l : List α)
    (i : Nat) : Option Nat :=
  let lf := heapLeft i
  let rt := heapRight i
  let s1 : Option Nat :=
    if lf < n ∧ lt (l.getD i default) (l.getD lf default) = true then some lf else none
  if rt < n ∧ lt (l.getD i default) (l.getD rt default) = true
      ∧ lt (l.getD lf default) (l.getD rt default) = true
  then some rt else s1

def siftDownGo {α : Type} [Inhabited α] (lt : α → α → Bool) (n : Nat) :
    List α → Nat → Nat → List α × Nat
  | l, i, 0 => (l, i)
  | l, i, fuel+1 =>
    match heapPick lt n l i with
    | some k => siftDownGo lt n (lswap l i k) k fuel
    | none => (l, i)

def siftUpGo {α : Type} [Inhabited α] (lt : α → α → Bool) :
    List α → Nat → Nat → List α × Nat
  | l, i, 0 => (l, i)
  | l, i, fuel+1 =>
    if 0 < i ∧ lt (l.getD (heapParent i) default) (l.getD i default) = true then
      siftUpGo lt (lswap l i (heapParent i)) (heapParent i) fuel
    else (l, i)

/-- The order-theoretic facts about a comparator needed for heap
correctness, relativised to the `Good` elements actually stored (for the
bounded variant `none` padding is compared but never `Good`). -/
structure LtOk {α : Type} (lt : α → α → Bool) (Good : α → Prop) : Prop where
  asym : ∀ a b, lt a b = true → lt b a = false
  ltrans : ∀ a b c, lt a b = true → lt b c = true → lt a c = true
  cotrans : ∀ a b c, Good a → Good b → Good c → lt a c = true → lt a b = true ∨ lt b c = true

/-- All of the first `n` entries of `l` are `Good`. -/
def GoodOn {α : Type} [Inhabited α] (Good : α → Prop) (l : List α) (n : Nat) : Prop :=
  ∀ j, j < n → Good (l.getD j default)

/-! ## Invariants and reachability, growable variant -/

namespace HashHeap

variable {KT VT : Type} [DecidableEq KT] [LinearOrder VT] [Inhabited VT]

/-- The comparator of a state, lifted to the stored `(value, hashindex)`
pairs (comparisons in lib.rs always go through `.0`). -/
def hlt (s : HashHeap KT VT) : (VT × Nat) → (VT × Nat) → Bool :=
  fun a b => s.lessthan a.1 b.1

/-- Cross-reference consistency of `kmap` with `keys`/`vals`:
1. every stored value's hash index maps back to its own heap position and a
   live key slot;
2. every `kmap` entry has an in-range key index, and if that key slot is
   live the entry's value index is in range and owns this hash index;
3. a live key slot is referenced by at most one hash index. -/
def KmapOk (s : HashHeap KT VT) : Prop :=
  (∀ i, i < s.vals.length → ∃ ki, List.lookup (s.vals.getD i default).2 s.kmap = some (ki, i)
      ∧ ki < s.keys.length ∧ s.keys.getD ki none ≠ none)
  ∧ (∀ h ki vi, List.lookup h s.kmap = some (ki, vi) → ki < s.keys.length
      ∧ (s.keys.getD ki none ≠ none → vi < s.vals.length ∧ (s.vals.getD vi default).2 = h))
  ∧ (∀ h1 h2 ki vi1 vi2, List.lookup h1 s.kmap = some (ki, vi1) →
      List.lookup h2 s.kmap = some (ki, vi2) → s.keys.getD ki none ≠ none → h1 = h2)

/-- The internal invariant of a growable `HashHeap`. -/
def Inv (s : HashHeap KT VT) : Prop :=
  KmapOk s ∧ HeapD (hlt s) s.vals s.vals.length

/-- The comparator installed by `with_capacity` for each heap discipline. -/
def canonLt (maxheap : Bool) : VT → VT → Bool :=
  if maxheap then (fun a b => decide (a < b)) else (fun a b => decide (b < a))

/-- The configuration facts preserved by the five mutating operations of
claim C1: the comparator is the constructor-installed one for the recorded
discipline. -/
def CmpCanon (s : HashHeap KT VT) : Prop :=
  s.lessthan = canonLt s.minmax

/-- States reachable from a fresh `HashHeap` by `insert`, `push`, `modify`,
`remove` and `pop` (each step required to complete, i.e. return `some`). -/
inductive Reach : HashHeap KT VT → Prop
  | init (cap : Nat) (maxheap : Bool) (dh : KT → Nat) :
      Reach (with_capacity cap maxheap dh)
  | insert (s s' : HashHeap KT VT) (k : KT) (v : VT) (r : Option (KT × VT)) :
      Reach s → HashHeap.insert s k v = some (r, s') → Reach s'
  | push (s s' : HashHeap KT VT) (k : KT) (v : VT) (b : Bool) :
      Reach s → HashHeap.push s k v = some (b, s') → Reach s'
  | modify (s s' : HashHeap KT VT) (k : KT) (f : VT → VT) (b : Bool) :
      Reach s → HashHeap.modify s k f = some (b, s') → Reach s'
  | remove (s s' : HashHeap KT VT) (k : KT) (r : Option (KT × VT)) :
      Reach s → HashHeap.remove s k = some (r, s') → Reach s'
  | pop (s s' : HashHeap KT VT) (r : Option (KT × VT)) :
      Reach s → HashHeap.pop s = some (r, s') → Reach s'

/-- The key owning a stored `(value, hashindex)` pair: resolve the pair's hash
index through `kmap` and read the key slot (`none` when the resolution
fails; under `KmapOk` it never does for stored pairs). -/
def elemKey (s : HashHeap KT VT) (x : VT × Nat) : Option KT :=
  match List.lookup x.2 s.kmap with
  | some (ki, _) => s.keys.getD ki none
  | none => none

/-- The multiset of stored (key, value) pairs of a growable heap (keys as
`Option` because resolution is partial on ill-formed states). -/
def pairsOf (s : HashHeap KT VT) : Multiset (Option KT × VT) :=
  (s.vals.map (fun x => (elemKey s x, x.1)) : List (Option KT × VT))

/-- The fields (and value-array length) left untouched by `heapswap` and the
two sift loops. -/
def SameConf (s t : HashHeap KT VT) : Prop :=
  t.keys = s.keys ∧ t.lessthan = s.lessthan ∧ t.userhash = s.userhash
  ∧ t.rehash = s.rehash ∧ t.defaulthash = s.defaulthash ∧ t.minmax = s.minmax
  ∧ t.vals.length = s.vals.length

end HashHeap

/-! ## Invariants and reachability, bounded variant -/

namespace ConstHashHeap

variable {KT VT : Type} [DecidableEq KT] [LinearOrder VT] {CAP : Nat}

/-- Well-formed storage shape: all three arrays have length `CAP` and the
entry count is bounded by the capacity. -/
def Shape (s : ConstHashHeap KT VT CAP) : Prop :=
  s.keys.length = CAP ∧ s.vals.length = CAP ∧ s.maxhashes.length = CAP ∧ s.size ≤ CAP

end ConstHashHeap

/-- Occupancy of a list of options at a boundary `m`: the first `m` slots are
occupied and the rest (including out-of-range reads) are free. -/
def OccL {α : Type} (m : Nat) (l : List (Option α)) : Prop :=
  (∀ j, j < m → (l.getD j none).isSome)
  ∧ (∀ j, m ≤ j → l.getD j none = none)

namespace ConstHashHeap

variable {KT VT : Type} [DecidableEq KT] [LinearOrder VT] {CAP : Nat}

/-- Occupancy of the value array at a boundary `m`: the first `m` value slots
are occupied and the rest are free. -/
def OccAt (s : ConstHashHeap KT VT CAP) (m : Nat) : Prop :=
  OccL m s.vals

/-- Mutual back-referencing of the two arrays: an occupied value slot points
at a key slot that points straight back, and an occupied key slot points at a
value slot that points back.  (In-range bounds follow because out-of-range
`getD` reads give `none`.) -/
def KeyVal (s : ConstHashHeap KT VT CAP) : Prop :=
  (∀ i v ki, s.vals.getD i none = some (v, ki) → ∃ k, s.keys.getD ki none = some (k, i))
  ∧ (∀ h k vi, s.keys.getD h none = some (k, vi) → ∃ v, s.vals.getD vi none = some (v, h))

/-- Cross-reference consistency of the two arrays: occupancy at the recorded
`size` plus mutual back-referencing. -/
def Xref (s : ConstHashHeap KT VT CAP) : Prop :=
  OccAt s s.size ∧ KeyVal s

/-- The internal invariant of a bounded `ConstHashHeap`. -/
def Inv (s : ConstHashHeap KT VT CAP) : Prop :=
  Shape s ∧ Xref s ∧ HeapD s.lessthan s.vals s.size

/-- The comparator installed by `new` for each heap discipline. -/
def canonLt (maxheap : Bool) : Option (VT × Nat) → Option (VT × Nat) → Bool :=
  if maxheap then (fun a b => optcmp a b true) else (fun a b => optcmp a b false)

/-- The source struct does not record the min/max flag; a state "is a
min/max-discipline instance" when its comparator is the constructor-installed
one for that flag. -/
def CmpIs (s : ConstHashHeap KT VT CAP) (maxheap : Bool) : Prop :=
  s.lessthan = canonLt maxheap

/-- States reachable from a fresh `ConstHashHeap` by `insert` (= `push`),
`modify`/`modify_at`, `remove`/`remove_at` and `pop` (insert steps with any
fuel that lets the probe loop finish). -/
inductive Reach : ConstHashHeap KT VT CAP → Prop
  | init (maxheap : Bool) (hf : KT → Nat) : Reach (new maxheap hf)
  | insert (s s' : ConstHashHeap KT VT CAP) (fuel : Nat) (k : KT) (v : VT) (b : Bool) :
      Reach s → ConstHashHeap.insert fuel s k v = some (b, s') → Reach s'
  | modify (s s' : ConstHashHeap KT VT CAP) (iopt : Option Nat) (k : KT) (f : VT → VT)
      (r : Option Nat) :
      Reach s → modify_opt s iopt k f = (r, s') → Reach s'
  | remove (s s' : ConstHashHeap KT VT CAP) (iopt : Option Nat) (k : KT)
      (r : Option (KT × VT)) :
      Reach s → remove_opt s iopt k = (r, s') → Reach s'
  | pop (s s' : ConstHashHeap KT VT CAP) (r : Option (KT × VT)) :
      Reach s → ConstHashHeap.pop s = (r, s') → Reach s'

/-- The key owning a stored value slot: follow the slot's back-reference into
the key array (`none` on a free slot or dangling reference). -/
def keyName (s : ConstHashHeap KT VT CAP) (x : Option (VT × Nat)) : Option KT :=
  x.bind (fun p => (s.keys.getD p.2 none).map (fun q => q.1))

/-- The multiset of stored (key, value) pairs of a bounded heap (components
as `Option` because slot resolution is partial on ill-formed states). -/
def pairsOfC (s : ConstHashHeap KT VT CAP) : Multiset (Option KT × Option VT) :=
  ((s.vals.take s.size).map (fun x => (keyName s x, x.map (fun p => p.1)))
    : List (Option KT × Option VT))

/-- The fields (and array lengths) left untouched by `swap` and the two sift
loops of the bounded variant. -/
def SameConfC (s t : ConstHashHeap KT VT CAP) : Prop :=
  t.maxhashes = s.maxhashes ∧ t.size = s.size ∧ t.hashf = s.hashf
  ∧ t.lessthan = s.lessthan ∧ t.keys.length = s.keys.length
  ∧ t.vals.length = s.vals.length

/-- Probe consistency: every occupied key slot is found by the bounded probe
of its own key at exactly that slot (the property that makes the probe loops
complete for stored keys; stated slotwise so it is decidable on concrete
states). -/
def ProbeOk (s : ConstHashHeap KT VT CAP) : Prop :=
  ∀ h, h < CAP →
    match s.keys.getD h none with
    | some (k, vi) => probe s k = some (vi, h)
    | none => True

/-- Executable slotwise check equivalent to `ProbeOk` (used to establish it on
concrete states). -/
def probeOkCheck (s : ConstHashHeap KT VT CAP) : Bool :=
  (List.range CAP).all (fun h =>
    match s.keys.getD h none with
    | some (k, vi) => decide (probe s k = some (vi, h))
    | none => true)

/-- Loop invariant of the `resize` copy loop after `i` iterations: entries at
value positions below `i` have been moved into the new table `b` at the same
value position with their key and value intact, entries at positions from `i`
up are still untouched in the source `a`, the new table is free above `i` and
every occupied new key slot belongs to a moved entry, and the new key store
keeps enough free slots for the remaining entries. -/
def ResizeInv (s : ConstHashHeap KT VT CAP) (NEWCAP i : Nat)
    (a : ConstHashHeap KT VT CAP) (b : ConstHashHeap KT VT NEWCAP) : Prop :=
  a.keys.length = CAP ∧ a.vals.length = CAP ∧ a.hashf = s.hashf
  ∧ b.keys.length = NEWCAP ∧ b.vals.length = NEWCAP
  ∧ b.lessthan = s.lessthan ∧ b.size = s.size ∧ b.hashf = s.hashf
  ∧ (∀ j, i ≤ j → a.vals.getD j none = s.vals.getD j none)
  ∧ (∀ j v kj, i ≤ j → s.vals.getD j none = some (v, kj) →
      a.keys.getD kj none = s.keys.getD kj none)
  ∧ (∀ j, j < i → ∃ v kj k h, s.vals.getD j none = some (v, kj)
      ∧ s.keys.getD kj none = some (k, j)
      ∧ b.vals.getD j none = some (v, h) ∧ h < NEWCAP
      ∧ b.keys.getD h none = some (k, j))
  ∧ (∀ j, i ≤ j → b.vals.getD j none = none)
  ∧ (∀ h k vi2, b.keys.getD h none = some (k, vi2) →
      vi2 < i ∧ ∃ v, b.vals.getD vi2 none = some (v, h))

end ConstHashHeap

/-! ## Concrete states used by claim theorems and witnesses -/

/-- Fold a list of insertions into a growable heap (each step must succeed). -/
def hhInsertAll (s : Option (HashHeap Nat Int)) (l : List (Nat × Int)) :
    Option (HashHeap Nat Int) :=
  l.foldl (fun acc kv => acc.bind (fun t => (HashHeap.insert t kv.1 kv.2).map (fun r => r.2))) s

/-- A fresh growable min-heap over `Nat` keys hashed by the identity. -/
def hhFresh : HashHeap Nat Int := HashHeap.with_capacity 16 false id

/-- C6: insert key 7 and remove it again — the structure holds no entries but
its key store retains the tombstone. -/
def hhC6 : HashHeap Nat Int :=
  match (hhInsertAll (some hhFresh) [(7, 1)]).bind
      (fun s => (HashHeap.remove s 7).map (fun r => r.2)) with
  | some s => s
  | none => hhFresh

/-- C9/C2: all keys hash to 0 (a custom hash the API allows), keys 0 and 1
inserted with values 1 and 2. -/
def hhC9base : HashHeap Nat Int :=
  match hhInsertAll (some (HashHeap.set_hash hhFresh (fun _ => 0)).2) [(0, 1), (1, 2)] with
  | some s => s
  | none => hhFresh

/-- C9/C2: the state after `top_swap(2, 3)` on `hhC9base` (key 2 unseen). -/
def hhC9after : HashHeap Nat Int :=
  match HashHeap.top_swap hhC9base 2 3 with
  | some (_, s) => s
  | none => hhFresh

/-- C2: the state after a further `insert(2, 5)` on `hhC9after`. -/
def hhC2after : HashHeap Nat Int :=
  match HashHeap.insert hhC9after 2 5 with
  | some (_, s) => s
  | none => hhFresh

/-- Executable check of claim C2's global invariant on a growable state:
key-slot and value-slot cross references form a bijection over occupied
slots (every stored value's hash index resolves to a live key slot and
records the value's own heap position, and distinct value slots use distinct
key slots), the occupied value array is heap-ordered under the instance's
comparator, and the stored keys are pairwise distinct. -/
def bijCheck (s : HashHeap Nat Int) : Bool :=
  ((List.range s.vals.length).all (fun i =>
      match List.lookup (s.vals.getD i default).2 s.kmap with
      | some (ki, vi) => vi == i && (s.keys.getD ki none).isSome
      | none => false))
  && decide (((List.range s.vals.length).filterMap
        (fun i => (List.lookup (s.vals.getD i default).2 s.kmap).map (fun p => p.1))).Nodup)
  && decide ((s.keys.filterMap id).Nodup)
  && ((List.range s.vals.length).all (fun c =>
      c == 0 || !(s.lessthan (s.vals.getD (heapParent c) default).1 (s.vals.getD c default).1)))

/-- C3: a bounded heap of capacity 1 holding key 0. -/
def chhC3 : ConstHashHeap Nat Int 1 :=
  match ConstHashHeap.insert 16 (ConstHashHeap.new false id) 0 10 with
  | some r => r.2
  | none => ConstHashHeap.new false id

/-- C4: a bounded heap of capacity 2 holding keys 0 and 1. -/
def chhC4 : ConstHashHeap Nat Int 2 :=
  match (ConstHashHeap.insert 16 (ConstHashHeap.new false id) 0 10).bind
      (fun r => ConstHashHeap.insert 16 r.2 1 20) with
  | some r => r.2
  | none => ConstHashHeap.new false id

/-- C5: a bounded heap of capacity 4 holding key 0 with value 10. -/
def chhC5 : ConstHashHeap Nat Int 4 :=
  match ConstHashHeap.insert 16 (ConstHashHeap.new false id) 0 10 with
  | some r => r.2
  | none => ConstHashHeap.new false id

/-- C6: two inserts followed by two removes — no entries, two tombstones. -/
def hhC6b : HashHeap Nat Int :=
  match (hhInsertAll (some hhFresh) [(7, 1), (8, 2)]).bind
      (fun s => (HashHeap.remove s 7).bind
        (fun r => (HashHeap.remove r.2 8).map (fun r2 => r2.2))) with
  | some s => s
  | none => hhFresh

/-- Witness states: a small growable min-heap reached by two inserts. -/
def hhW0 : HashHeap Nat Int := HashHeap.with_capacity 4 false id

def hhW1 : HashHeap Nat Int :=
  match HashHeap.insert hhW0 0 5 with
  | some r => r.2
  | none => hhW0

def hhW2 : HashHeap Nat Int :=
  match HashHeap.insert hhW1 1 3 with
  | some r => r.2
  | none => hhW1

/-- Witness states: a small bounded min-heap reached by two inserts. -/
def chhW0 : ConstHashHeap Nat Int 4 := ConstHashHeap.new false id

def chhW1 : ConstHashHeap Nat Int 4 :=
  match ConstHashHeap.insert 16 chhW0 0 5 with
  | some r => r.2
  | none => chhW0

def chhW2 : ConstHashHeap Nat Int 4 :=
  match ConstHashHeap.insert 16 chhW1 1 3 with
  | some r => r.2
  | none => chhW1

/-! # Claim theorems

Everything below this point is a theorem; all definitions are above. -/

/-! ## C3 / C4: bounded insert at full capacity with a new key -/

theorem chhC3_keys_eval : chhC3.keys = [some (0, 0)] := by decide

theorem chhC3_size_eval : chhC3.size = 1 := by decide

theorem c3_insertGo_none :
    ∀ (fuel hashes : Nat) (target : Option Nat),
      ConstHashHeap.insertGo chhC3 1 0 0 hashes target fuel = none := by
  intro fuel
  induction fuel with
  | zero => intro hashes target; rfl
  | succ n ih =>
    intro hashes target
    have hk : chhC3.keys.getD 0 none = some (0, 0) := by decide
    simp only [ConstHashHeap.insertGo, hk, ConstHashHeap.rehash]
    norm_num
    exact ih (hashes+1) target

/-- C3: with capacity 1 and key 0 stored, `insert` of the distinct new key 1
diverges: the probe loop never exits, for any fuel, because every slot is
occupied by another key and the `Some(_)` arm rehashes unconditionally.  The
claim's `false` return (capacity exceeded) is never produced. -/
theorem c3_full_insert_diverges :
    ∀ fuel : Nat, ConstHashHeap.insert fuel chhC3 1 (5 : Int) = none := by
  intro fuel
  show ConstHashHeap.insert fuel chhC3 1 5 = none
  unfold ConstHashHeap.insert
  have hh : ConstHashHeap.hash chhC3 1 = 0 := by decide
  rw [hh]
  simp only [c3_insertGo_none]

theorem chhC4_keys_eval : chhC4.keys = [some (0, 0), some (1, 1)] := by decide

theorem c4_insertGo_none :
    ∀ (fuel h hashes : Nat) (target : Option Nat), h < 2 →
      ConstHashHeap.insertGo chhC4 2 0 h hashes target fuel = none := by
  intro fuel
  induction fuel with
  | zero => intro h hashes target hlt; rfl
  | succ n ih =>
    intro h hashes target hlt
    have hcase : h = 0 ∨ h = 1 := by omega
    rcases hcase with h0 | h1
    · subst h0
      have hk : chhC4.keys.getD 0 none = some (0, 0) := by decide
      simp only [ConstHashHeap.insertGo, hk, ConstHashHeap.rehash]
      norm_num
      exact ih 1 (hashes+1) target (by omega)
    · subst h1
      have hk : chhC4.keys.getD 1 none = some (1, 1) := by decide
      simp only [ConstHashHeap.insertGo, hk, ConstHashHeap.rehash]
      norm_num
      exact ih 0 (hashes+1) target (by omega)

/-- C4: the bounded variant's `insert` does not terminate on the reachable
full state `chhC4` (capacity 2, keys 0 and 1) with the new key 2, for any
fuel — refuting "every public operation of both variants terminates on every
reachable state and every input". -/
theorem c4_bounded_insert_nontermination :
    ∀ fuel : Nat, ConstHashHeap.insert fuel chhC4 2 (7 : Int) = none := by
  intro fuel
  show ConstHashHeap.insert fuel chhC4 2 7 = none
  unfold ConstHashHeap.insert
  have hh : ConstHashHeap.hash chhC4 2 = 0 := by decide
  rw [hh]
  simp only [c4_insertGo_none fuel 0 1 none (by omega)]

/-! ## C5: push on an already-present key -/

/-- C5 counterexample: in the bounded variant, `push` of the present key 0
returns `true` and replaces the stored value (10 becomes 99) — the claim
says it returns `false` and never replaces. -/
theorem c5_counterexample :
    (ConstHashHeap.push 16 chhC5 0 (99 : Int)).map (fun r => r.1) = some true
    ∧ (ConstHashHeap.push 16 chhC5 0 (99 : Int)).bind (fun r => ConstHashHeap.get r.2 0)
        = some 99
    ∧ ConstHashHeap.get chhC5 0 = some 10 := by
  refine ⟨?_, ?_, ?_⟩ <;> decide

/-! ## C6: configuration setters after entries have existed -/

/-- C6 counterexample: after inserting key 7 and removing it the structure
holds no entries (`len = 0`), yet `set_hash` and `set_rehash` fail — and
with two tombstones (`hhC6b`) `set_cmp` fails as well; the claim says these
succeed if and only if the structure currently holds no entries (at most one
for `set_cmp`). -/
theorem c6_counterexample :
    HashHeap.len hhC6 = 0
    ∧ (HashHeap.set_hash hhC6 (fun _ => 0)).1 = false
    ∧ (HashHeap.set_rehash hhC6 (fun h c => h + 2*c)).1 = false
    ∧ HashHeap.len hhC6b = 0
    ∧ (HashHeap.set_cmp hhC6b (fun a b => decide (a < b))).1 = false := by
  refine ⟨?_, ?_, ?_, ?_, ?_⟩ <;> decide

/-- C6 amended: `set_hash` and `set_rehash` succeed iff the key store has
never held a key since construction (`keys.len() = 0`, tombstones of removed
keys included), and `set_cmp` succeeds iff it holds at most one key slot;
on failure the configuration is unchanged. -/
theorem c6_amended :
    ∀ (KT VT : Type) [DecidableEq KT] [LinearOrder VT] [Inhabited VT]
      (s : HashHeap KT VT) (hf : KT → Nat) (rh : Nat → Nat → Nat) (cmp : VT → VT → Bool),
      ((HashHeap.set_hash s hf).1 = true ↔ s.keys.length = 0)
      ∧ ((HashHeap.set_hash s hf).1 = false → (HashHeap.set_hash s hf).2 = s)
      ∧ ((HashHeap.set_rehash s rh).1 = true ↔ s.keys.length = 0)
      ∧ ((HashHeap.set_rehash s rh).1 = false → (HashHeap.set_rehash s rh).2 = s)
      ∧ ((HashHeap.set_cmp s cmp).1 = true ↔ s.keys.length ≤ 1)
      ∧ ((HashHeap.set_cmp s cmp).1 = false → (HashHeap.set_cmp s cmp).2 = s) := by
  intro KT VT _ _ _ s hf rh cmp
  refine ⟨?_, ?_, ?_, ?_, ?_, ?_⟩ <;>
    simp only [HashHeap.set_hash, HashHeap.set_rehash, HashHeap.set_cmp] <;>
    split_ifs with h <;> simp <;>
    first
    | omega
    | (rw [← List.length_eq_zero]; omega)

theorem c6_amended_witness :
    (HashHeap.set_hash hhC6 (fun _ => 0)).2 = hhC6
    ∧ ((HashHeap.set_hash hhFresh (fun _ => 0)).1 = true) :=
  ⟨(c6_amended Nat Int hhC6 (fun _ => 0) (fun h c => h + c) (fun a b => decide (a < b))).2.1
      (by decide),
   ((c6_amended Nat Int hhFresh (fun _ => 0) (fun h c => h + c)
      (fun a b => decide (a < b))).1).mpr (by decide)⟩

/-! ## C9: top_swap with colliding hashes leaves the new key unreachable -/

/-- C9: on the reachable two-entry min-heap `hhC9base` (custom hash mapping
every key to 0, keys 0 and 1 with values 1 and 2), `top_swap(2, 3)` returns
the prior root pair `(0, 1)` as specified, but afterwards `get 2` returns
`some 2` — not the inserted value 3: `top_swap` leaves the replaced root
key's stale `kmap` entry pointing at the reused key slot, and the new key's
probe finds that stale entry first. -/
theorem c9_top_swap_get_wrong_value :
    (HashHeap.top_swap hhC9base 2 (3 : Int)).map (fun r => r.1) = some (some (0, 1))
    ∧ HashHeap.get hhC9after 2 = some (some 2)
    ∧ ¬ HashHeap.get hhC9after 2 = some (some 3) := by
  refine ⟨?_, ?_, ?_⟩ <;> decide

/-! ## C2: a public-operation sequence that breaks the global invariant -/

/-- C2: after `top_swap` the state `hhC9after` still satisfies the claimed
global invariant (`bijCheck` = bijective cross references + heap order +
distinct keys), and the public `insert(2, 5)` then completes normally but
yields a state where two value slots reference the same key slot: the
bijection is destroyed.  So not every public operation preserves the
invariant. -/
theorem c2_insert_breaks_bijection :
    bijCheck hhC9after = true
    ∧ (HashHeap.insert hhC9after 2 (5 : Int)).isSome = true
    ∧ bijCheck hhC2after = false := by
  refine ⟨?_, ?_, ?_⟩ <;> decide

/-! ## C10: `from_pairs` stores every input pair -/

theorem lookup_le_maxfold (m : List (Nat × Nat × Nat)) (h : Nat) (p : Nat × Nat)
    (hl : List.lookup h m = some p) :
    h ≤ (m.map (fun e => e.1)).foldr max 0 := by
  induction m with
  | nil => cases hl
  | cons a m ih =>
    simp only [List.lookup] at hl
    by_cases hh : h = a.1
    · subst hh
      simp only [List.map_cons, List.foldr_cons]
      exact Nat.le_max_left _ _
    · have : (h == a.1) = false := by simp [hh]
      rw [this] at hl
      simp only [List.map_cons, List.foldr_cons]
      exact le_trans (ih hl) (Nat.le_max_right _ _)

theorem findslotGo_succ {KT VT : Type} [DecidableEq KT] [LinearOrder VT]
    [Inhabited VT] (s : HashHeap KT VT) (key : KT) (h0 h c : Nat)
    (reuse : Option Nat) (fuel : Nat) :
    HashHeap.findslotGo s key h0 h c reuse (fuel+1) =
      (match List.lookup h s.kmap with
      | some (ki, _) =>
        match s.keys.getD ki none with
        | some key2 =>
          if key2 = key then some (h, true)
          else HashHeap.findslotGo s key h0 (s.rehash h0 (c+1)) (c+1) reuse fuel
        | none =>
          HashHeap.findslotGo s key h0 (s.rehash h0 (c+1)) (c+1)
            (match reuse with | some g => some g | none => some h) fuel
      | none => some (match reuse with | some g => (g, false) | none => (h, false))) := rfl

theorem findslotGo_default_total {KT VT : Type} [DecidableEq KT] [LinearOrder VT]
    [Inhabited VT] (s : HashHeap KT VT) (hreh : s.rehash = fun h c => h + c)
    (key : KT) (h0 : Nat) :
    ∀ (fuel c : Nat) (reuse : Option Nat),
      (s.kmap.map (fun e => e.1)).foldr max 0 + 1 ≤ h0 + c + fuel →
      (HashHeap.findslotGo s key h0 (h0 + c) c reuse (fuel+1)).isSome := by
  intro fuel
  induction fuel with
  | zero =>
    intro c reuse hle
    cases hl : List.lookup (h0 + c) s.kmap with
    | none => simp [HashHeap.findslotGo, hl]
    | some p =>
      have := lookup_le_maxfold s.kmap (h0 + c) p hl
      omega
  | succ n ih =>
    intro c reuse hle
    rw [findslotGo_succ]
    cases hl : List.lookup (h0 + c) s.kmap with
    | none => simp [hl]
    | some p =>
      obtain ⟨ki, vi⟩ := p
      simp only [hl]
      cases hk : s.keys.getD ki none with
      | some key2 =>
        simp only [hk]
        by_cases hkey : key2 = key
        · simp [hkey]
        · simp only [if_neg hkey, hreh]
          exact ih (c+1) reuse (by omega)
      | none =>
        simp only [hk, hreh]
        exact ih (c+1) _ (by omega)

theorem findslot_default_total {KT VT : Type} [DecidableEq KT] [LinearOrder VT]
    [Inhabited VT] (s : HashHeap KT VT) (hreh : s.rehash = fun h c => h + c)
    (key : KT) : (HashHeap.findslot s key).isSome := by
  unfold HashHeap.findslot HashHeap.kmapBound
  have h := findslotGo_default_total s hreh key (HashHeap.autohash s key)
    ((s.kmap.map (fun e => e.1)).foldr max 0 + 1) 0 none (by omega)
  simpa using h

theorem heapswap_vals_length {KT VT : Type} [DecidableEq KT] [LinearOrder VT]
    [Inhabited VT] (s : HashHeap KT VT) (i j : Nat) :
    (HashHeap.heapswap s i j).vals.length = s.vals.length := by
  unfold HashHeap.heapswap
  split
  · rfl
  · simp [lswap]

theorem swapdownGo_vals_length {KT VT : Type} [DecidableEq KT] [LinearOrder VT]
    [Inhabited VT] : ∀ (fuel : Nat) (s : HashHeap KT VT) (i : Nat),
    (HashHeap.swapdownGo s i fuel).1.vals.length = s.vals.length := by
  intro fuel
  induction fuel with
  | zero => intro s i; rfl
  | succ n ih =>
    intro s i
    rw [HashHeap.swapdownGo]
    split
    · cases hsc : HashHeap.swapdownSc s i with
      | some k => simpa [heapswap_vals_length] using ih (HashHeap.heapswap s i k) k
      | none => rfl
    · rfl

theorem swapdown_vals_length {KT VT : Type} [DecidableEq KT] [LinearOrder VT]
    [Inhabited VT] (s : HashHeap KT VT) (i : Nat) :
    (HashHeap.swapdown s i).1.vals.length = s.vals.length :=
  swapdownGo_vals_length _ s i

theorem heapifyDownLoop_vals_length {KT VT : Type} [DecidableEq KT] [LinearOrder VT]
    [Inhabited VT] : ∀ (n : Nat) (s : HashHeap KT VT),
    (HashHeap.heapifyDownLoop s n).vals.length = s.vals.length := by
  intro n
  induction n with
  | zero => intro s; rfl
  | succ m ih =>
    intro s
    rw [HashHeap.heapifyDownLoop]
    rw [ih, swapdown_vals_length]

theorem heapifyLoopIns_total {KT VT : Type} [DecidableEq KT] [LinearOrder VT]
    [Inhabited VT] : ∀ (l : List (KT × VT)) (s : HashHeap KT VT),
    s.rehash = (fun h c => h + c) →
    ∃ s', HashHeap.heapifyLoopIns s l = some s'
      ∧ s'.vals.length = s.vals.length + l.length
      ∧ s'.rehash = s.rehash := by
  intro l
  induction l with
  | nil =>
    intro s hreh
    exact ⟨s, rfl, by simp, rfl⟩
  | cons kv rest ih =>
    intro s hreh
    obtain ⟨k, v⟩ := kv
    have hfs := findslot_default_total s hreh k
    cases hf : HashHeap.findslot s k with
    | none => rw [hf] at hfs; cases hfs
    | some p =>
      obtain ⟨kh, b⟩ := p
      set s1 : HashHeap KT VT :=
        { s with keys := s.keys ++ [some k], vals := s.vals ++ [(v, kh)],
                 kmap := (kh, s.vals.length, s.vals.length) :: s.kmap } with hs1
      obtain ⟨s', hrun, hlen, hr⟩ := ih s1 hreh
      refine ⟨s', ?_, ?_, ?_⟩
      · rw [HashHeap.heapifyLoopIns, hf]
        exact hrun
      · rw [hlen]
        simp [hs1]
        omega
      · exact hr
    
/-- C10: `from_pairs` inserts every pair of its input without merging
duplicate keys: the resulting structure's `len()` always equals the input
list's length, so a list with a repeated key yields a structure whose entry
count still counts both occurrences. -/
theorem c10_from_pairs_len :
    ∀ (KT VT : Type) [DecidableEq KT] [LinearOrder VT] [Inhabited VT]
      (l : List (KT × VT)) (maxheap : Bool) (dh : KT → Nat),
      ∃ hh, HashHeap.from_pairs l maxheap dh = some hh ∧ HashHeap.len hh = l.length := by
  intro KT VT _ _ _ l maxheap dh
  unfold HashHeap.from_pairs HashHeap.heapify
  have hkeys : ((HashHeap.with_capacity (l.length+1) maxheap dh : HashHeap KT VT)).keys = [] := rfl
  obtain ⟨s', hrun, hlen, _⟩ :=
    heapifyLoopIns_total l (HashHeap.with_capacity (l.length+1) maxheap dh) rfl
  simp only [hkeys, List.length_nil, gt_iff_lt, Nat.lt_irrefl, if_false]
  rw [hrun]
  refine ⟨_, rfl, ?_⟩
  unfold HashHeap.len
  rw [heapifyDownLoop_vals_length, hlen]
  simp [HashHeap.with_capacity]

/-! ## Generic heap lemmas: swaps and the comparator -/

section HeapTheory

variable {α : Type} [Inhabited α]

theorem lswap_length (l : List α) (i j : Nat) : (lswap l i j).length = l.length := by
  simp [lswap]

theorem getD_mem_of_lt (l : List α) (j : Nat) (hj : j < l.length) :
    l.getD j default ∈ l := by
  rw [List.getD_eq_getElem?_getD, List.getElem?_eq_getElem hj]
  exact List.getElem_mem hj

theorem getD_lswap_fst (l : List α) (i j : Nat) (hi : i < l.length) (hj : j < l.length) :
    (lswap l i j).getD i default = l.getD j default := by
  unfold lswap
  by_cases hij : i = j
  · subst hij
    have h1 : ((l.set i (l.getD i default)).set i (l.getD i default))[i]? =
        some (l.getD i default) := List.getElem?_set_self (by simpa using hi)
    rw [List.getD_eq_getElem?_getD, h1]
    rfl
  · have h1 : ((l.set i (l.getD j default)).set j (l.getD i default))[i]? =
        (l.set i (l.getD j default))[i]? :=
      List.getElem?_set_ne (fun he => hij he.symm)
    have h2 : (l.set i (l.getD j default))[i]? = some (l.getD j default) :=
      List.getElem?_set_self hi
    rw [List.getD_eq_getElem?_getD, h1, h2]
    rfl

theorem getD_lswap_snd (l : List α) (i j : Nat) (hi : i < l.length) (hj : j < l.length) :
    (lswap l i j).getD j default = l.getD i default := by
  unfold lswap
  have h1 : ((l.set i (l.getD j default)).set j (l.getD i default))[j]? =
      some (l.getD i default) := List.getElem?_set_self (by simpa using hj)
  rw [List.getD_eq_getElem?_getD, h1]
  rfl

theorem getD_lswap_other (l : List α) (i j k : Nat) (hki : k ≠ i) (hkj : k ≠ j) :
    (lswap l i j).getD k default = l.getD k default := by
  unfold lswap
  rw [List.getD_eq_getElem?_getD,
      List.getElem?_set_ne (fun he => hkj he.symm),
      List.getElem?_set_ne (fun he => hki he.symm),
      ← List.getD_eq_getElem?_getD]

theorem mem_lswap {l : List α} {i j : Nat} {x : α} (hi : i < l.length) (hj : j < l.length)
    (hm : x ∈ lswap l i j) : x ∈ l := by
  unfold lswap at hm
  rcases List.mem_or_eq_of_mem_set hm with hm1 | hm1
  · rcases List.mem_or_eq_of_mem_set hm1 with hm2 | hm2
    · exact hm2
    · subst hm2; exact getD_mem_of_lt l j hj
  · subst hm1; exact getD_mem_of_lt l i hi

variable {lt : α → α → Bool} {Good : α → Prop}

theorem LtOk.irrefl (hok : LtOk lt Good) (a : α) : lt a a = false := by
  cases h : lt a a
  · rfl
  · have := hok.asym a a h; rw [this] at h; cases h

theorem LtOk.negtrans (hok : LtOk lt Good) {a b c : α} (ha : Good a) (hb : Good b)
    (hc : Good c) (h1 : lt a b = false) (h2 : lt b c = false) : lt a c = false := by
  cases h : lt a c
  · rfl
  · rcases hok.cotrans a b c ha hb hc h with h3 | h3
    · rw [h3] at h1; cases h1
    · rw [h3] at h2; cases h2

/-- Parents below two: a child `c` with `heapParent c = i` is `2i+1` or `2i+2`. -/
theorem heapParent_cases {c i : Nat} (hc : 0 < c) (h : heapParent c = i) :
    c = 2*i+1 ∨ c = 2*i+2 := by
  unfold heapParent at h
  omega

theorem heapParent_left (i : Nat) : heapParent (2*i+1) = i := by
  unfold heapParent; omega

theorem heapParent_right (i : Nat) : heapParent (2*i+2) = i := by
  unfold heapParent; omega

theorem heapParent_lt {i : Nat} (h : 0 < i) : heapParent i < i := by
  unfold heapParent; omega

end HeapTheory

section HeapTheory2

variable {α : Type} [Inhabited α] {lt : α → α → Bool} {Good : α → Prop}

theorem bool_eq_false {b : Bool} (h : ¬ b = true) : b = false := by
  cases b
  · rfl
  · exact absurd rfl h

theorem siftDownGo_succ (lt : α → α → Bool) (n : Nat) (l : List α) (i fuel : Nat) :
    siftDownGo lt n l i (fuel+1) =
      (match heapPick lt n l i with
      | some k => siftDownGo lt n (lswap l i k) k fuel
      | none => (l, i)) := rfl

theorem siftUpGo_succ (lt : α → α → Bool) (l : List α) (i fuel : Nat) :
    siftUpGo lt l i (fuel+1) =
      (if 0 < i ∧ lt (l.getD (heapParent i) default) (l.getD i default) = true then
        siftUpGo lt (lswap l i (heapParent i)) (heapParent i) fuel
      else (l, i)) := rfl

theorem heapPick_eq_some {n : Nat} {l : List α} {i k : Nat}
    (h : heapPick lt n l i = some k) :
    (k = 2*i+2 ∧ k < n ∧ lt (l.getD i default) (l.getD k default) = true
       ∧ lt (l.getD (2*i+1) default) (l.getD k default) = true)
    ∨ (k = 2*i+1 ∧ k < n ∧ lt (l.getD i default) (l.getD k default) = true
       ∧ ¬ (2*i+2 < n ∧ lt (l.getD i default) (l.getD (2*i+2) default) = true
            ∧ lt (l.getD (2*i+1) default) (l.getD (2*i+2) default) = true)) := by
  unfold heapPick at h
  simp only [heapLeft, heapRight] at h
  by_cases h2 : (2*i+2 < n ∧ lt (l.getD i default) (l.getD (2*i+2) default) = true
      ∧ lt (l.getD (2*i+1) default) (l.getD (2*i+2) default) = true)
  · rw [if_pos h2] at h
    cases h
    exact Or.inl ⟨rfl, h2.1, h2.2.1, h2.2.2⟩
  · rw [if_neg h2] at h
    by_cases h1 : (2*i+1 < n ∧ lt (l.getD i default) (l.getD (2*i+1) default) = true)
    · rw [if_pos h1] at h
      cases h
      exact Or.inr ⟨rfl, h1.1, h1.2, h2⟩
    · rw [if_neg h1] at h
      cases h

theorem heapPick_eq_none {n : Nat} {l : List α} {i : Nat}
    (h : heapPick lt n l i = none) :
    (¬ (2*i+1 < n ∧ lt (l.getD i default) (l.getD (2*i+1) default) = true))
    ∧ (¬ (2*i+2 < n ∧ lt (l.getD i default) (l.getD (2*i+2) default) = true
         ∧ lt (l.getD (2*i+1) default) (l.getD (2*i+2) default) = true)) := by
  unfold heapPick at h
  simp only [heapLeft, heapRight] at h
  by_cases h2 : (2*i+2 < n ∧ lt (l.getD i default) (l.getD (2*i+2) default) = true
      ∧ lt (l.getD (2*i+1) default) (l.getD (2*i+2) default) = true)
  · rw [if_pos h2] at h
    cases h
  · rw [if_neg h2] at h
    by_cases h1 : (2*i+1 < n ∧ lt (l.getD i default) (l.getD (2*i+1) default) = true)
    · rw [if_pos h1] at h
      cases h
    · exact ⟨h1, h2⟩

theorem heapPick_some_bounds {n : Nat} {l : List α} {i k : Nat}
    (h : heapPick lt n l i = some k) : i < k ∧ k < n ∧ i < n := by
  rcases heapPick_eq_some h with ⟨hk, hkn, _⟩ | ⟨hk, hkn, _⟩ <;> omega

theorem goodOn_lswap {l : List α} {i k n : Nat} (hn : n ≤ l.length) (hi : i < n)
    (hk : k < n) (hg : GoodOn Good l n) : GoodOn Good (lswap l i k) n := by
  intro j hj
  by_cases hji : j = i
  · subst hji
    rw [getD_lswap_fst _ _ _ (lt_of_lt_of_le hi hn) (lt_of_lt_of_le hk hn)]
    exact hg k hk
  · by_cases hjk : j = k
    · subst hjk
      rw [getD_lswap_snd _ _ _ (lt_of_lt_of_le hi hn) (lt_of_lt_of_le hk hn)]
      exact hg i hi
    · rw [getD_lswap_other _ _ _ _ hji hjk]
      exact hg j hj

theorem siftDownGo_length (lt : α → α → Bool) (n : Nat) :
    ∀ (fuel : Nat) (l : List α) (i : Nat),
      (siftDownGo lt n l i fuel).1.length = l.length := by
  intro fuel
  induction fuel with
  | zero => intro l i; rfl
  | succ f ih =>
    intro l i
    rw [siftDownGo_succ]
    cases hp : heapPick lt n l i with
    | some k => show (siftDownGo lt n (lswap l i k) k f).1.length = _
                rw [ih, lswap_length]
    | none => rfl

theorem siftUpGo_length (lt : α → α → Bool) :
    ∀ (fuel : Nat) (l : List α) (i : Nat),
      (siftUpGo lt l i fuel).1.length = l.length := by
  intro fuel
  induction fuel with
  | zero => intro l i; rfl
  | succ f ih =>
    intro l i
    rw [siftUpGo_succ]
    split
    · rw [ih, lswap_length]
    · rfl

theorem siftDownGo_subset (lt : α → α → Bool) {n : Nat} :
    ∀ (fuel : Nat) (l : List α) (i : Nat), n ≤ l.length →
      ∀ x, x ∈ (siftDownGo lt n l i fuel).1 → x ∈ l := by
  intro fuel
  induction fuel with
  | zero => intro l i hn x hx; exact hx
  | succ f ih =>
    intro l i hn x hx
    rw [siftDownGo_succ] at hx
    cases hp : heapPick lt n l i with
    | some k =>
      rw [hp] at hx
      have hb := heapPick_some_bounds hp
      have hx2 := ih (lswap l i k) k (by rw [lswap_length]; exact hn) x hx
      exact mem_lswap (by omega) (by omega) hx2
    | none =>
      rw [hp] at hx
      exact hx

theorem siftUpGo_subset (lt : α → α → Bool) :
    ∀ (fuel : Nat) (l : List α) (i : Nat), i < l.length →
      ∀ x, x ∈ (siftUpGo lt l i fuel).1 → x ∈ l := by
  intro fuel
  induction fuel with
  | zero => intro l i hi x hx; exact hx
  | succ f ih =>
    intro l i hi x hx
    rw [siftUpGo_succ] at hx
    split at hx
    · rename_i hcond
      have hp : heapParent i < i := heapParent_lt hcond.1
      have hx2 := ih (lswap l i (heapParent i)) (heapParent i)
        (by rw [lswap_length]; omega) x hx
      exact mem_lswap hi (by omega) hx2
    · exact hx

theorem siftUpGo_pos (lt : α → α → Bool) :
    ∀ (fuel : Nat) (l : List α) (i : Nat),
      (siftUpGo lt l i fuel).2 ≤ i ∧
      ((siftUpGo lt l i fuel).2 = i → (siftUpGo lt l i fuel).1 = l) := by
  intro fuel
  induction fuel with
  | zero => intro l i; exact ⟨le_refl i, fun _ => rfl⟩
  | succ f ih =>
    intro l i
    rw [siftUpGo_succ]
    split
    · rename_i hcond
      have hp : heapParent i < i := heapParent_lt hcond.1
      obtain ⟨h1, h2⟩ := ih (lswap l i (heapParent i)) (heapParent i)
      exact ⟨by omega, fun he => absurd he (by omega)⟩
    · exact ⟨le_refl i, fun _ => rfl⟩

end HeapTheory2

section HeapTheory3

variable {α : Type} [Inhabited α] {lt : α → α → Bool} {Good : α → Prop}

theorem siftDownGo_heap (hok : LtOk lt Good) :
    ∀ (fuel : Nat) (l : List α) (i n : Nat),
      n ≤ l.length → 1 ≤ fuel → n ≤ fuel + i →
      GoodOn Good l n →
      (∀ c, 0 < c → c < n → heapParent c ≠ i →
        lt (l.getD (heapParent c) default) (l.getD c default) = false) →
      (0 < i → ∀ c, c < n → heapParent c = i →
        lt (l.getD (heapParent i) default) (l.getD c default) = false) →
      (0 < i → i < n → lt (l.getD (heapParent i) default) (l.getD i default) = false) →
      HeapD lt (siftDownGo lt n l i fuel).1 n := by
  intro fuel
  induction fuel with
  | zero => intro l i n hn hf1 hfi hg hD1 hD2 hD3; omega
  | succ f ih =>
    intro l i n hn hf1 hfi hg hD1 hD2 hD3
    rw [siftDownGo_succ]
    cases hp : heapPick lt n l i with
    | none =>
      show HeapD lt l n
      have hpk := heapPick_eq_none hp
      intro c hc0 hcn
      by_cases hpc : heapParent c = i
      · rcases heapParent_cases hc0 hpc with hcl | hcr
        · subst hcl
          rw [hpc]
          exact bool_eq_false (fun ht => hpk.1 ⟨hcn, ht⟩)
        · subst hcr
          rw [hpc]
          -- right child: either lt i ri is false, or lt li ri is false and
          -- lt i li is false, whence lt i ri is false by negtrans
          cases hti : lt (l.getD i default) (l.getD (2*i+2) default) with
          | false => rfl
          | true =>
            have hli : lt (l.getD i default) (l.getD (2*i+1) default) = false :=
              bool_eq_false (fun ht => hpk.1 ⟨by omega, ht⟩)
            have hlr : lt (l.getD (2*i+1) default) (l.getD (2*i+2) default) = false :=
              bool_eq_false (fun ht => hpk.2 ⟨hcn, hti, ht⟩)
            have := hok.negtrans (hg i (by omega)) (hg (2*i+1) (by omega))
              (hg (2*i+2) hcn) hli hlr
            rw [this] at hti
            cases hti
      · exact hD1 c hc0 hcn hpc
    | some k =>
      show HeapD lt (siftDownGo lt n (lswap l i k) k f).1 n
      have hb := heapPick_some_bounds hp
      obtain ⟨hik, hkn, hin⟩ := hb
      have hil : i < l.length := by omega
      have hkl : k < l.length := by omega
      have hpark : heapParent k = i := by
        rcases heapPick_eq_some hp with ⟨hk, _⟩ | ⟨hk, _⟩
        · rw [hk]; exact heapParent_right i
        · rw [hk]; exact heapParent_left i
      have hltik : lt (l.getD i default) (l.getD k default) = true := by
        rcases heapPick_eq_some hp with ⟨_, _, h3, _⟩ | ⟨_, _, h3, _⟩ <;> exact h3
      -- the chosen child dominates the other child
      have hdom : ∀ c, c < n → heapParent c = i → c ≠ k → c ≠ i →
          lt (l.getD k default) (l.getD c default) = false := by
        intro c hcn hpc hck hci
        have hc0 : 0 < c := by
          cases Nat.eq_zero_or_pos c with
          | inl h0 => subst h0; unfold heapParent at hpc; omega
          | inr h => exact h
        rcases heapParent_cases hc0 hpc with hcl | hcr
        · -- c is the left child, so k must be the right child
          subst hcl
          rcases heapPick_eq_some hp with ⟨hk, _, _, h4⟩ | ⟨hk, _, _, _⟩
          · exact hok.asym _ _ h4
          · rw [hk] at hck
            omega
        · -- c is the right child, so k must be the left child
          subst hcr
          rcases heapPick_eq_some hp with ⟨hk, _, _, _⟩ | ⟨hk, _, _, h4⟩
          · rw [hk] at hck
            omega
          · subst hk
            cases htlr : lt (l.getD (2*i+1) default) (l.getD (2*i+2) default) with
            | false => rfl
            | true =>
              have hir : lt (l.getD i default) (l.getD (2*i+2) default) = true :=
                hok.ltrans _ _ _ hltik htlr
              exact absurd ⟨hcn, hir, htlr⟩ h4
      refine ih (lswap l i k) k n (by rw [lswap_length]; exact hn) (by omega) (by omega)
        (goodOn_lswap hn hin hkn hg) ?_ ?_ ?_
      · -- D1 for the swapped list at k
        intro c hc0 hcn2 hpck
        by_cases hci : c = i
        · have hi0 : 0 < i := hci ▸ hc0
          have hpi : heapParent i < i := heapParent_lt hi0
          rw [hci]
          rw [getD_lswap_other l i k (heapParent i) (by omega) (by omega),
              getD_lswap_fst l i k hil hkl]
          exact hD2 hi0 k hkn hpark
        · by_cases hck : c = k
          · rw [hck, hpark, getD_lswap_fst l i k hil hkl, getD_lswap_snd l i k hil hkl]
            exact hok.asym _ _ hltik
          · by_cases hpci : heapParent c = i
            · -- sibling of k
              rw [hpci, getD_lswap_fst l i k hil hkl,
                  getD_lswap_other l i k c hci hck]
              exact hdom c hcn2 hpci hck hci
            · -- untouched edge; its parent is neither i nor k
              rw [getD_lswap_other l i k (heapParent c) hpci hpck,
                  getD_lswap_other l i k c hci hck]
              exact hD1 c hc0 hcn2 hpci
      · -- D2 for the swapped list at k
        intro hk0 c hcn2 hpck
        have hck : k < c := by
          have := heapParent_lt (show 0 < c by
            cases Nat.eq_zero_or_pos c with
            | inl h0 => subst h0; unfold heapParent at hpck; omega
            | inr h => exact h)
          omega
        rw [hpark, getD_lswap_fst l i k hil hkl,
            getD_lswap_other l i k c (by omega) (by omega)]
        have hc0 : 0 < c := by omega
        have hres := hD1 c hc0 hcn2 (by omega)
        rw [hpck] at hres
        exact hres
      · -- D3 for the swapped list at k
        intro hk0 hkn2
        rw [hpark, getD_lswap_fst l i k hil hkl, getD_lswap_snd l i k hil hkl]
        exact hok.asym _ _ hltik

end HeapTheory3

section HeapTheory4

variable {α : Type} [Inhabited α] {lt : α → α → Bool} {Good : α → Prop}

theorem siftUpGo_heap (hok : LtOk lt Good) :
    ∀ (fuel : Nat) (l : List α) (i n : Nat),
      n ≤ l.length → i < n → i < fuel →
      GoodOn Good l n →
      (∀ c, 0 < c → c < n → c ≠ i →
        lt (l.getD (heapParent c) default) (l.getD c default) = false) →
      (0 < i → ∀ c, c < n → heapParent c = i → c ≠ i →
        lt (l.getD (heapParent i) default) (l.getD c default) = false) →
      HeapD lt (siftUpGo lt l i fuel).1 n := by
  intro fuel
  induction fuel with
  | zero => intro l i n hn hin hif hg hU1 hU2; omega
  | succ f ih =>
    intro l i n hn hin hif hg hU1 hU2
    rw [siftUpGo_succ]
    split
    · rename_i hcond
      obtain ⟨h0i, hlt⟩ := hcond
      have hpi : heapParent i < i := heapParent_lt h0i
      have hil : i < l.length := by omega
      have hpl : heapParent i < l.length := by omega
      apply ih (lswap l i (heapParent i)) (heapParent i) n
        (by rw [lswap_length]; exact hn) (by omega) (by omega)
        (goodOn_lswap hn hin (by omega) hg)
      · -- U1 for the swapped list at heapParent i
        intro c hc0 hcn hcp
        by_cases hci : c = i
        · rw [hci, getD_lswap_fst l i (heapParent i) hil hpl]
          have : (lswap l i (heapParent i)).getD (heapParent i) default
              = l.getD i default := getD_lswap_snd l i (heapParent i) hil hpl
          rw [this]
          exact hok.asym _ _ hlt
        · by_cases hpci : heapParent c = i
          · -- child of i
            have hcgt : i < c := by
              have := heapParent_lt hc0
              omega
            rw [hpci, getD_lswap_fst l i (heapParent i) hil hpl,
                getD_lswap_other l i (heapParent i) c hci (by omega)]
            exact hU2 h0i c hcn hpci hci
          · -- sibling of i (parent is heapParent i) or untouched edge
            by_cases hpcp : heapParent c = heapParent i
            · rw [hpcp, getD_lswap_snd l i (heapParent i) hil hpl,
                  getD_lswap_other l i (heapParent i) c hci hcp]
              have hc1 : lt (l.getD (heapParent c) default) (l.getD c default) = false := by
                exact hU1 c hc0 hcn hci
              rw [hpcp] at hc1
              cases htic : lt (l.getD i default) (l.getD c default) with
              | false => rfl
              | true =>
                have := hok.ltrans _ _ _ hlt htic
                rw [this] at hc1
                cases hc1
            · rw [getD_lswap_other l i (heapParent i) (heapParent c) hpci hpcp,
                  getD_lswap_other l i (heapParent i) c hci hcp]
              exact hU1 c hc0 hcn hci
      · -- U2 for the swapped list at heapParent i
        intro h0p c hcn hpcp hcp
        have hppl : heapParent (heapParent i) < heapParent i := heapParent_lt h0p
        rw [getD_lswap_other l i (heapParent i) (heapParent (heapParent i))
            (by omega) (by omega)]
        by_cases hci : c = i
        · rw [hci, getD_lswap_fst l i (heapParent i) hil hpl]
          have hg1 : heapParent i < n := by omega
          have hg2 : heapParent i ≠ i := by omega
          exact hU1 (heapParent i) h0p hg1 hg2
        · rw [getD_lswap_other l i (heapParent i) c hci hcp]
          have h1 : lt (l.getD (heapParent c) default) (l.getD c default) = false :=
            hU1 c (by
              cases Nat.eq_zero_or_pos c with
              | inl h0 =>
                subst h0
                have hp0 : heapParent 0 = 0 := rfl
                rw [hp0] at hpcp
                exact absurd hpcp hcp
              | inr h => exact h) hcn hci
          rw [hpcp] at h1
          have h2 : lt (l.getD (heapParent (heapParent i)) default)
              (l.getD (heapParent i) default) = false :=
            hU1 (heapParent i) h0p (by omega) (by omega)
          exact hok.negtrans (hg _ (by omega)) (hg _ (by omega)) (hg _ hcn) h2 h1
    · rename_i hcond
      show HeapD lt l n
      intro c hc0 hcn
      by_cases hci : c = i
      · rw [hci]
        rw [Decidable.not_and_iff_or_not] at hcond
        rcases hcond with hc | hc
        · omega
        · rw [hci] at hc0
          exact bool_eq_false hc
      · exact hU1 c hc0 hcn hci

theorem heapD_root (hok : LtOk lt Good) {l : List α} {n : Nat}
    (hg : GoodOn Good l n) (hd : HeapD lt l n) :
    ∀ j, j < n → lt (l.getD 0 default) (l.getD j default) = false := by
  intro j
  induction j using Nat.strong_induction_on with
  | _ j ih =>
    intro hjn
    cases Nat.eq_zero_or_pos j with
    | inl h0 => subst h0; exact hok.irrefl _
    | inr h0 =>
      have hpj : heapParent j < j := heapParent_lt h0
      have h1 := ih (heapParent j) hpj (by omega)
      have h2 := hd j h0 hjn
      exact hok.negtrans (hg 0 (by omega)) (hg _ (by omega)) (hg j hjn) h1 h2

end HeapTheory4


/-! ## List surgery: `set`, `append`, `dropLast`, counts and permutations -/

section ListSurgery

variable {α : Type} [Inhabited α]

theorem getD_set_self (l : List α) (i : Nat) (a d : α) (h : i < l.length) :
    (l.set i a).getD i d = a := by
  rw [List.getD_eq_getElem?_getD, List.getElem?_set_self h]
  rfl

theorem getD_set_ne (l : List α) (i j : Nat) (a d : α) (h : i ≠ j) :
    (l.set i a).getD j d = l.getD j d := by
  rw [List.getD_eq_getElem?_getD, List.getD_eq_getElem?_getD, List.getElem?_set_ne h]

theorem set_getD_eq_self (l : List α) (i : Nat) (d : α) (h : l.getD i d = d ∨ i < l.length) :
    l.set i (l.getD i d) = l := by
  by_cases hi : i < l.length
  · apply List.ext_getElem?
    intro n
    by_cases hn : n = i
    · subst hn
      rw [List.getElem?_set_self hi, List.getD_eq_getElem?_getD,
          List.getElem?_eq_getElem hi]
      rfl
    · rw [List.getElem?_set_ne (fun he => hn he.symm)]
  · rw [List.set_eq_of_length_le (by omega)]

theorem lswap_self (l : List α) (i : Nat) : lswap l i i = l := by
  unfold lswap
  rw [List.set_set]
  by_cases hi : i < l.length
  · exact set_getD_eq_self l i default (Or.inr hi)
  · rw [List.set_eq_of_length_le (by omega)]

theorem getD_append_lt (l l2 : List α) (j : Nat) (d : α) (h : j < l.length) :
    (l ++ l2).getD j d = l.getD j d := by
  rw [List.getD_eq_getElem?_getD, List.getD_eq_getElem?_getD, List.getElem?_append, if_pos h]

theorem getD_append_len (l : List α) (x d : α) : (l ++ [x]).getD l.length d = x := by
  rw [List.getD_eq_getElem?_getD, List.getElem?_append_right (le_refl _)]
  simp

theorem getD_dropLast (l : List α) (j : Nat) (d : α) (h : j + 1 < l.length) :
    l.dropLast.getD j d = l.getD j d := by
  rw [List.getD_eq_getElem?_getD, List.getD_eq_getElem?_getD, List.getElem?_dropLast,
      if_pos (by omega)]

theorem getD_oob (l : List α) (j : Nat) (d : α) (h : l.length ≤ j) : l.getD j d = d := by
  rw [List.getD_eq_getElem?_getD, List.getElem?_eq_none (by omega)]
  rfl

theorem count_set_add [DecidableEq α] (l : List α) (i : Nat) (a x d : α) (h : i < l.length) :
    (l.set i a).count x + (if l.getD i d = x then 1 else 0)
      = l.count x + (if a = x then 1 else 0) := by
  have hg : l.getD i d = l[i] := by
    rw [List.getD_eq_getElem?_getD, List.getElem?_eq_getElem h]
    rfl
  have hdec : l.set i a = l.take i ++ a :: l.drop (i+1) := by
    rw [List.set_eq_take_append_cons_drop, if_pos h]
  have hl : l = l.take i ++ l.getD i d :: l.drop (i+1) := by
    conv_lhs => rw [← List.take_append_drop i l, List.drop_eq_getElem_cons h]
    rw [hg]
  rw [hdec]
  conv_rhs => rw [hl]
  simp only [List.count_append, List.count_cons, beq_iff_eq]
  split_ifs <;> omega

theorem lswap_count [DecidableEq α] (l : List α) (i j : Nat) (x : α)
    (hi : i < l.length) (hj : j < l.length) :
    (lswap l i j).count x = l.count x := by
  by_cases hij : i = j
  · subst hij
    rw [lswap_self]
  · unfold lswap
    have h1 := count_set_add l i (l.getD j default) x default hi
    have h2 := count_set_add (l.set i (l.getD j default)) j (l.getD i default) x default
      (by rw [List.length_set]; exact hj)
    rw [getD_set_ne l i j _ default hij] at h2
    split_ifs at h1 h2 <;> omega

theorem lswap_perm [DecidableEq α] (l : List α) (i j : Nat)
    (hi : i < l.length) (hj : j < l.length) : (lswap l i j).Perm l :=
  List.perm_iff_count.2 (fun x => lswap_count l i j x hi hj)

theorem perm_cons_getD_dropLast (l : List α) (d : α) (h : 0 < l.length) :
    l.Perm (l.getD (l.length - 1) d :: l.dropLast) := by
  have hne : l ≠ [] := by
    intro he
    rw [he] at h
    simp at h
  have hgl : l.getD (l.length - 1) d = l.getLast hne := by
    rw [List.getLast_eq_getElem, List.getD_eq_getElem?_getD,
        List.getElem?_eq_getElem (by omega)]
    rfl
  conv_lhs => rw [← List.dropLast_append_getLast hne]
  rw [hgl]
  exact List.perm_append_singleton _ _

end ListSurgery

/-! ## Generic heap lemmas: loop exit characterisation, permutation, shrinking -/

section HeapTheory5

variable {α : Type} [Inhabited α] {Good : α → Prop}

theorem siftUpGo_stay (lt : α → α → Bool) (l : List α) (i fuel : Nat) (hf : 0 < fuel)
    (h : (siftUpGo lt l i fuel).2 = i) :
    ¬(0 < i ∧ lt (l.getD (heapParent i) default) (l.getD i default) = true)
      ∧ (siftUpGo lt l i fuel).1 = l := by
  cases fuel with
  | zero => omega
  | succ f =>
    rw [siftUpGo_succ] at h ⊢
    split at h
    · rename_i hcond
      have hp : heapParent i < i := heapParent_lt hcond.1
      have := (siftUpGo_pos lt f (lswap l i (heapParent i)) (heapParent i)).1
      omega
    · rename_i hcond
      rw [if_neg hcond]
      exact ⟨hcond, rfl⟩

theorem siftUpGo_move (lt : α → α → Bool) (l : List α) (i fuel : Nat) (hf : 0 < fuel)
    (h : (siftUpGo lt l i fuel).2 ≠ i) :
    0 < i ∧ lt (l.getD (heapParent i) default) (l.getD i default) = true := by
  cases fuel with
  | zero => omega
  | succ f =>
    rw [siftUpGo_succ] at h
    split at h
    · rename_i hcond
      exact hcond
    · exact absurd rfl h

theorem heapPick_none_of_leaf (lt : α → α → Bool) (n : Nat) (l : List α) (i : Nat)
    (h : n ≤ 2*i+1) : heapPick lt n l i = none := by
  show (if heapRight i < n ∧ _ ∧ _ then some (heapRight i)
        else if heapLeft i < n ∧ _ then some (heapLeft i) else none) = none
  rw [if_neg (fun hc => absurd hc.1 (by simp only [heapRight]; omega)),
      if_neg (fun hc => absurd hc.1 (by simp only [heapLeft]; omega))]

theorem siftDownGo_perm [DecidableEq α] (lt : α → α → Bool) (n : Nat) :
    ∀ (fuel : Nat) (l : List α) (i : Nat), n ≤ l.length →
      (siftDownGo lt n l i fuel).1.Perm l := by
  intro fuel
  induction fuel with
  | zero => intro l i _; exact List.Perm.refl _
  | succ f ih =>
    intro l i hn
    rw [siftDownGo_succ]
    cases hp : heapPick lt n l i with
    | some k =>
      have hb := heapPick_some_bounds hp
      exact ((ih (lswap l i k) k (by rw [lswap_length]; exact hn)).trans
        (lswap_perm l i k (by omega) (by omega)))
    | none => exact List.Perm.refl _

theorem siftUpGo_perm [DecidableEq α] (lt : α → α → Bool) :
    ∀ (fuel : Nat) (l : List α) (i : Nat), i < l.length →
      (siftUpGo lt l i fuel).1.Perm l := by
  intro fuel
  induction fuel with
  | zero => intro l i _; exact List.Perm.refl _
  | succ f ih =>
    intro l i hi
    rw [siftUpGo_succ]
    split
    · rename_i hcond
      have hp : heapParent i < i := heapParent_lt hcond.1
      exact ((ih (lswap l i (heapParent i)) (heapParent i)
        (by rw [lswap_length]; omega)).trans (lswap_perm l i (heapParent i) hi (by omega)))
    · exact List.Perm.refl _

theorem heapPick_shrink (lt : α → α → Bool) (l : List α) (n n' : Nat) (hnn : n' ≤ n)
    (hdef1 : ∀ x, lt x default = false)
    (hnone : ∀ j, n' ≤ j → l.getD j default = default) (i : Nat) :
    heapPick lt n l i = heapPick lt n' l i := by
  have hlf : (heapLeft i < n ∧ lt (l.getD i default) (l.getD (heapLeft i) default) = true)
      ↔ (heapLeft i < n' ∧ lt (l.getD i default) (l.getD (heapLeft i) default) = true) := by
    constructor
    · rintro ⟨h1, h2⟩
      refine ⟨?_, h2⟩
      by_contra hge
      rw [hnone (heapLeft i) (by omega), hdef1] at h2
      cases h2
    · rintro ⟨h1, h2⟩
      exact ⟨by omega, h2⟩
  have hrt : (heapRight i < n ∧ lt (l.getD i default) (l.getD (heapRight i) default) = true
        ∧ lt (l.getD (heapLeft i) default) (l.getD (heapRight i) default) = true)
      ↔ (heapRight i < n' ∧ lt (l.getD i default) (l.getD (heapRight i) default) = true
        ∧ lt (l.getD (heapLeft i) default) (l.getD (heapRight i) default) = true) := by
    constructor
    · rintro ⟨h1, h2, h3⟩
      refine ⟨?_, h2, h3⟩
      by_contra hge
      rw [hnone (heapRight i) (by omega), hdef1] at h2
      cases h2
    · rintro ⟨h1, h2, h3⟩
      exact ⟨by omega, h2, h3⟩
  show (if heapRight i < n ∧ _ ∧ _ then some (heapRight i)
        else if heapLeft i < n ∧ _ then some (heapLeft i) else none)
      = (if heapRight i < n' ∧ _ ∧ _ then some (heapRight i)
        else if heapLeft i < n' ∧ _ then some (heapLeft i) else none)
  rw [if_congr hrt rfl (if_congr hlf rfl rfl)]

theorem siftDownGo_shrink (lt : α → α → Bool) (n n' : Nat) (hnn : n' ≤ n)
    (hdef1 : ∀ x, lt x default = false) (hdef2 : ∀ x, lt default x = false) :
    ∀ (fuel : Nat) (l : List α) (i : Nat), n' ≤ l.length →
      (∀ j, n' ≤ j → l.getD j default = default) →
      siftDownGo lt n l i fuel = siftDownGo lt n' l i fuel := by
  intro fuel
  induction fuel with
  | zero => intro l i _ _; rfl
  | succ f ih =>
    intro l i hlen hnone
    rw [siftDownGo_succ, siftDownGo_succ, heapPick_shrink lt l n n' hnn hdef1 hnone i]
    cases hp : heapPick lt n' l i with
    | none => rfl
    | some k =>
      have hb := heapPick_some_bounds hp
      have hk : k < n' := by omega
      have hsel : lt (l.getD i default) (l.getD k default) = true := by
        revert hp
        show (if heapRight i < n' ∧ _ ∧ _ then some (heapRight i)
              else if heapLeft i < n' ∧ _ then some (heapLeft i) else none) = some k → _
        split
        · rename_i hc
          intro he
          cases he
          exact hc.2.1
        · split
          · rename_i hc
            intro he
            cases he
            exact hc.2
          · intro he
            cases he
      have hi' : i < n' := by
        by_contra hge
        rw [hnone i (by omega), hdef2] at hsel
        cases hsel
      apply ih (lswap l i k) k (by rw [lswap_length]; exact hlen)
      intro j hj
      rw [getD_lswap_other l i k j (by omega) (by omega)]
      exact hnone j hj

theorem goodOn_set {l : List α} {n i : Nat} {x : α}
    (hg : ∀ j, j < n → j ≠ i → Good (l.getD j default)) (hx : Good x)
    (hil : i < l.length) : GoodOn Good (l.set i x) n := by
  intro j hj
  by_cases hji : j = i
  · subst hji
    rw [getD_set_self l j x default hil]
    exact hx
  · rw [getD_set_ne l i j x default (fun he => hji he.symm)]
    exact hg j hj hji

theorem siftDown_root_heap {lt : α → α → Bool} (hok : LtOk lt Good) (l₀ : List α) (x : α)
    (n : Nat) (hn : n ≤ l₀.length) (h0l : 0 < l₀.length) (hheap : HeapD lt l₀ n)
    (hg : ∀ j, j < n → j ≠ 0 → Good (l₀.getD j default)) (hgx : Good x)
    (fd : Nat) (hfd1 : 1 ≤ fd) (hfdn : n ≤ fd) :
    HeapD lt (siftDownGo lt n (l₀.set 0 x) 0 fd).1 n := by
  apply siftDownGo_heap hok fd (l₀.set 0 x) 0 n
    (by rw [List.length_set]; exact hn) hfd1 (by omega)
    (goodOn_set hg hgx h0l)
  · intro c hc0 hcn hpc
    rw [getD_set_ne l₀ 0 c x default (by omega),
        getD_set_ne l₀ 0 (heapParent c) x default (fun he => hpc he.symm)]
    exact hheap c hc0 hcn
  · intro h0
    exact absurd h0 (by omega)
  · intro h0
    exact absurd h0 (by omega)

theorem resift_replace_heap {lt : α → α → Bool} (hok : LtOk lt Good) (l₀ : List α) (x : α)
    (i n : Nat) (hn : n ≤ l₀.length) (hin : i < n)
    (hg : ∀ j, j < n → j ≠ i → Good (l₀.getD j default))
    (hgi : 2*i+1 < n → Good (l₀.getD i default))
    (hgx : Good x)
    (hheap : HeapD lt l₀ n)
    (both : Bool) (hleaf : both = false → n ≤ 2*i+1)
    (fd : Nat) (hfd1 : 1 ≤ fd) (hfdn : n ≤ fd + i) :
    HeapD lt
      (if (siftUpGo lt (l₀.set i x) i (i+1)).2 = i ∧ both = true
       then (siftDownGo lt n (siftUpGo lt (l₀.set i x) i (i+1)).1 i fd).1
       else (siftUpGo lt (l₀.set i x) i (i+1)).1) n := by
  have hil : i < l₀.length := lt_of_lt_of_le hin hn
  have hli : (l₀.set i x).getD i default = x := getD_set_self l₀ i x default hil
  have hlo : ∀ j, j ≠ i → (l₀.set i x).getD j default = l₀.getD j default := by
    intro j hj
    exact getD_set_ne l₀ i j x default (fun he => hj he.symm)
  have hgoodl : GoodOn Good (l₀.set i x) n := goodOn_set hg hgx hil
  have hchain : 0 < i → ∀ c, c < n → heapParent c = i → c ≠ i →
      lt (l₀.getD (heapParent i) default) (l₀.getD c default) = false := by
    intro h0i c hcn hpc hci
    have hc0 : 0 < c := by
      rcases Nat.eq_zero_or_pos c with h | h
      · subst h
        have hp0 : heapParent 0 = 0 := rfl
        rw [hp0] at hpc
        omega
      · exact h
    have hcc := heapParent_cases hc0 hpc
    have h1 : lt (l₀.getD (heapParent i) default) (l₀.getD i default) = false :=
      hheap i h0i hin
    have h2 : lt (l₀.getD i default) (l₀.getD c default) = false := by
      have := hheap c hc0 hcn
      rw [hpc] at this
      exact this
    have hpilt : heapParent i < i := heapParent_lt h0i
    exact hok.negtrans (hg _ (by omega) (by omega)) (hgi (by omega)) (hg c hcn hci) h1 h2
  by_cases hstay : (siftUpGo lt (l₀.set i x) i (i+1)).2 = i
  · obtain ⟨hguard, heq⟩ := siftUpGo_stay lt (l₀.set i x) i (i+1) (by omega) hstay
    cases both with
    | true =>
      rw [if_pos ⟨hstay, rfl⟩, heq]
      apply siftDownGo_heap hok fd (l₀.set i x) i n
        (by rw [List.length_set]; exact hn) hfd1 hfdn hgoodl
      · intro c hc0 hcn hpc
        by_cases hci : c = i
        · subst hci
          exact bool_eq_false (fun ht => hguard ⟨hc0, ht⟩)
        · rw [hlo c hci, hlo _ hpc]
          exact hheap c hc0 hcn
      · intro h0i c hcn hpc
        by_cases hci : c = i
        · rw [hci] at hpc
          have := heapParent_lt h0i
          omega
        · have hpilt : heapParent i < i := heapParent_lt h0i
          rw [hlo _ (by omega), hlo c hci]
          exact hchain h0i c hcn hpc hci
      · intro h0i _
        exact bool_eq_false (fun ht => hguard ⟨h0i, ht⟩)
    | false =>
      rw [if_neg (fun hc => Bool.false_ne_true hc.2), heq]
      intro c hc0 hcn
      by_cases hci : c = i
      · subst hci
        exact bool_eq_false (fun ht => hguard ⟨hc0, ht⟩)
      · by_cases hpc : heapParent c = i
        · have hcc := heapParent_cases hc0 hpc
          have hln := hleaf rfl
          omega
        · rw [hlo c hci, hlo _ hpc]
          exact hheap c hc0 hcn
  · obtain ⟨h0i, hlt⟩ := siftUpGo_move lt (l₀.set i x) i (i+1) (by omega) hstay
    have hpilt : heapParent i < i := heapParent_lt h0i
    rw [if_neg (fun hc => hstay hc.1)]
    apply siftUpGo_heap hok (i+1) (l₀.set i x) i n
      (by rw [List.length_set]; exact hn) hin (by omega) hgoodl
    · intro c hc0 hcn hci
      by_cases hpc : heapParent c = i
      · rw [hpc, hli, hlo c hci]
        cases hxc : lt x (l₀.getD c default) with
        | false => rfl
        | true =>
          have hpx : lt (l₀.getD (heapParent i) default) x = true := by
            rw [hlo _ (by omega), hli] at hlt
            exact hlt
          have h3 := hok.ltrans _ _ _ hpx hxc
          have h4 := hchain h0i c hcn hpc hci
          rw [h3] at h4
          cases h4
      · rw [hlo c hci, hlo _ hpc]
        exact hheap c hc0 hcn
    · intro _ c hcn hpc hci
      rw [hlo _ (by omega), hlo c hci]
      exact hchain h0i c hcn hpc hci

end HeapTheory5

/-! ## Growable variant: `heapswap` and the sift loops at state level -/

section GrowState

variable {KT VT : Type} [DecidableEq KT] [LinearOrder VT] [Inhabited VT]

theorem hh_heapswap_vals (s : HashHeap KT VT) (i j : Nat) :
    (HashHeap.heapswap s i j).vals = lswap s.vals i j := by
  unfold HashHeap.heapswap
  split
  · rename_i h
    subst h
    rw [lswap_self]
  · rfl

theorem hh_heapswap_conf (s : HashHeap KT VT) (i j : Nat) :
    HashHeap.SameConf s (HashHeap.heapswap s i j) := by
  unfold HashHeap.SameConf
  refine ⟨?_, ?_, ?_, ?_, ?_, ?_, ?_⟩ <;>
    (unfold HashHeap.heapswap; split)
  · rfl
  · rfl
  · rfl
  · rfl
  · rfl
  · rfl
  · rfl
  · rfl
  · rfl
  · rfl
  · rfl
  · rfl
  · rfl
  · show (lswap s.vals i j).length = s.vals.length
    exact lswap_length s.vals i j

theorem hh_sameconf_refl (s : HashHeap KT VT) : HashHeap.SameConf s s :=
  ⟨rfl, rfl, rfl, rfl, rfl, rfl, rfl⟩

theorem hh_sameconf_trans {s t u : HashHeap KT VT}
    (h1 : HashHeap.SameConf s t) (h2 : HashHeap.SameConf t u) : HashHeap.SameConf s u := by
  obtain ⟨a1, a2, a3, a4, a5, a6, a7⟩ := h1
  obtain ⟨b1, b2, b3, b4, b5, b6, b7⟩ := h2
  exact ⟨b1.trans a1, b2.trans a2, b3.trans a3, b4.trans a4, b5.trans a5, b6.trans a6,
    b7.trans a7⟩

theorem hh_hlt_of_sameconf {s t : HashHeap KT VT} (h : HashHeap.SameConf s t) :
    HashHeap.hlt t = HashHeap.hlt s := by
  unfold HashHeap.hlt
  rw [h.2.1]

theorem lookup_cons_eq {β : Type} (h k : Nat) (b : β) (t : List (Nat × β)) :
    List.lookup h ((k, b) :: t) = if h = k then some b else List.lookup h t := by
  by_cases hkh : h = k
  · subst hkh
    simp [List.lookup]
  · have hb : (h == k) = false := beq_eq_false_iff_ne.2 hkh
    simp [List.lookup, hb, hkh]

theorem kmapUpdateVi_lookup (m : List (Nat × Nat × Nat)) (g v h : Nat) :
    List.lookup h (kmapUpdateVi m g v)
      = if h = g then (List.lookup h m).map (fun p => (p.1, v)) else List.lookup h m := by
  induction m with
  | nil =>
    show (none : Option (Nat × Nat)) = if h = g then Option.map _ none else none
    split <;> rfl
  | cons e t ih =>
    obtain ⟨ek, ev⟩ := e
    show List.lookup h ((if ek = g then (ek, ev.1, v) else (ek, ev)) :: kmapUpdateVi t g v) = _
    by_cases hkg : ek = g
    · rw [if_pos hkg, lookup_cons_eq, lookup_cons_eq, ih]
      by_cases hkh : h = ek
      · rw [if_pos hkh, if_pos (by omega), if_pos hkh]
        rfl
      · rw [if_neg hkh, if_neg hkh]
    · rw [if_neg hkg, lookup_cons_eq, lookup_cons_eq, ih]
      by_cases hkh : h = ek
      · rw [if_pos hkh, if_neg (by omega), if_pos hkh]
      · rw [if_neg hkh, if_neg hkh]

theorem hh_heapswap_kmap (s : HashHeap KT VT) (i j : Nat) (hij : i ≠ j) :
    (HashHeap.heapswap s i j).kmap
      = kmapUpdateVi (kmapUpdateVi s.kmap (s.vals.getD i default).2 j)
          (s.vals.getD j default).2 i := by
  unfold HashHeap.heapswap
  rw [if_neg hij]

theorem hh_heapswap_kmapok (s : HashHeap KT VT) (i j : Nat)
    (hi : i < s.vals.length) (hj : j < s.vals.length) (hk : HashHeap.KmapOk s) :
    HashHeap.KmapOk (HashHeap.heapswap s i j) := by
  by_cases hij : i = j
  · subst hij
    unfold HashHeap.heapswap
    rw [if_pos rfl]
    exact hk
  · obtain ⟨hk1, hk2, hk3⟩ := hk
    obtain ⟨ki0, hki, hkib, hkil⟩ := hk1 i hi
    obtain ⟨kj0, hkj, hkjb, hkjl⟩ := hk1 j hj
    have hne : (s.vals.getD i default).2 ≠ (s.vals.getD j default).2 := by
      intro he
      rw [he, hkj] at hki
      simp only [Option.some.injEq, Prod.mk.injEq] at hki
      exact hij hki.2.symm
    have hkeys : (HashHeap.heapswap s i j).keys = s.keys := (hh_heapswap_conf s i j).1
    have hvals : (HashHeap.heapswap s i j).vals = lswap s.vals i j := hh_heapswap_vals s i j
    have hlk : ∀ h, List.lookup h (HashHeap.heapswap s i j).kmap
        = if h = (s.vals.getD j default).2
          then (List.lookup h s.kmap).map (fun p => (p.1, i))
          else if h = (s.vals.getD i default).2
          then (List.lookup h s.kmap).map (fun p => (p.1, j))
          else List.lookup h s.kmap := by
      intro h
      rw [hh_heapswap_kmap s i j hij, kmapUpdateVi_lookup, kmapUpdateVi_lookup]
      by_cases h1 : h = (s.vals.getD j default).2
      · rw [if_pos h1, if_pos h1, if_neg (by rw [h1]; exact fun he => hne he.symm)]
      · rw [if_neg h1, if_neg h1]
    have hfst : ∀ h ki vi, List.lookup h (HashHeap.heapswap s i j).kmap = some (ki, vi) →
        ∃ w, List.lookup h s.kmap = some (ki, w) := by
      intro h ki vi hl
      rw [hlk] at hl
      split_ifs at hl with hc1 hc2
      · cases hop : List.lookup h s.kmap with
        | none => rw [hop] at hl; cases hl
        | some p =>
          obtain ⟨a, b⟩ := p
          rw [hop] at hl
          simp only [Option.map_some', Option.some.injEq, Prod.mk.injEq] at hl
          refine ⟨b, ?_⟩
          rw [hl.1]
      · cases hop : List.lookup h s.kmap with
        | none => rw [hop] at hl; cases hl
        | some p =>
          obtain ⟨a, b⟩ := p
          rw [hop] at hl
          simp only [Option.map_some', Option.some.injEq, Prod.mk.injEq] at hl
          refine ⟨b, ?_⟩
          rw [hl.1]
      · exact ⟨vi, hl⟩
    have hlen : (HashHeap.heapswap s i j).vals.length = s.vals.length := by
      rw [hvals, lswap_length]
    refine ⟨?_, ?_, ?_⟩
    · intro p hp
      rw [hlen] at hp
      rw [hvals, hkeys]
      by_cases hpi : p = i
      · rw [hpi, getD_lswap_fst s.vals i j hi hj]
        refine ⟨kj0, ?_, hkjb, hkjl⟩
        rw [hlk, if_pos rfl, hkj]
        rfl
      · by_cases hpj : p = j
        · rw [hpj, getD_lswap_snd s.vals i j hi hj]
          refine ⟨ki0, ?_, hkib, hkil⟩
          rw [hlk, if_neg hne, if_pos rfl, hki]
          rfl
        · rw [getD_lswap_other s.vals i j p hpi hpj]
          obtain ⟨kp, hkp, hkpb, hkpl⟩ := hk1 p hp
          have hHj : (s.vals.getD p default).2 ≠ (s.vals.getD j default).2 := by
            intro he
            rw [he, hkj] at hkp
            simp only [Option.some.injEq, Prod.mk.injEq] at hkp
            exact hpj hkp.2.symm
          have hHi : (s.vals.getD p default).2 ≠ (s.vals.getD i default).2 := by
            intro he
            rw [he, hki] at hkp
            simp only [Option.some.injEq, Prod.mk.injEq] at hkp
            exact hpi hkp.2.symm
          refine ⟨kp, ?_, hkpb, hkpl⟩
          rw [hlk, if_neg hHj, if_neg hHi]
          exact hkp
    · intro h ki vi hlook
      rw [hkeys, hvals]
      rw [hlk] at hlook
      split_ifs at hlook with hc1 hc2
      · rw [hc1, hkj] at hlook
        simp only [Option.map_some', Option.some.injEq, Prod.mk.injEq] at hlook
        obtain ⟨he1, he2⟩ := hlook
        refine ⟨by rw [← he1]; exact hkjb, fun _ => ⟨?_, ?_⟩⟩
        · rw [← he2, lswap_length]
          exact hi
        · rw [← he2, getD_lswap_fst s.vals i j hi hj, hc1]
      · rw [hc2, hki] at hlook
        simp only [Option.map_some', Option.some.injEq, Prod.mk.injEq] at hlook
        obtain ⟨he1, he2⟩ := hlook
        refine ⟨by rw [← he1]; exact hkib, fun _ => ⟨?_, ?_⟩⟩
        · rw [← he2, lswap_length]
          exact hj
        · rw [← he2, getD_lswap_snd s.vals i j hi hj, hc2]
      · obtain ⟨hb, hcond⟩ := hk2 h ki vi hlook
        refine ⟨hb, fun hlive => ?_⟩
        obtain ⟨hvb, hvh⟩ := hcond hlive
        have hvi : vi ≠ i := by
          intro he
          rw [he] at hvh
          exact hc2 hvh.symm
        have hvj : vi ≠ j := by
          intro he
          rw [he] at hvh
          exact hc1 hvh.symm
        refine ⟨by rw [lswap_length]; exact hvb, ?_⟩
        rw [getD_lswap_other s.vals i j vi hvi hvj]
        exact hvh
    · intro h1 h2 ki vi1 vi2 l1 l2 hlive
      rw [hkeys] at hlive
      obtain ⟨w1, hw1⟩ := hfst h1 ki vi1 l1
      obtain ⟨w2, hw2⟩ := hfst h2 ki vi2 l2
      exact hk3 h1 h2 ki w1 w2 hw1 hw2 hlive

theorem hh_swapupGo_succ (s : HashHeap KT VT) (i fuel : Nat) :
    HashHeap.swapupGo s i (fuel+1)
      = if 0 < i ∧ s.lessthan (s.vals.getD (heapParent i) default).1
            (s.vals.getD i default).1 = true
        then HashHeap.swapupGo (HashHeap.heapswap s i (heapParent i)) (heapParent i) fuel
        else (s, i) := rfl

theorem hh_swapdownGo_succ (s : HashHeap KT VT) (i fuel : Nat) :
    HashHeap.swapdownGo s i (fuel+1)
      = if i < s.vals.length - (s.vals.length+1)/2 then
          match HashHeap.swapdownSc s i with
          | some k => HashHeap.swapdownGo (HashHeap.heapswap s i k) k fuel
          | none => (s, i)
        else (s, i) := rfl

theorem hh_swapdownSc_eq (s : HashHeap KT VT) (i : Nat) :
    HashHeap.swapdownSc s i = heapPick (HashHeap.hlt s) s.vals.length s.vals i := rfl

theorem hh_swapupGo_proj (fuel : Nat) :
    ∀ (s : HashHeap KT VT) (i : Nat),
      ((HashHeap.swapupGo s i fuel).1.vals, (HashHeap.swapupGo s i fuel).2)
        = siftUpGo (HashHeap.hlt s) s.vals i fuel := by
  induction fuel with
  | zero => intro s i; rfl
  | succ f ih =>
    intro s i
    rw [hh_swapupGo_succ, siftUpGo_succ]
    by_cases hc : 0 < i ∧ s.lessthan (s.vals.getD (heapParent i) default).1
        (s.vals.getD i default).1 = true
    · have hc2 : 0 < i ∧ HashHeap.hlt s (s.vals.getD (heapParent i) default)
          (s.vals.getD i default) = true := hc
      rw [if_pos hc, if_pos hc2]
      rw [ih]
      rw [hh_hlt_of_sameconf (hh_heapswap_conf s i (heapParent i)),
          hh_heapswap_vals]
    · have hc2 : ¬(0 < i ∧ HashHeap.hlt s (s.vals.getD (heapParent i) default)
          (s.vals.getD i default) = true) := hc
      rw [if_neg hc, if_neg hc2]

theorem hh_swapupGo_inv (fuel : Nat) :
    ∀ (s : HashHeap KT VT) (i : Nat), i < s.vals.length → HashHeap.KmapOk s →
      HashHeap.KmapOk (HashHeap.swapupGo s i fuel).1
        ∧ HashHeap.SameConf s (HashHeap.swapupGo s i fuel).1 := by
  induction fuel with
  | zero => intro s i _ hk; exact ⟨hk, hh_sameconf_refl s⟩
  | succ f ih =>
    intro s i hi hk
    rw [hh_swapupGo_succ]
    by_cases hc : 0 < i ∧ s.lessthan (s.vals.getD (heapParent i) default).1
        (s.vals.getD i default).1 = true
    · rw [if_pos hc]
      have hp : heapParent i < i := heapParent_lt hc.1
      have hconf := hh_heapswap_conf s i (heapParent i)
      have hk2 := hh_heapswap_kmapok s i (heapParent i) hi (by omega) hk
      have hlen : (HashHeap.heapswap s i (heapParent i)).vals.length = s.vals.length :=
        hconf.2.2.2.2.2.2
      obtain ⟨ha, hb⟩ := ih (HashHeap.heapswap s i (heapParent i)) (heapParent i)
        (by omega) hk2
      exact ⟨ha, hh_sameconf_trans hconf hb⟩
    · rw [if_neg hc]
      exact ⟨hk, hh_sameconf_refl s⟩

theorem hh_swapdownGo_proj (fuel : Nat) :
    ∀ (s : HashHeap KT VT) (i : Nat),
      ((HashHeap.swapdownGo s i fuel).1.vals, (HashHeap.swapdownGo s i fuel).2)
        = siftDownGo (HashHeap.hlt s) s.vals.length s.vals i fuel := by
  induction fuel with
  | zero => intro s i; rfl
  | succ f ih =>
    intro s i
    rw [hh_swapdownGo_succ, siftDownGo_succ]
    by_cases hg : i < s.vals.length - (s.vals.length+1)/2
    · rw [if_pos hg]
      rw [← hh_swapdownSc_eq]
      cases hp : HashHeap.swapdownSc s i with
      | some k =>
        show ((HashHeap.swapdownGo (HashHeap.heapswap s i k) k f).1.vals,
              (HashHeap.swapdownGo (HashHeap.heapswap s i k) k f).2)
            = siftDownGo (HashHeap.hlt s) s.vals.length (lswap s.vals i k) k f
        rw [ih]
        rw [hh_hlt_of_sameconf (hh_heapswap_conf s i k), hh_heapswap_vals,
            lswap_length]
      | none => rfl
    · rw [if_neg hg]
      have hleaf : s.vals.length ≤ 2*i+1 := by omega
      rw [heapPick_none_of_leaf (HashHeap.hlt s) s.vals.length s.vals i hleaf]

theorem hh_swapdownGo_inv (fuel : Nat) :
    ∀ (s : HashHeap KT VT) (i : Nat), HashHeap.KmapOk s →
      HashHeap.KmapOk (HashHeap.swapdownGo s i fuel).1
        ∧ HashHeap.SameConf s (HashHeap.swapdownGo s i fuel).1 := by
  induction fuel with
  | zero => intro s i hk; exact ⟨hk, hh_sameconf_refl s⟩
  | succ f ih =>
    intro s i hk
    rw [hh_swapdownGo_succ]
    by_cases hg : i < s.vals.length - (s.vals.length+1)/2
    · rw [if_pos hg]
      cases hp : HashHeap.swapdownSc s i with
      | some k =>
        have hb := heapPick_some_bounds (hh_swapdownSc_eq s i ▸ hp)
        have hconf := hh_heapswap_conf s i k
        have hk2 := hh_heapswap_kmapok s i k (by omega) (by omega) hk
        obtain ⟨ha, hb2⟩ := ih (HashHeap.heapswap s i k) k hk2
        exact ⟨ha, hh_sameconf_trans hconf hb2⟩
      | none => exact ⟨hk, hh_sameconf_refl s⟩
    · rw [if_neg hg]
      exact ⟨hk, hh_sameconf_refl s⟩

theorem hh_swapup_inv (s : HashHeap KT VT) (i : Nat) (hk : HashHeap.KmapOk s) :
    HashHeap.KmapOk (HashHeap.swapup s i).1
      ∧ HashHeap.SameConf s (HashHeap.swapup s i).1 := by
  by_cases hge : i ≥ s.vals.length
  · unfold HashHeap.swapup
    rw [if_pos hge]
    exact ⟨hk, hh_sameconf_refl s⟩
  · unfold HashHeap.swapup
    rw [if_neg hge]
    exact hh_swapupGo_inv (i+1) s i (by omega) hk

theorem hh_swapdown_inv (s : HashHeap KT VT) (i : Nat) (hk : HashHeap.KmapOk s) :
    HashHeap.KmapOk (HashHeap.swapdown s i).1
      ∧ HashHeap.SameConf s (HashHeap.swapdown s i).1 :=
  hh_swapdownGo_inv (s.vals.length + 1) s i hk

theorem hh_reposition_inv (s : HashHeap KT VT) (i : Nat) (hk : HashHeap.KmapOk s) :
    HashHeap.KmapOk (HashHeap.reposition s i).1
      ∧ HashHeap.SameConf s (HashHeap.reposition s i).1 := by
  by_cases heq : (HashHeap.swapup s i).2 = i
  · unfold HashHeap.reposition
    rw [if_pos heq]
    obtain ⟨ha, hb⟩ := hh_swapup_inv s i hk
    obtain ⟨hc, hd⟩ := hh_swapdown_inv (HashHeap.swapup s i).1 i ha
    exact ⟨hc, hh_sameconf_trans hb hd⟩
  · unfold HashHeap.reposition
    rw [if_neg heq]
    exact hh_swapup_inv s i hk

theorem hh_heapswap_lookup_fst (s : HashHeap KT VT) (i j h : Nat) :
    (List.lookup h (HashHeap.heapswap s i j).kmap).map (fun p => p.1)
      = (List.lookup h s.kmap).map (fun p => p.1) := by
  by_cases hij : i = j
  · subst hij
    unfold HashHeap.heapswap
    rw [if_pos rfl]
  · rw [hh_heapswap_kmap s i j hij, kmapUpdateVi_lookup, kmapUpdateVi_lookup]
    split_ifs <;>
      (cases hop : List.lookup h s.kmap with
       | none => rfl
       | some p => rfl)

theorem hh_elemKey_heapswap (s : HashHeap KT VT) (i j : Nat) (x : VT × Nat) :
    HashHeap.elemKey (HashHeap.heapswap s i j) x = HashHeap.elemKey s x := by
  unfold HashHeap.elemKey
  have hf := hh_heapswap_lookup_fst s i j x.2
  have hkeys := (hh_heapswap_conf s i j).1
  cases h1 : List.lookup x.2 (HashHeap.heapswap s i j).kmap with
  | none =>
    rw [h1] at hf
    cases h2 : List.lookup x.2 s.kmap with
    | none => rfl
    | some p =>
      rw [h2] at hf
      simp at hf
  | some p =>
    rw [h1] at hf
    cases h2 : List.lookup x.2 s.kmap with
    | none =>
      rw [h2] at hf
      simp at hf
    | some q =>
      rw [h2] at hf
      obtain ⟨a, b⟩ := p
      obtain ⟨c, d⟩ := q
      simp only [Option.map_some', Option.some.injEq] at hf
      show (HashHeap.heapswap s i j).keys.getD a none = s.keys.getD c none
      rw [hkeys, hf]

theorem hh_swapupGo_elemKey (fuel : Nat) :
    ∀ (s : HashHeap KT VT) (i : Nat) (x : VT × Nat),
      HashHeap.elemKey (HashHeap.swapupGo s i fuel).1 x = HashHeap.elemKey s x := by
  induction fuel with
  | zero => intro s i x; rfl
  | succ f ih =>
    intro s i x
    rw [hh_swapupGo_succ]
    split
    · rw [ih, hh_elemKey_heapswap]
    · rfl

theorem hh_swapdownGo_elemKey (fuel : Nat) :
    ∀ (s : HashHeap KT VT) (i : Nat) (x : VT × Nat),
      HashHeap.elemKey (HashHeap.swapdownGo s i fuel).1 x = HashHeap.elemKey s x := by
  induction fuel with
  | zero => intro s i x; rfl
  | succ f ih =>
    intro s i x
    rw [hh_swapdownGo_succ]
    split
    · cases hp : HashHeap.swapdownSc s i with
      | some k =>
        show HashHeap.elemKey (HashHeap.swapdownGo (HashHeap.heapswap s i k) k f).1 x = _
        rw [ih, hh_elemKey_heapswap]
      | none => rfl
    · rfl

theorem hh_reposition_elemKey (s : HashHeap KT VT) (i : Nat) (x : VT × Nat) :
    HashHeap.elemKey (HashHeap.reposition s i).1 x = HashHeap.elemKey s x := by
  have hup : ∀ (t : HashHeap KT VT) (j : Nat),
      HashHeap.elemKey (HashHeap.swapup t j).1 x = HashHeap.elemKey t x := by
    intro t j
    unfold HashHeap.swapup
    split
    · rfl
    · rw [hh_swapupGo_elemKey]
  by_cases heq : (HashHeap.swapup s i).2 = i
  · unfold HashHeap.reposition
    rw [if_pos heq]
    show HashHeap.elemKey (HashHeap.swapdownGo _ _ _).1 x = _
    rw [hh_swapdownGo_elemKey, hup]
  · unfold HashHeap.reposition
    rw [if_neg heq]
    exact hup s i

theorem hh_findslotGo_false (s : HashHeap KT VT) (key : KT) (h0 : Nat) :
    ∀ (fuel h c : Nat) (reuse : Option Nat),
      (∀ g, reuse = some g →
        ∃ ki vi, List.lookup g s.kmap = some (ki, vi) ∧ s.keys.getD ki none = none) →
      ∀ hh, HashHeap.findslotGo s key h0 h c reuse fuel = some (hh, false) →
        List.lookup hh s.kmap = none
        ∨ ∃ ki vi, List.lookup hh s.kmap = some (ki, vi) ∧ s.keys.getD ki none = none := by
  intro fuel
  induction fuel with
  | zero =>
    intro h c reuse hr hh hfs
    cases hfs
  | succ f ih =>
    intro h c reuse hr hh hfs
    rw [findslotGo_succ] at hfs
    cases hlu : List.lookup h s.kmap with
    | some p =>
      obtain ⟨ki, vi⟩ := p
      rw [hlu] at hfs
      dsimp only at hfs
      cases hkd : s.keys.getD ki none with
      | some key2 =>
        rw [hkd] at hfs
        dsimp only at hfs
        by_cases hkk : key2 = key
        · rw [if_pos hkk] at hfs
          simp only [Option.some.injEq, Prod.mk.injEq] at hfs
          cases hfs.2
        · rw [if_neg hkk] at hfs
          exact ih _ _ reuse hr hh hfs
      | none =>
        rw [hkd] at hfs
        dsimp only at hfs
        refine ih _ _ _ ?_ hh hfs
        intro g hg
        cases hre : reuse with
        | some g0 =>
          rw [hre] at hg
          dsimp only at hg
          injection hg with hgi
          rw [← hgi]
          exact hr g0 hre
        | none =>
          rw [hre] at hg
          dsimp only at hg
          injection hg with hgi
          rw [← hgi]
          exact ⟨ki, vi, hlu, hkd⟩
    | none =>
      rw [hlu] at hfs
      dsimp only at hfs
      cases hre : reuse with
      | some g0 =>
        rw [hre] at hfs
        dsimp only at hfs
        simp only [Option.some.injEq, Prod.mk.injEq] at hfs
        rw [← hfs.1]
        obtain ⟨ki, vi, ha, hb⟩ := hr g0 hre
        exact Or.inr ⟨ki, vi, ha, hb⟩
      | none =>
        rw [hre] at hfs
        dsimp only at hfs
        simp only [Option.some.injEq, Prod.mk.injEq] at hfs
        rw [← hfs.1]
        exact Or.inl hlu

theorem hh_findslot_false (s : HashHeap KT VT) (key : KT) (h : Nat)
    (hfs : HashHeap.findslot s key = some (h, false)) :
    List.lookup h s.kmap = none
    ∨ ∃ ki vi, List.lookup h s.kmap = some (ki, vi) ∧ s.keys.getD ki none = none := by
  exact hh_findslotGo_false s key (HashHeap.autohash s key) (HashHeap.kmapBound s)
    (HashHeap.autohash s key) 0 none (fun g hg => by cases hg) h hfs

theorem hh_swapupGo_conf (fuel : Nat) :
    ∀ (s : HashHeap KT VT) (i : Nat), HashHeap.SameConf s (HashHeap.swapupGo s i fuel).1 := by
  induction fuel with
  | zero => intro s i; exact hh_sameconf_refl s
  | succ f ih =>
    intro s i
    rw [hh_swapupGo_succ]
    split
    · exact hh_sameconf_trans (hh_heapswap_conf s i (heapParent i)) (ih _ _)
    · exact hh_sameconf_refl s

theorem hh_swapdownGo_conf (fuel : Nat) :
    ∀ (s : HashHeap KT VT) (i : Nat), HashHeap.SameConf s (HashHeap.swapdownGo s i fuel).1 := by
  induction fuel with
  | zero => intro s i; exact hh_sameconf_refl s
  | succ f ih =>
    intro s i
    rw [hh_swapdownGo_succ]
    split
    · cases hp : HashHeap.swapdownSc s i with
      | some k =>
        exact hh_sameconf_trans (hh_heapswap_conf s i k) (ih _ _)
      | none => exact hh_sameconf_refl s
    · exact hh_sameconf_refl s

theorem hh_swapup_conf (s : HashHeap KT VT) (i : Nat) :
    HashHeap.SameConf s (HashHeap.swapup s i).1 := by
  unfold HashHeap.swapup
  by_cases hge : i ≥ s.vals.length
  · rw [if_pos hge]
    exact hh_sameconf_refl s
  · rw [if_neg hge]
    exact hh_swapupGo_conf (i+1) s i

theorem hh_swapdown_conf (s : HashHeap KT VT) (i : Nat) :
    HashHeap.SameConf s (HashHeap.swapdown s i).1 :=
  hh_swapdownGo_conf (s.vals.length + 1) s i

theorem hh_reposition_conf (s : HashHeap KT VT) (i : Nat) :
    HashHeap.SameConf s (HashHeap.reposition s i).1 := by
  unfold HashHeap.reposition
  by_cases heq : (HashHeap.swapup s i).2 = i
  · rw [if_pos heq]
    exact hh_sameconf_trans (hh_swapup_conf s i) (hh_swapdown_conf _ i)
  · rw [if_neg heq]
    exact hh_swapup_conf s i

theorem hh_reposition_heap (s1 : HashHeap KT VT) (l₀ : List (VT × Nat)) (x : VT × Nat)
    (i : Nat) (hok : LtOk (HashHeap.hlt s1) (fun _ => True))
    (hvals : s1.vals = l₀.set i x) (hlen : i < l₀.length)
    (hheap : HeapD (HashHeap.hlt s1) l₀ l₀.length) :
    HeapD (HashHeap.hlt s1) (HashHeap.reposition s1 i).1.vals
      (HashHeap.reposition s1 i).1.vals.length := by
  have hslen : s1.vals.length = l₀.length := by rw [hvals, List.length_set]
  have hrlen : (HashHeap.reposition s1 i).1.vals.length = l₀.length := by
    rw [(hh_reposition_conf s1 i).2.2.2.2.2.2, hslen]
  rw [hrlen]
  have hproj := hh_swapupGo_proj (i+1) s1 i
  have hg : ∀ j, j < l₀.length → j ≠ i → (fun _ : VT × Nat => True) (l₀.getD j default) :=
    fun _ _ _ => trivial
  have hgi : 2*i+1 < l₀.length → (fun _ : VT × Nat => True) (l₀.getD i default) :=
    fun _ => trivial
  have hmain := resift_replace_heap hok l₀ x i l₀.length (le_refl _) hlen hg hgi trivial
    hheap true (fun hc => by cases hc) (l₀.length + 1) (by omega) (by omega)
  unfold HashHeap.reposition
  have hwu : HashHeap.swapup s1 i = HashHeap.swapupGo s1 i (i+1) := by
    unfold HashHeap.swapup
    rw [if_neg (by omega)]
  by_cases heq : (HashHeap.swapup s1 i).2 = i
  · rw [if_pos heq]
    have heq2 : (siftUpGo (HashHeap.hlt s1) s1.vals i (i+1)).2 = i := by
      rw [← hproj]
      rw [← hwu]
      exact heq
    rw [if_pos ⟨by rw [hvals] at heq2; exact heq2, rfl⟩] at hmain
    show HeapD (HashHeap.hlt s1) (HashHeap.swapdown (HashHeap.swapup s1 i).1 i).1.vals _
    unfold HashHeap.swapdown
    have hproj2 := hh_swapdownGo_proj ((HashHeap.swapup s1 i).1.vals.length + 1)
      (HashHeap.swapup s1 i).1 i
    have hv2 : (HashHeap.swapdownGo (HashHeap.swapup s1 i).1 i
        ((HashHeap.swapup s1 i).1.vals.length + 1)).1.vals
        = (siftDownGo (HashHeap.hlt (HashHeap.swapup s1 i).1)
            (HashHeap.swapup s1 i).1.vals.length (HashHeap.swapup s1 i).1.vals i
            ((HashHeap.swapup s1 i).1.vals.length + 1)).1 :=
      congrArg Prod.fst hproj2
    rw [hv2]
    have hhlt : HashHeap.hlt (HashHeap.swapup s1 i).1 = HashHeap.hlt s1 :=
      hh_hlt_of_sameconf (hh_swapup_conf s1 i)
    have hulen : (HashHeap.swapup s1 i).1.vals.length = l₀.length := by
      rw [(hh_swapup_conf s1 i).2.2.2.2.2.2, hslen]
    have huvals : (HashHeap.swapup s1 i).1.vals
        = (siftUpGo (HashHeap.hlt s1) (l₀.set i x) i (i+1)).1 := by
      rw [hwu]
      have hcf : (HashHeap.swapupGo s1 i (i+1)).1.vals
          = (siftUpGo (HashHeap.hlt s1) s1.vals i (i+1)).1 :=
        congrArg Prod.fst (hh_swapupGo_proj (i+1) s1 i)
      rw [hcf, hvals]
    rw [hhlt, hulen, huvals]
    exact hmain
  · rw [if_neg heq]
    have heq2 : ¬ (siftUpGo (HashHeap.hlt s1) (l₀.set i x) i (i+1)).2 = i := by
      rw [← hvals, ← hproj, ← hwu]
      exact heq
    rw [if_neg (fun hc => heq2 hc.1)] at hmain
    have huvals : (HashHeap.swapup s1 i).1.vals
        = (siftUpGo (HashHeap.hlt s1) (l₀.set i x) i (i+1)).1 := by
      rw [hwu]
      have hcf : (HashHeap.swapupGo s1 i (i+1)).1.vals
          = (siftUpGo (HashHeap.hlt s1) s1.vals i (i+1)).1 :=
        congrArg Prod.fst (hh_swapupGo_proj (i+1) s1 i)
      rw [hcf, hvals]
    show HeapD (HashHeap.hlt s1) (HashHeap.swapup s1 i).1.vals _
    rw [huvals]
    exact hmain

theorem list_eq_of_getD_ext {α : Type} [Inhabited α] (l1 l2 : List α)
    (hlen : l1.length = l2.length)
    (h : ∀ j, j < l1.length → l1.getD j default = l2.getD j default) : l1 = l2 := by
  apply List.ext_getElem hlen
  intro i h1 h2
  have hh := h i h1
  rw [List.getD_eq_getElem?_getD, List.getD_eq_getElem?_getD,
      List.getElem?_eq_getElem h1, List.getElem?_eq_getElem h2] at hh
  exact hh

theorem lswap_last_dropLast {α : Type} [Inhabited α] (l : List α) (vi : Nat)
    (hvi : vi < l.length) :
    (lswap l vi (l.length - 1)).dropLast
      = l.dropLast.set vi (l.getD (l.length - 1) default) := by
  by_cases hlast : vi = l.length - 1
  · subst hlast
    rw [lswap_self]
    rw [List.set_eq_of_length_le (by rw [List.length_dropLast])]
  · apply list_eq_of_getD_ext
    · rw [List.length_dropLast, lswap_length, List.length_set, List.length_dropLast]
    · intro j hj
      rw [List.length_dropLast, lswap_length] at hj
      have hj1 : j + 1 < l.length := by omega
      rw [getD_dropLast _ _ _ (by rw [lswap_length]; exact hj1)]
      by_cases hj0 : j = vi
      · rw [hj0, getD_lswap_fst l vi (l.length - 1) hvi (by omega),
            getD_set_self _ _ _ _ (by rw [List.length_dropLast]; omega)]
      · rw [getD_lswap_other l vi (l.length - 1) j (fun he => hj0 he) (by omega),
            getD_set_ne _ _ _ _ _ (fun he => hj0 he.symm),
            getD_dropLast _ _ _ hj1]

theorem heapD_dropLast {α : Type} [Inhabited α] (lt : α → α → Bool) (l : List α)
    (hd : HeapD lt l l.length) : HeapD lt l.dropLast l.dropLast.length := by
  intro c hc0 hcn
  rw [List.length_dropLast] at hcn
  have hpc : heapParent c < c := heapParent_lt hc0
  rw [getD_dropLast l c default (by omega), getD_dropLast l (heapParent c) default (by omega)]
  exact hd c hc0 (by omega)

theorem mem_getD_index {α : Type} [Inhabited α] (l : List α) (y : α) (hy : y ∈ l) :
    ∃ j, j < l.length ∧ l.getD j default = y := by
  obtain ⟨i, hi, he⟩ := List.mem_iff_getElem.1 hy
  refine ⟨i, hi, ?_⟩
  rw [List.getD_eq_getElem?_getD, List.getElem?_eq_getElem hi]
  exact he

theorem hh_heapswap_lookup_i (s : HashHeap KT VT) (i j : Nat)
    (hi : i < s.vals.length) (hj : j < s.vals.length) (hk : HashHeap.KmapOk s) :
    List.lookup (s.vals.getD i default).2 (HashHeap.heapswap s i j).kmap
      = (List.lookup (s.vals.getD i default).2 s.kmap).map (fun p => (p.1, j)) := by
  obtain ⟨hk1, _, _⟩ := hk
  obtain ⟨ki0, hki, _, _⟩ := hk1 i hi
  by_cases hij : i = j
  · subst hij
    unfold HashHeap.heapswap
    rw [if_pos rfl, hki]
    rfl
  · obtain ⟨kj0, hkj, _, _⟩ := hk1 j hj
    have hne : (s.vals.getD i default).2 ≠ (s.vals.getD j default).2 := by
      intro he
      rw [he, hkj] at hki
      simp only [Option.some.injEq, Prod.mk.injEq] at hki
      exact hij hki.2.symm
    rw [hh_heapswap_kmap s i j hij, kmapUpdateVi_lookup, kmapUpdateVi_lookup,
        if_neg hne, if_pos rfl]

theorem hh_swapup_append_heap (s1 : HashHeap KT VT) (l₀ : List (VT × Nat)) (x : VT × Nat)
    (hok : LtOk (HashHeap.hlt s1) (fun _ => True)) (hvals : s1.vals = l₀ ++ [x])
    (hheap : HeapD (HashHeap.hlt s1) l₀ l₀.length) :
    HeapD (HashHeap.hlt s1) (HashHeap.swapup s1 l₀.length).1.vals
      (HashHeap.swapup s1 l₀.length).1.vals.length := by
  have hslen : s1.vals.length = l₀.length + 1 := by
    rw [hvals, List.length_append]
    rfl
  have hrlen : (HashHeap.swapup s1 l₀.length).1.vals.length = l₀.length + 1 := by
    rw [(hh_swapup_conf s1 l₀.length).2.2.2.2.2.2, hslen]
  rw [hrlen]
  have hwu : HashHeap.swapup s1 l₀.length = HashHeap.swapupGo s1 l₀.length (l₀.length+1) := by
    unfold HashHeap.swapup
    rw [if_neg (by omega)]
  have hcf : (HashHeap.swapupGo s1 l₀.length (l₀.length+1)).1.vals
      = (siftUpGo (HashHeap.hlt s1) s1.vals l₀.length (l₀.length+1)).1 :=
    congrArg Prod.fst (hh_swapupGo_proj (l₀.length+1) s1 l₀.length)
  rw [hwu, hcf]
  apply siftUpGo_heap hok (l₀.length+1) s1.vals l₀.length (l₀.length+1)
    (by omega) (by omega) (by omega) (fun _ _ => trivial)
  · intro c hc0 hcn hci
    have hcl : c < l₀.length := by omega
    have hpcl : heapParent c < l₀.length := by
      have := heapParent_lt hc0
      omega
    rw [hvals, getD_append_lt l₀ [x] c default hcl,
        getD_append_lt l₀ [x] (heapParent c) default hpcl]
    exact hheap c hc0 hcl
  · intro h0i c hcn hpc hci
    have hcc := heapParent_cases (by
      rcases Nat.eq_zero_or_pos c with h | h
      · subst h
        have hp0 : heapParent 0 = 0 := rfl
        rw [hp0] at hpc
        omega
      · exact h) hpc
    omega

theorem hh_swapdown_root_heap (s3 : HashHeap KT VT) (l₀ : List (VT × Nat)) (x : VT × Nat)
    (hok : LtOk (HashHeap.hlt s3) (fun _ => True)) (hvals : s3.vals = l₀.set 0 x)
    (hheap : HeapD (HashHeap.hlt s3) l₀ l₀.length) :
    HeapD (HashHeap.hlt s3) (HashHeap.swapdown s3 0).1.vals
      (HashHeap.swapdown s3 0).1.vals.length := by
  have hslen : s3.vals.length = l₀.length := by rw [hvals, List.length_set]
  have hrlen : (HashHeap.swapdown s3 0).1.vals.length = l₀.length := by
    rw [(hh_swapdown_conf s3 0).2.2.2.2.2.2, hslen]
  rw [hrlen]
  rcases Nat.eq_zero_or_pos l₀.length with h0l | h0l
  · intro c hc0 hcn
    omega
  · have hcf : (HashHeap.swapdownGo s3 0 (s3.vals.length + 1)).1.vals
        = (siftDownGo (HashHeap.hlt s3) s3.vals.length s3.vals 0 (s3.vals.length + 1)).1 :=
      congrArg Prod.fst (hh_swapdownGo_proj (s3.vals.length + 1) s3 0)
    show HeapD (HashHeap.hlt s3) (HashHeap.swapdownGo s3 0 (s3.vals.length + 1)).1.vals _
    rw [hcf, hslen, hvals]
    exact siftDown_root_heap hok l₀ x l₀.length (le_refl _) h0l hheap
      (fun _ _ _ => trivial) trivial (l₀.length + 1) (by omega) (by omega)

theorem ltOk_fst_lt :
    LtOk (fun (a b : VT × Nat) => decide (a.1 < b.1)) (fun _ => True) := by
  refine ⟨?_, ?_, ?_⟩
  · intro a b hab
    simp only [decide_eq_true_eq] at hab
    simp only [decide_eq_false_iff_not]
    exact lt_asymm hab
  · intro a b c hab hbc
    simp only [decide_eq_true_eq] at hab hbc ⊢
    exact lt_trans hab hbc
  · intro a b c _ _ _ hac
    simp only [decide_eq_true_eq] at hac ⊢
    rcases lt_or_le a.1 b.1 with h | h
    · exact Or.inl h
    · exact Or.inr (lt_of_le_of_lt h hac)

theorem ltOk_fst_gt :
    LtOk (fun (a b : VT × Nat) => decide (b.1 < a.1)) (fun _ => True) := by
  refine ⟨?_, ?_, ?_⟩
  · intro a b hab
    simp only [decide_eq_true_eq] at hab
    simp only [decide_eq_false_iff_not]
    exact lt_asymm hab
  · intro a b c hab hbc
    simp only [decide_eq_true_eq] at hab hbc ⊢
    exact lt_trans hbc hab
  · intro a b c _ _ _ hac
    simp only [decide_eq_true_eq] at hac ⊢
    rcases lt_or_le b.1 a.1 with h | h
    · exact Or.inl h
    · exact Or.inr (lt_of_lt_of_le hac h)

theorem hh_ltOk_canon (s : HashHeap KT VT) (hc : HashHeap.CmpCanon s) :
    LtOk (HashHeap.hlt s) (fun _ => True) := by
  unfold HashHeap.CmpCanon at hc
  cases hm : s.minmax
  · rw [hm] at hc
    have he : HashHeap.hlt s = fun (a b : VT × Nat) => decide (b.1 < a.1) := by
      funext a b
      unfold HashHeap.hlt
      rw [hc]
      rfl
    rw [he]
    exact ltOk_fst_gt
  · rw [hm] at hc
    have he : HashHeap.hlt s = fun (a b : VT × Nat) => decide (a.1 < b.1) := by
      funext a b
      unfold HashHeap.hlt
      rw [hc]
      rfl
    rw [he]
    exact ltOk_fst_lt

theorem hh_heapswap_keys_comm (s : HashHeap KT VT) (k' : List (Option KT)) (i j : Nat) :
    HashHeap.heapswap { s with keys := k' } i j
      = { HashHeap.heapswap s i j with keys := k' } := by
  unfold HashHeap.heapswap
  split
  · rfl
  · rfl

theorem hh_swapupGo_keys_comm (fuel : Nat) :
    ∀ (s : HashHeap KT VT) (k' : List (Option KT)) (i : Nat),
      HashHeap.swapupGo { s with keys := k' } i fuel
        = ({ (HashHeap.swapupGo s i fuel).1 with keys := k' },
           (HashHeap.swapupGo s i fuel).2) := by
  induction fuel with
  | zero => intro s k' i; rfl
  | succ f ih =>
    intro s k' i
    rw [hh_swapupGo_succ, hh_swapupGo_succ]
    by_cases hc : 0 < i ∧ s.lessthan (s.vals.getD (heapParent i) default).1
        (s.vals.getD i default).1 = true
    · rw [if_pos hc, if_pos hc, hh_heapswap_keys_comm, ih]
    · rw [if_neg hc, if_neg hc]

theorem hh_swapdownGo_keys_comm (fuel : Nat) :
    ∀ (s : HashHeap KT VT) (k' : List (Option KT)) (i : Nat),
      HashHeap.swapdownGo { s with keys := k' } i fuel
        = ({ (HashHeap.swapdownGo s i fuel).1 with keys := k' },
           (HashHeap.swapdownGo s i fuel).2) := by
  induction fuel with
  | zero => intro s k' i; rfl
  | succ f ih =>
    intro s k' i
    rw [hh_swapdownGo_succ, hh_swapdownGo_succ]
    by_cases hg : i < s.vals.length - (s.vals.length+1)/2
    · rw [if_pos hg, if_pos hg]
      have hsc : HashHeap.swapdownSc { s with keys := k' } i = HashHeap.swapdownSc s i := rfl
      rw [hsc]
      cases hp : HashHeap.swapdownSc s i with
      | some k =>
        show HashHeap.swapdownGo (HashHeap.heapswap { s with keys := k' } i k) k f = _
        rw [hh_heapswap_keys_comm, ih]
      | none => rfl
    · rw [if_neg hg, if_neg hg]

theorem hh_reposition_keys_comm (s : HashHeap KT VT) (k' : List (Option KT)) (i : Nat) :
    (HashHeap.reposition { s with keys := k' } i).1
      = { (HashHeap.reposition s i).1 with keys := k' } := by
  have hup : HashHeap.swapup { s with keys := k' } i
      = ({ (HashHeap.swapup s i).1 with keys := k' }, (HashHeap.swapup s i).2) := by
    unfold HashHeap.swapup
    by_cases hge : i ≥ s.vals.length
    · rw [if_pos hge, if_pos hge]
    · rw [if_neg hge, if_neg hge]
      exact hh_swapupGo_keys_comm (i+1) s k' i
  unfold HashHeap.reposition
  rw [hup]
  by_cases heq : (HashHeap.swapup s i).2 = i
  · rw [if_pos heq, if_pos heq]
    unfold HashHeap.swapdown
    have hlen : ({ (HashHeap.swapup s i).1 with keys := k' } : HashHeap KT VT).vals.length
        = (HashHeap.swapup s i).1.vals.length := rfl
    rw [hlen, hh_swapdownGo_keys_comm]
  · rw [if_neg heq, if_neg heq]

theorem hh_kmapok_modify (s : HashHeap KT VT) (vi : Nat) (x : VT × Nat)
    (hvi : vi < s.vals.length) (hx : x.2 = (s.vals.getD vi default).2)
    (hk : HashHeap.KmapOk s) :
    HashHeap.KmapOk { s with vals := s.vals.set vi x } := by
  obtain ⟨hk1, hk2, hk3⟩ := hk
  refine ⟨?_, ?_, ?_⟩
  · intro p hp
    rw [List.length_set] at hp
    by_cases hpv : p = vi
    · rw [hpv]
      show ∃ ki, List.lookup ((s.vals.set vi x).getD vi default).2 s.kmap
          = some (ki, vi) ∧ ki < s.keys.length ∧ s.keys.getD ki none ≠ none
      rw [getD_set_self s.vals vi x default hvi, hx]
      exact hk1 vi hvi
    · show ∃ ki, List.lookup ((s.vals.set vi x).getD p default).2 s.kmap
          = some (ki, p) ∧ ki < s.keys.length ∧ s.keys.getD ki none ≠ none
      rw [getD_set_ne s.vals vi p x default (fun he => hpv he.symm)]
      exact hk1 p hp
  · intro g ki' vi' hlu
    obtain ⟨hb, hcond⟩ := hk2 g ki' vi' hlu
    refine ⟨hb, fun hlive => ?_⟩
    obtain ⟨hvb, hvh⟩ := hcond hlive
    refine ⟨by rw [List.length_set]; exact hvb, ?_⟩
    by_cases hvv : vi' = vi
    · rw [hvv, getD_set_self s.vals vi x default hvi, hx]
      rw [hvv] at hvh
      exact hvh
    · rw [getD_set_ne s.vals vi vi' x default (fun he => hvv he.symm)]
      exact hvh
  · exact hk3

theorem hh_kmapok_insert_existing (s : HashHeap KT VT) (key : KT) (h ki vi : Nat) (v : VT)
    (hlu : List.lookup h s.kmap = some (ki, vi))
    (hlive : s.keys.getD ki none ≠ none)
    (hkib : ki < s.keys.length)
    (hk : HashHeap.KmapOk s) :
    HashHeap.KmapOk { s with keys := s.keys.set ki (some key),
                             vals := s.vals.set vi (v, h) } := by
  obtain ⟨hk1, hk2, hk3⟩ := hk
  obtain ⟨hvb, hvh⟩ := (hk2 h ki vi hlu).2 hlive
  refine ⟨?_, ?_, ?_⟩
  · intro p hp
    rw [List.length_set] at hp
    by_cases hpv : p = vi
    · refine ⟨ki, ?_, by rw [List.length_set]; exact hkib, ?_⟩
      · show List.lookup ((s.vals.set vi (v, h)).getD p default).2 s.kmap = some (ki, p)
        rw [hpv, getD_set_self s.vals vi (v, h) default hvb]
        exact hlu
      · rw [getD_set_self s.keys ki (some key) none hkib]
        exact Option.some_ne_none key
    · obtain ⟨kp, hkp, hkpb, hkpl⟩ := hk1 p hp
      refine ⟨kp, ?_, by rw [List.length_set]; exact hkpb, ?_⟩
      · show List.lookup ((s.vals.set vi (v, h)).getD p default).2 s.kmap = some (kp, p)
        rw [getD_set_ne s.vals vi p (v, h) default (fun he => hpv he.symm)]
        exact hkp
      · by_cases hkk : kp = ki
        · rw [hkk, getD_set_self s.keys ki (some key) none hkib]
          exact Option.some_ne_none key
        · rw [getD_set_ne s.keys ki kp (some key) none (fun he => hkk he.symm)]
          exact hkpl
  · intro g ki' vi' hlu'
    obtain ⟨hb, hcond⟩ := hk2 g ki' vi' hlu'
    refine ⟨by rw [List.length_set]; exact hb, fun hlive' => ?_⟩
    by_cases hkk : ki' = ki
    · have hgh : g = h := by
        rw [hkk] at hlu'
        exact hk3 g h ki vi' vi hlu' hlu hlive
      rw [hgh] at hlu'
      rw [hlu] at hlu'
      simp only [Option.some.injEq, Prod.mk.injEq] at hlu'
      refine ⟨by rw [List.length_set, ← hlu'.2]; exact hvb, ?_⟩
      rw [← hlu'.2, getD_set_self s.vals vi (v, h) default hvb, hgh]
    · have hlivold : s.keys.getD ki' none ≠ none := by
        rw [getD_set_ne s.keys ki ki' (some key) none (fun he => hkk he.symm)] at hlive'
        exact hlive'
      obtain ⟨hvb', hvh'⟩ := hcond hlivold
      refine ⟨by rw [List.length_set]; exact hvb', ?_⟩
      by_cases hvv : vi' = vi
      · rw [hvv] at hvh'
        rw [hvh] at hvh'
        rw [← hvh'] at hlu'
        rw [hlu] at hlu'
        simp only [Option.some.injEq, Prod.mk.injEq] at hlu'
        exact absurd hlu'.1 (fun he => hkk he.symm)
      · rw [getD_set_ne s.vals vi vi' (v, h) default (fun he => hvv he.symm)]
        exact hvh'
  · intro g1 g2 ki' vi1 vi2 l1 l2 hlive'
    by_cases hkk : ki' = ki
    · rw [hkk] at l1 l2
      exact hk3 g1 g2 ki vi1 vi2 l1 l2 hlive
    · have hlivold : s.keys.getD ki' none ≠ none := by
        rw [getD_set_ne s.keys ki ki' (some key) none (fun he => hkk he.symm)] at hlive'
        exact hlive'
      exact hk3 g1 g2 ki' vi1 vi2 l1 l2 hlivold

theorem hh_kmapok_append (s : HashHeap KT VT) (key : KT) (h : Nat) (v : VT)
    (hfresh : List.lookup h s.kmap = none
      ∨ ∃ kt vt, List.lookup h s.kmap = some (kt, vt) ∧ s.keys.getD kt none = none)
    (hk : HashHeap.KmapOk s) :
    HashHeap.KmapOk { s with keys := s.keys ++ [some key], vals := s.vals ++ [(v, h)],
                             kmap := (h, s.keys.length, s.vals.length) :: s.kmap } := by
  obtain ⟨hk1, hk2, hk3⟩ := hk
  have hnolive : ∀ p, p < s.vals.length → (s.vals.getD p default).2 ≠ h := by
    intro p hp he
    obtain ⟨kp, hkp, hkpb, hkpl⟩ := hk1 p hp
    rw [he] at hkp
    rcases hfresh with hf | ⟨kt, vt, hf1, hf2⟩
    · rw [hf] at hkp
      cases hkp
    · rw [hf1] at hkp
      simp only [Option.some.injEq, Prod.mk.injEq] at hkp
      rw [hkp.1] at hf2
      exact hkpl hf2
  have hlook : ∀ g, List.lookup g ((h, s.keys.length, s.vals.length) :: s.kmap)
      = if g = h then some (s.keys.length, s.vals.length) else List.lookup g s.kmap :=
    fun g => lookup_cons_eq g h (s.keys.length, s.vals.length) s.kmap
  refine ⟨?_, ?_, ?_⟩
  · intro p hp
    rw [List.length_append, List.length_singleton] at hp
    by_cases hpn : p = s.vals.length
    · refine ⟨s.keys.length, ?_, ?_, ?_⟩
      · show List.lookup ((s.vals ++ [(v, h)]).getD p default).2 _ = _
        rw [hpn, getD_append_len s.vals (v, h) default, hlook, if_pos rfl]
      · rw [List.length_append, List.length_singleton]
        omega
      · rw [getD_append_len s.keys (some key) none]
        exact Option.some_ne_none key
    · have hpl : p < s.vals.length := by omega
      obtain ⟨kp, hkp, hkpb, hkpl⟩ := hk1 p hpl
      refine ⟨kp, ?_, ?_, ?_⟩
      · show List.lookup ((s.vals ++ [(v, h)]).getD p default).2 _ = _
        rw [getD_append_lt s.vals [(v, h)] p default hpl, hlook,
            if_neg (hnolive p hpl)]
        exact hkp
      · rw [List.length_append, List.length_singleton]
        omega
      · rw [getD_append_lt s.keys [some key] kp none hkpb]
        exact hkpl
  · intro g ki' vi' hlu'
    rw [hlook] at hlu'
    by_cases hgh : g = h
    · rw [if_pos hgh] at hlu'
      simp only [Option.some.injEq, Prod.mk.injEq] at hlu'
      obtain ⟨he1, he2⟩ := hlu'
      refine ⟨?_, fun _ => ⟨?_, ?_⟩⟩
      · rw [← he1, List.length_append, List.length_singleton]
        omega
      · rw [← he2, List.length_append, List.length_singleton]
        omega
      · rw [← he2, getD_append_len s.vals (v, h) default, hgh]
    · rw [if_neg hgh] at hlu'
      obtain ⟨hb, hcond⟩ := hk2 g ki' vi' hlu'
      refine ⟨?_, fun hlive' => ?_⟩
      · rw [List.length_append, List.length_singleton]
        omega
      · have hlivold : s.keys.getD ki' none ≠ none := by
          rw [getD_append_lt s.keys [some key] ki' none hb] at hlive'
          exact hlive'
        obtain ⟨hvb', hvh'⟩ := hcond hlivold
        refine ⟨?_, ?_⟩
        · rw [List.length_append, List.length_singleton]
          omega
        · rw [getD_append_lt s.vals [(v, h)] vi' default hvb']
          exact hvh'
  · intro g1 g2 ki' vi1 vi2 l1 l2 hlive'
    rw [hlook] at l1 l2
    by_cases hg1 : g1 = h
    · rw [if_pos hg1] at l1
      simp only [Option.some.injEq, Prod.mk.injEq] at l1
      by_cases hg2 : g2 = h
      · rw [hg1, hg2]
      · rw [if_neg hg2] at l2
        rw [← l1.1] at l2
        have := (hk2 g2 s.keys.length vi2 l2).1
        omega
    · rw [if_neg hg1] at l1
      by_cases hg2 : g2 = h
      · rw [if_pos hg2] at l2
        simp only [Option.some.injEq, Prod.mk.injEq] at l2
        rw [← l2.1] at l1
        have := (hk2 g1 s.keys.length vi1 l1).1
        omega
      · rw [if_neg hg2] at l2
        have hb1 := (hk2 g1 ki' vi1 l1).1
        have hlivold : s.keys.getD ki' none ≠ none := by
          rw [getD_append_lt s.keys [some key] ki' none hb1] at hlive'
          exact hlive'
        exact hk3 g1 g2 ki' vi1 vi2 l1 l2 hlivold

theorem hh_kmapok_drop_kill (s1 : HashHeap KT VT) (k0 : Nat)
    (hk : HashHeap.KmapOk s1) (hpos : 0 < s1.vals.length)
    (hlive : s1.keys.getD k0 none ≠ none)
    (hlast : List.lookup (s1.vals.getD (s1.vals.length - 1) default).2 s1.kmap
        = some (k0, s1.vals.length - 1)) :
    HashHeap.KmapOk { s1 with vals := s1.vals.dropLast, keys := s1.keys.set k0 none } := by
  obtain ⟨hk1, hk2, hk3⟩ := hk
  have hk0b : k0 < s1.keys.length :=
    (hk2 (s1.vals.getD (s1.vals.length - 1) default).2 k0 (s1.vals.length - 1) hlast).1
  refine ⟨?_, ?_, ?_⟩
  · intro p hp
    rw [List.length_dropLast] at hp
    obtain ⟨kp, hkp, hkpb, hkpl⟩ := hk1 p (by omega)
    have hkpk0 : kp ≠ k0 := by
      intro he
      rw [he] at hkp
      have := hk3 _ _ k0 p (s1.vals.length - 1) hkp hlast hlive
      rw [this, hlast] at hkp
      simp only [Option.some.injEq, Prod.mk.injEq] at hkp
      omega
    refine ⟨kp, ?_, by rw [List.length_set]; exact hkpb, ?_⟩
    · show List.lookup ((s1.vals.dropLast).getD p default).2 _ = _
      rw [getD_dropLast s1.vals p default (by omega)]
      exact hkp
    · rw [getD_set_ne s1.keys k0 kp none none (fun he => hkpk0 he.symm)]
      exact hkpl
  · intro g ki' vi' hlu'
    obtain ⟨hb, hcond⟩ := hk2 g ki' vi' hlu'
    refine ⟨by rw [List.length_set]; exact hb, fun hlive' => ?_⟩
    have hkik0 : ki' ≠ k0 := by
      intro he
      rw [he, getD_set_self s1.keys k0 none none hk0b] at hlive'
      exact hlive' rfl
    have hlivold : s1.keys.getD ki' none ≠ none := by
      rw [getD_set_ne s1.keys k0 ki' none none (fun he => hkik0 he.symm)] at hlive'
      exact hlive'
    obtain ⟨hvb', hvh'⟩ := hcond hlivold
    have hvin : vi' ≠ s1.vals.length - 1 := by
      intro he
      rw [he] at hvh'
      rw [← hvh'] at hlu'
      rw [hlast] at hlu'
      simp only [Option.some.injEq, Prod.mk.injEq] at hlu'
      exact hkik0 hlu'.1.symm
    refine ⟨by rw [List.length_dropLast]; omega, ?_⟩
    rw [getD_dropLast s1.vals vi' default (by omega)]
    exact hvh'
  · intro g1 g2 ki' vi1 vi2 l1 l2 hlive'
    have hkik0 : ki' ≠ k0 := by
      intro he
      rw [he, getD_set_self s1.keys k0 none none hk0b] at hlive'
      exact hlive' rfl
    have hlivold : s1.keys.getD ki' none ≠ none := by
      rw [getD_set_ne s1.keys k0 ki' none none (fun he => hkik0 he.symm)] at hlive'
      exact hlive'
    exact hk3 g1 g2 ki' vi1 vi2 l1 l2 hlivold

theorem hh_modify_inv (s s' : HashHeap KT VT) (key : KT) (f : VT → VT) (b : Bool)
    (hInv : HashHeap.Inv s) (hok : LtOk (HashHeap.hlt s) (fun _ => True))
    (hop : HashHeap.modify s key f = some (b, s')) :
    HashHeap.Inv s' ∧ s'.lessthan = s.lessthan ∧ s'.minmax = s.minmax := by
  obtain ⟨hkm, hheap⟩ := hInv
  unfold HashHeap.modify at hop
  cases hfs : HashHeap.findslot s key with
  | none =>
    rw [hfs] at hop
    cases hop
  | some p =>
    obtain ⟨h, bb⟩ := p
    rw [hfs] at hop
    cases bb with
    | false =>
      dsimp only at hop
      simp only [Option.some.injEq, Prod.mk.injEq] at hop
      rw [← hop.2]
      exact ⟨⟨hkm, hheap⟩, rfl, rfl⟩
    | true =>
      dsimp only at hop
      cases hlu : List.lookup h s.kmap with
      | none =>
        rw [hlu] at hop
        cases hop
      | some q =>
        obtain ⟨ki, vi⟩ := q
        rw [hlu] at hop
        dsimp only at hop
        by_cases hrange : vi < s.vals.length
        · rw [if_pos hrange] at hop
          simp only [Option.some.injEq, Prod.mk.injEq] at hop
          obtain ⟨hb, hs⟩ := hop
          set x : VT × Nat := (f (s.vals.getD vi default).1, (s.vals.getD vi default).2)
            with hxdef
          set s1 : HashHeap KT VT := { s with vals := s.vals.set vi x } with hs1def
          have hkm1 : HashHeap.KmapOk s1 := hh_kmapok_modify s vi x hrange rfl hkm
          have hlts : HashHeap.hlt s1 = HashHeap.hlt s := rfl
          have hrep := hh_reposition_heap s1 s.vals x vi
            (by rw [hlts]; exact hok) rfl hrange (by rw [hlts]; exact hheap)
          have hconf := hh_reposition_conf s1 vi
          have hrkm := (hh_reposition_inv s1 vi hkm1).1
          rw [← hs]
          refine ⟨⟨hrkm, ?_⟩, ?_, ?_⟩
          · rw [hh_hlt_of_sameconf hconf]
            exact hrep
          · rw [hconf.2.1]
          · rw [hconf.2.2.2.2.2.1]
        · rw [if_neg hrange] at hop
          cases hop

theorem hh_append_swapup_inv (s s1 : HashHeap KT VT) (key : KT) (h : Nat) (v : VT)
    (hs1 : s1 = { s with keys := s.keys ++ [some key], vals := s.vals ++ [(v, h)],
                         kmap := (h, s.keys.length, s.vals.length) :: s.kmap })
    (hkm : HashHeap.KmapOk s) (hheap : HeapD (HashHeap.hlt s) s.vals s.vals.length)
    (hok : LtOk (HashHeap.hlt s) (fun _ => True))
    (hfresh : List.lookup h s.kmap = none
      ∨ ∃ kt vt, List.lookup h s.kmap = some (kt, vt) ∧ s.keys.getD kt none = none) :
    HashHeap.Inv (HashHeap.swapup s1 s.vals.length).1
      ∧ (HashHeap.swapup s1 s.vals.length).1.lessthan = s.lessthan
      ∧ (HashHeap.swapup s1 s.vals.length).1.minmax = s.minmax := by
  have hkm1 : HashHeap.KmapOk s1 := by
    rw [hs1]
    exact hh_kmapok_append s key h v hfresh hkm
  have hlts : HashHeap.hlt s1 = HashHeap.hlt s := by
    rw [hs1]
    rfl
  have hvals1 : s1.vals = s.vals ++ [(v, h)] := by
    rw [hs1]
  have hrep := hh_swapup_append_heap s1 s.vals (v, h)
    (by rw [hlts]; exact hok) hvals1 (by rw [hlts]; exact hheap)
  have hconf := hh_swapup_conf s1 s.vals.length
  refine ⟨⟨(hh_swapup_inv s1 s.vals.length hkm1).1, ?_⟩, ?_, ?_⟩
  · rw [hh_hlt_of_sameconf hconf]
    exact hrep
  · rw [hconf.2.1, hs1]
  · rw [hconf.2.2.2.2.2.1, hs1]

theorem hh_insert_inv (s s' : HashHeap KT VT) (key : KT) (v : VT) (r : Option (KT × VT))
    (hInv : HashHeap.Inv s) (hok : LtOk (HashHeap.hlt s) (fun _ => True))
    (hop : HashHeap.insert s key v = some (r, s')) :
    HashHeap.Inv s' ∧ s'.lessthan = s.lessthan ∧ s'.minmax = s.minmax := by
  obtain ⟨hkm, hheap⟩ := hInv
  unfold HashHeap.insert at hop
  cases hfs : HashHeap.findslot s key with
  | none =>
    rw [hfs] at hop
    cases hop
  | some p =>
    obtain ⟨h, bb⟩ := p
    rw [hfs] at hop
    cases bb with
    | false =>
      dsimp only at hop
      simp only [Option.some.injEq, Prod.mk.injEq] at hop
      rw [← hop.2]
      exact hh_append_swapup_inv s _ key h v rfl hkm hheap hok (hh_findslot_false s key h hfs)
    | true =>
      dsimp only at hop
      cases hlu : List.lookup h s.kmap with
      | none =>
        rw [hlu] at hop
        cases hop
      | some q =>
        obtain ⟨ki, vi⟩ := q
        rw [hlu] at hop
        dsimp only at hop
        by_cases hrange : vi < s.vals.length ∧ ki < s.keys.length
        · rw [if_pos hrange] at hop
          cases hkd : s.keys.getD ki none with
          | none =>
            rw [hkd] at hop
            cases hop
          | some oldkey =>
            rw [hkd] at hop
            dsimp only at hop
            simp only [Option.some.injEq, Prod.mk.injEq] at hop
            obtain ⟨hr, hs⟩ := hop
            set s1 : HashHeap KT VT :=
              { s with keys := s.keys.set ki (some key), vals := s.vals.set vi (v, h) }
              with hs1def
            have hlive : s.keys.getD ki none ≠ none := by
              rw [hkd]
              exact Option.some_ne_none oldkey
            have hkm1 : HashHeap.KmapOk s1 :=
              hh_kmapok_insert_existing s key h ki vi v hlu hlive hrange.2 hkm
            have hlts : HashHeap.hlt s1 = HashHeap.hlt s := rfl
            have hrep := hh_reposition_heap s1 s.vals (v, h) vi
              (by rw [hlts]; exact hok) rfl hrange.1 (by rw [hlts]; exact hheap)
            have hconf := hh_reposition_conf s1 vi
            rw [← hs]
            refine ⟨⟨(hh_reposition_inv s1 vi hkm1).1, ?_⟩, ?_, ?_⟩
            · rw [hh_hlt_of_sameconf hconf]
              exact hrep
            · rw [hconf.2.1]
            · rw [hconf.2.2.2.2.2.1]
        · rw [if_neg hrange] at hop
          cases hop

theorem hh_push_inv (s s' : HashHeap KT VT) (key : KT) (v : VT) (b : Bool)
    (hInv : HashHeap.Inv s) (hok : LtOk (HashHeap.hlt s) (fun _ => True))
    (hop : HashHeap.push s key v = some (b, s')) :
    HashHeap.Inv s' ∧ s'.lessthan = s.lessthan ∧ s'.minmax = s.minmax := by
  obtain ⟨hkm, hheap⟩ := hInv
  unfold HashHeap.push at hop
  cases hfs : HashHeap.findslot s key with
  | none =>
    rw [hfs] at hop
    cases hop
  | some p =>
    obtain ⟨h, bb⟩ := p
    rw [hfs] at hop
    cases bb with
    | false =>
      dsimp only at hop
      simp only [Option.some.injEq, Prod.mk.injEq] at hop
      rw [← hop.2]
      exact hh_append_swapup_inv s _ key h v rfl hkm hheap hok (hh_findslot_false s key h hfs)
    | true =>
      dsimp only at hop
      simp only [Option.some.injEq, Prod.mk.injEq] at hop
      rw [← hop.2]
      exact ⟨⟨hkm, hheap⟩, rfl, rfl⟩

theorem hh_push_new_pairs (s : HashHeap KT VT) (key : KT) (v : VT) (h : Nat)
    (hkm : HashHeap.KmapOk s) (hfs : HashHeap.findslot s key = some (h, false)) :
    ∃ t, HashHeap.push s key v = some (true, t)
      ∧ HashHeap.pairsOf t = (some key, v) ::ₘ HashHeap.pairsOf s
      ∧ HashHeap.len t = HashHeap.len s + 1 := by
  obtain ⟨hkm1, hkm2, hkm3⟩ := hkm
  set s1 : HashHeap KT VT := { s with keys := s.keys ++ [some key], vals := s.vals ++ [(v, h)], kmap := (h, s.keys.length, s.vals.length) :: s.kmap } with hs1def
  have hvals1 : s1.vals = s.vals ++ [(v, h)] := rfl
  have hkmap1 : s1.kmap = (h, s.keys.length, s.vals.length) :: s.kmap := rfl
  have hkeys1 : s1.keys = s.keys ++ [some key] := rfl
  have hlen1 : s1.vals.length = s.vals.length + 1 := by
    rw [hvals1, List.length_append]
    rfl
  have hpush : HashHeap.push s key v
      = some (true, (HashHeap.swapup s1 s.vals.length).1) := by
    unfold HashHeap.push
    rw [hfs]
  have hne : ∀ i, i < s.vals.length → (s.vals.getD i default).2 ≠ h := by
    intro i hi hcon
    obtain ⟨ki, hki, hkilt, hlive⟩ := hkm1 i hi
    rw [hcon] at hki
    rcases hh_findslot_false s key h hfs with hnone | ⟨ki2, vi2, hlk2, hdead⟩
    · rw [hki] at hnone
      cases hnone
    · rw [hki] at hlk2
      simp only [Option.some.injEq, Prod.mk.injEq] at hlk2
      rw [← hlk2.1] at hdead
      exact hlive hdead
  have hekold : ∀ y ∈ s.vals, HashHeap.elemKey s1 y = HashHeap.elemKey s y := by
    intro y hy
    obtain ⟨j, hj, hje⟩ := mem_getD_index s.vals y hy
    obtain ⟨ki, hki, hkilt, hlive⟩ := hkm1 j hj
    rw [hje] at hki
    have hyh : y.2 ≠ h := by
      rw [← hje]
      exact hne j hj
    unfold HashHeap.elemKey
    rw [hkmap1, lookup_cons_eq, if_neg hyh, hki]
    show s1.keys.getD ki none = s.keys.getD ki none
    rw [hkeys1]
    exact getD_append_lt s.keys [some key] ki none hkilt
  have heknew : HashHeap.elemKey s1 (v, h) = some key := by
    unfold HashHeap.elemKey
    rw [hkmap1]
    show (match List.lookup h ((h, s.keys.length, s.vals.length) :: s.kmap) with
      | some (ki, _) => s1.keys.getD ki none
      | none => none) = some key
    rw [lookup_cons_eq, if_pos rfl]
    show s1.keys.getD s.keys.length none = some key
    rw [hkeys1]
    exact getD_append_len s.keys (some key) none
  have hge : ¬ (s.vals.length ≥ s1.vals.length) := by
    rw [hlen1]
    omega
  have hswup : (HashHeap.swapup s1 s.vals.length).1
      = (HashHeap.swapupGo s1 s.vals.length (s.vals.length + 1)).1 := by
    unfold HashHeap.swapup
    rw [if_neg hge]
  have hek : ∀ x : VT × Nat, HashHeap.elemKey (HashHeap.swapup s1 s.vals.length).1 x
      = HashHeap.elemKey s1 x := by
    intro x
    rw [hswup, hh_swapupGo_elemKey]
  have hproj : (HashHeap.swapupGo s1 s.vals.length (s.vals.length + 1)).1.vals
      = (siftUpGo (HashHeap.hlt s1) s1.vals s.vals.length (s.vals.length + 1)).1 :=
    congrArg Prod.fst (hh_swapupGo_proj (s.vals.length + 1) s1 s.vals.length)
  have hperm : (HashHeap.swapup s1 s.vals.length).1.vals.Perm s1.vals := by
    rw [hswup, hproj]
    exact siftUpGo_perm (HashHeap.hlt s1) (s.vals.length + 1) s1.vals s.vals.length
      (by rw [hlen1]; omega)
  refine ⟨(HashHeap.swapup s1 s.vals.length).1, hpush, ?_, ?_⟩
  · unfold HashHeap.pairsOf
    have hm1 : (HashHeap.swapup s1 s.vals.length).1.vals.map
        (fun x => (HashHeap.elemKey (HashHeap.swapup s1 s.vals.length).1 x, x.1))
        = (HashHeap.swapup s1 s.vals.length).1.vals.map
          (fun x => (HashHeap.elemKey s1 x, x.1)) := by
      apply List.map_congr_left
      intro x _
      rw [hek]
    have hm2 : ((HashHeap.swapup s1 s.vals.length).1.vals.map
          (fun x => (HashHeap.elemKey s1 x, x.1))).Perm
        (s1.vals.map (fun x => (HashHeap.elemKey s1 x, x.1))) := hperm.map _
    have hm3 : s1.vals.map (fun x => (HashHeap.elemKey s1 x, x.1))
        = s.vals.map (fun x => (HashHeap.elemKey s x, x.1)) ++ [(some key, v)] := by
      rw [hvals1, List.map_append]
      congr 1
      · exact List.map_congr_left (fun y hy => by rw [hekold y hy])
      · show [(HashHeap.elemKey s1 (v, h), v)] = [(some key, v)]
        rw [heknew]
    rw [hm1, Multiset.coe_eq_coe.2 hm2, hm3, Multiset.cons_coe]
    exact Multiset.coe_eq_coe.2 (List.perm_append_singleton _ _)
  · show (HashHeap.swapup s1 s.vals.length).1.vals.length = s.vals.length + 1
    rw [hperm.length_eq, hlen1]

theorem hh_remove_inv (s s' : HashHeap KT VT) (key : KT) (r : Option (KT × VT))
    (hInv : HashHeap.Inv s) (hok : LtOk (HashHeap.hlt s) (fun _ => True))
    (hop : HashHeap.remove s key = some (r, s')) :
    HashHeap.Inv s' ∧ s'.lessthan = s.lessthan ∧ s'.minmax = s.minmax := by
  obtain ⟨hkm, hheap⟩ := hInv
  obtain ⟨hk1, hk2, hk3⟩ := hkm
  unfold HashHeap.remove at hop
  cases hfs : HashHeap.findslot s key with
  | none =>
    rw [hfs] at hop
    cases hop
  | some p =>
    obtain ⟨h, bb⟩ := p
    rw [hfs] at hop
    cases bb with
    | false =>
      dsimp only at hop
      simp only [Option.some.injEq, Prod.mk.injEq] at hop
      rw [← hop.2]
      exact ⟨⟨⟨hk1, hk2, hk3⟩, hheap⟩, rfl, rfl⟩
    | true =>
      dsimp only at hop
      cases hlu : List.lookup h s.kmap with
      | none =>
        rw [hlu] at hop
        cases hop
      | some q =>
        obtain ⟨ki, vi⟩ := q
        rw [hlu] at hop
        dsimp only at hop
        by_cases hrange : 0 < s.vals.length ∧ vi < s.vals.length ∧ ki < s.keys.length
        · rw [if_pos hrange] at hop
          set s1 : HashHeap KT VT := HashHeap.heapswap s vi (s.vals.length - 1) with hs1def
          set s2 : HashHeap KT VT := { s1 with vals := s1.vals.dropLast } with hs2def
          cases hkd3 : (HashHeap.reposition s2 vi).1.keys.getD ki none with
          | none =>
            rw [hkd3] at hop
            cases hop
          | some K =>
            rw [hkd3] at hop
            dsimp only at hop
            simp only [Option.some.injEq, Prod.mk.injEq] at hop
            obtain ⟨hr, hs⟩ := hop
            have hconf1 := hh_heapswap_conf s vi (s.vals.length - 1)
            have hkeys1 : s1.keys = s.keys := hconf1.1
            have hkeys3 : (HashHeap.reposition s2 vi).1.keys = s2.keys :=
              (hh_reposition_conf s2 vi).1
            have hkdS : s.keys.getD ki none = some K := by
              have h1 : s2.keys.getD ki none = some K := by
                rw [← hkeys3]
                exact hkd3
              rw [← hkeys1]
              exact h1
            have hlive : s.keys.getD ki none ≠ none := by
              rw [hkdS]
              exact Option.some_ne_none K
            obtain ⟨hvb0, hvh⟩ := (hk2 h ki vi hlu).2 hlive
            have hlen1 : s1.vals.length = s.vals.length := by
              rw [hs1def, hh_heapswap_vals, lswap_length]
            have hvals1 : s1.vals = lswap s.vals vi (s.vals.length - 1) := by
              rw [hs1def, hh_heapswap_vals]
            have hlast : List.lookup (s1.vals.getD (s1.vals.length - 1) default).2 s1.kmap
                = some (ki, s1.vals.length - 1) := by
              rw [hlen1, hvals1,
                  getD_lswap_snd s.vals vi (s.vals.length - 1) hrange.2.1 (by omega)]
              rw [hs1def, hh_heapswap_lookup_i s vi (s.vals.length - 1) hrange.2.1
                  (by omega) ⟨hk1, hk2, hk3⟩]
              rw [hvh, hlu]
              rfl
            have hkm1 : HashHeap.KmapOk s1 := by
              rw [hs1def]
              exact hh_heapswap_kmapok s vi (s.vals.length - 1) hrange.2.1 (by omega)
                ⟨hk1, hk2, hk3⟩
            have hkm2k : HashHeap.KmapOk
                { s1 with vals := s1.vals.dropLast, keys := s1.keys.set ki none } :=
              hh_kmapok_drop_kill s1 ki hkm1 (by omega)
                (by rw [hkeys1]; exact hlive) hlast
            have hkm2' : HashHeap.KmapOk
                ({ s2 with keys := s2.keys.set ki none } : HashHeap KT VT) := hkm2k
            have hlt2 : HashHeap.hlt ({ s2 with keys := s2.keys.set ki none } : HashHeap KT VT)
                = HashHeap.hlt s := by
              have e1 : HashHeap.hlt s1 = HashHeap.hlt s := hh_hlt_of_sameconf hconf1
              exact e1
            have hlessS : ({ s2 with keys := s2.keys.set ki none } : HashHeap KT VT).lessthan
                = s.lessthan := hconf1.2.1
            have hminS : ({ s2 with keys := s2.keys.set ki none } : HashHeap KT VT).minmax
                = s.minmax := hconf1.2.2.2.2.2.1
            rw [← hs, hkeys3]
            rw [← hh_reposition_keys_comm s2 (s2.keys.set ki none) vi]
            have hconfR := hh_reposition_conf
              ({ s2 with keys := s2.keys.set ki none } : HashHeap KT VT) vi
            by_cases hvless : vi < s.vals.length - 1
            · have hvals2 : ({ s2 with keys := s2.keys.set ki none } : HashHeap KT VT).vals
                  = (s.vals.dropLast).set vi (s.vals.getD (s.vals.length - 1) default) := by
                show s1.vals.dropLast = _
                rw [hvals1, lswap_last_dropLast s.vals vi hrange.2.1]
              have hrep := hh_reposition_heap
                ({ s2 with keys := s2.keys.set ki none } : HashHeap KT VT)
                (s.vals.dropLast) (s.vals.getD (s.vals.length - 1) default) vi
                (by rw [hlt2]; exact hok) hvals2
                (by rw [List.length_dropLast]; omega)
                (by rw [hlt2]; exact heapD_dropLast (HashHeap.hlt s) s.vals hheap)
              refine ⟨⟨(hh_reposition_inv _ vi hkm2').1, ?_⟩, ?_, ?_⟩
              · rw [hh_hlt_of_sameconf hconfR]
                exact hrep
              · rw [hconfR.2.1]
                exact hlessS
              · rw [hconfR.2.2.2.2.2.1]
                exact hminS
            · have hvieq : vi = s.vals.length - 1 := by omega
              have hlen2 : ({ s2 with keys := s2.keys.set ki none } : HashHeap KT VT).vals.length
                  = s.vals.length - 1 := by
                show s1.vals.dropLast.length = _
                rw [List.length_dropLast, hlen1]
              have hvals2 : ({ s2 with keys := s2.keys.set ki none } : HashHeap KT VT).vals
                  = s.vals.dropLast := by
                show s1.vals.dropLast = _
                rw [hvals1, hvieq, lswap_self]
              have hge : vi ≥ ({ s2 with keys := s2.keys.set ki none } : HashHeap KT VT).vals.length := by
                rw [hlen2]
                omega
              have hsw : HashHeap.swapup
                  ({ s2 with keys := s2.keys.set ki none } : HashHeap KT VT) vi
                  = (({ s2 with keys := s2.keys.set ki none } : HashHeap KT VT), vi) := by
                unfold HashHeap.swapup
                rw [if_pos hge]
              have hrid : HashHeap.reposition
                  ({ s2 with keys := s2.keys.set ki none } : HashHeap KT VT) vi
                  = (({ s2 with keys := s2.keys.set ki none } : HashHeap KT VT), vi) := by
                unfold HashHeap.reposition
                rw [hsw]
                rw [if_pos (show (({ s2 with keys := s2.keys.set ki none } : HashHeap KT VT),
                  vi).2 = vi from rfl)]
                unfold HashHeap.swapdown
                rw [hh_swapdownGo_succ, if_neg (by rw [hlen2]; omega)]
              rw [hrid]
              refine ⟨⟨hkm2', ?_⟩, hlessS, hminS⟩
              rw [hlt2, hvals2]
              have hdl := heapD_dropLast (HashHeap.hlt s) s.vals hheap
              exact hdl
        · rw [if_neg hrange] at hop
          cases hop

theorem hh_swapdown_elemKey (s : HashHeap KT VT) (i : Nat) (x : VT × Nat) :
    HashHeap.elemKey (HashHeap.swapdown s i).1 x = HashHeap.elemKey s x :=
  hh_swapdownGo_elemKey (s.vals.length + 1) s i x

theorem hh_pop_spec (s : HashHeap KT VT)
    (hInv : HashHeap.Inv s) (hok : LtOk (HashHeap.hlt s) (fun _ => True))
    (hpos : 0 < s.vals.length) :
    ∃ K s',
      HashHeap.pop s = some (some (K, (s.vals.getD 0 default).1), s')
      ∧ HashHeap.Inv s'
      ∧ s'.lessthan = s.lessthan ∧ s'.minmax = s.minmax
      ∧ s'.vals.length = s.vals.length - 1
      ∧ HashHeap.pairsOf s
          = (some K, (s.vals.getD 0 default).1) ::ₘ HashHeap.pairsOf s'
      ∧ (∀ y ∈ s.vals, HashHeap.hlt s (s.vals.getD 0 default) y = false) := by
  obtain ⟨⟨hk1, hk2, hk3⟩, hheap⟩ := hInv
  have hconf1 := hh_heapswap_conf s 0 (s.vals.length - 1)
  have hkeys1 : (HashHeap.heapswap s 0 (s.vals.length - 1)).keys = s.keys := hconf1.1
  have hvals1 : (HashHeap.heapswap s 0 (s.vals.length - 1)).vals
      = lswap s.vals 0 (s.vals.length - 1) := hh_heapswap_vals s 0 (s.vals.length - 1)
  have hlen1 : (HashHeap.heapswap s 0 (s.vals.length - 1)).vals.length = s.vals.length :=
    hconf1.2.2.2.2.2.2
  have hVp : (HashHeap.heapswap s 0 (s.vals.length - 1)).vals.getD (s.vals.length - 1) default
      = s.vals.getD 0 default := by
    rw [hvals1, getD_lswap_snd s.vals 0 (s.vals.length - 1) hpos (by omega)]
  obtain ⟨k0, hlu0, hk0b, hk0l⟩ := hk1 0 hpos
  have hkm1 : HashHeap.KmapOk (HashHeap.heapswap s 0 (s.vals.length - 1)) :=
    hh_heapswap_kmapok s 0 (s.vals.length - 1) hpos (by omega) ⟨hk1, hk2, hk3⟩
  have hlu1 : List.lookup (s.vals.getD 0 default).2
      (HashHeap.heapswap s 0 (s.vals.length - 1)).kmap = some (k0, s.vals.length - 1) := by
    rw [hh_heapswap_lookup_i s 0 (s.vals.length - 1) hpos (by omega) ⟨hk1, hk2, hk3⟩, hlu0]
    rfl
  cases hkd : s.keys.getD k0 none with
  | none => exact absurd hkd hk0l
  | some K =>
    have hkd1 : (HashHeap.heapswap s 0 (s.vals.length - 1)).keys.getD k0 none = some K := by
      rw [hkeys1]
      exact hkd
    have hpop : HashHeap.pop s = some (some (K, (s.vals.getD 0 default).1),
        (HashHeap.swapdown ({ HashHeap.heapswap s 0 (s.vals.length - 1) with
          vals := (HashHeap.heapswap s 0 (s.vals.length - 1)).vals.dropLast,
          keys := (HashHeap.heapswap s 0 (s.vals.length - 1)).keys.set k0 none }
            : HashHeap KT VT) 0).1) := by
      unfold HashHeap.pop
      dsimp only
      rw [if_neg (show ¬ s.vals.length = 0 by omega)]
      rw [hVp, hlu1]
      dsimp only
      rw [if_pos (show k0 < (HashHeap.heapswap s 0 (s.vals.length - 1)).keys.length by
        rw [hkeys1]; exact hk0b)]
      rw [hkd1]
    set t : HashHeap KT VT := { HashHeap.heapswap s 0 (s.vals.length - 1) with
      vals := (HashHeap.heapswap s 0 (s.vals.length - 1)).vals.dropLast,
      keys := (HashHeap.heapswap s 0 (s.vals.length - 1)).keys.set k0 none } with htdef
    have hkmt : HashHeap.KmapOk t :=
      hh_kmapok_drop_kill (HashHeap.heapswap s 0 (s.vals.length - 1)) k0 hkm1
        (by omega) (by rw [hkeys1]; exact hk0l) (by rw [hlen1, hVp]; exact hlu1)
    have htvals : t.vals = (s.vals.dropLast).set 0 (s.vals.getD (s.vals.length - 1) default) := by
      show (HashHeap.heapswap s 0 (s.vals.length - 1)).vals.dropLast = _
      rw [hvals1, lswap_last_dropLast s.vals 0 hpos]
    have hltt : HashHeap.hlt t = HashHeap.hlt s := by
      have e1 : HashHeap.hlt (HashHeap.heapswap s 0 (s.vals.length - 1)) = HashHeap.hlt s :=
        hh_hlt_of_sameconf hconf1
      exact e1
    have htlen : t.vals.length = s.vals.length - 1 := by
      rw [htvals, List.length_set, List.length_dropLast]
    have hheapt := hh_swapdown_root_heap t (s.vals.dropLast)
      (s.vals.getD (s.vals.length - 1) default)
      (by rw [hltt]; exact hok) htvals
      (by rw [hltt]; exact heapD_dropLast (HashHeap.hlt s) s.vals hheap)
    have hconft := hh_swapdown_conf t 0
    refine ⟨K, (HashHeap.swapdown t 0).1, hpop,
      ⟨(hh_swapdown_inv t 0 hkmt).1, ?_⟩, ?_, ?_, ?_, ?_, ?_⟩
    · rw [hh_hlt_of_sameconf hconft]
      exact hheapt
    · rw [hconft.2.1]
      exact hconf1.2.1
    · rw [hconft.2.2.2.2.2.1]
      exact hconf1.2.2.2.2.2.1
    · rw [hconft.2.2.2.2.2.2, htlen]
    · -- the stored-pairs multiset identity
      have hfstS : ∀ (z a b : Nat),
          List.lookup z (HashHeap.heapswap s 0 (s.vals.length - 1)).kmap = some (a, b) →
          ∃ w, List.lookup z s.kmap = some (a, w) := by
        intro z a b hl
        have hf := hh_heapswap_lookup_fst s 0 (s.vals.length - 1) z
        rw [hl] at hf
        cases h2 : List.lookup z s.kmap with
        | none =>
          rw [h2] at hf
          simp at hf
        | some q =>
          obtain ⟨c, d⟩ := q
          rw [h2] at hf
          simp only [Option.map_some', Option.some.injEq] at hf
          refine ⟨d, ?_⟩
          rw [hf]
      have hekt : ∀ x ∈ t.vals, HashHeap.elemKey s x = HashHeap.elemKey t x := by
        intro x hx
        obtain ⟨p, hp, hpe⟩ := mem_getD_index t.vals x hx
        have hplen : p < s.vals.length - 1 := by
          rw [htlen] at hp
          exact hp
        have hxe : x = (HashHeap.heapswap s 0 (s.vals.length - 1)).vals.getD p default := by
          rw [← hpe]
          show t.vals.getD p default = _
          have : t.vals = (HashHeap.heapswap s 0 (s.vals.length - 1)).vals.dropLast := rfl
          rw [this, getD_dropLast _ _ _ (by rw [hlen1]; omega)]
        obtain ⟨kp, hkp, hkpb, hkpl⟩ := hkm1.1 p (by rw [hlen1]; omega)
        rw [← hxe] at hkp
        have hkpk0 : kp ≠ k0 := by
          intro he
          rw [he] at hkp
          have h3 := hkm1.2.2 x.2 (s.vals.getD 0 default).2 k0 p (s.vals.length - 1) hkp hlu1
            (by rw [hkeys1]; exact hk0l)
          rw [h3, hlu1] at hkp
          simp only [Option.some.injEq, Prod.mk.injEq] at hkp
          omega
        obtain ⟨w, hw⟩ := hfstS x.2 kp p hkp
        unfold HashHeap.elemKey
        rw [hw]
        have hkt : List.lookup x.2 t.kmap = some (kp, p) := hkp
        rw [hkt]
        show s.keys.getD kp none = t.keys.getD kp none
        show s.keys.getD kp none
            = ((HashHeap.heapswap s 0 (s.vals.length - 1)).keys.set k0 none).getD kp none
        rw [getD_set_ne _ k0 kp none none (fun he => hkpk0 he.symm), hkeys1]
      have hpermA : s.vals.Perm ((s.vals.getD 0 default) :: t.vals) := by
        have h1 : (lswap s.vals 0 (s.vals.length - 1)).Perm s.vals :=
          lswap_perm s.vals 0 (s.vals.length - 1) hpos (by omega)
        have h2 : (lswap s.vals 0 (s.vals.length - 1)).Perm
            ((lswap s.vals 0 (s.vals.length - 1)).getD
              ((lswap s.vals 0 (s.vals.length - 1)).length - 1) default
              :: (lswap s.vals 0 (s.vals.length - 1)).dropLast) :=
          perm_cons_getD_dropLast _ default (by rw [lswap_length]; omega)
        have h3 : (lswap s.vals 0 (s.vals.length - 1)).getD
            ((lswap s.vals 0 (s.vals.length - 1)).length - 1) default
            = s.vals.getD 0 default := by
          rw [lswap_length]
          rw [getD_lswap_snd s.vals 0 (s.vals.length - 1) hpos (by omega)]
        have h4 : (lswap s.vals 0 (s.vals.length - 1)).dropLast = t.vals := by
          show _ = (HashHeap.heapswap s 0 (s.vals.length - 1)).vals.dropLast
          rw [hvals1]
        rw [h3, h4] at h2
        exact (h1.symm).trans h2
      have hekd : HashHeap.elemKey s (s.vals.getD 0 default) = some K := by
        unfold HashHeap.elemKey
        rw [hlu0]
        exact hkd
      show HashHeap.pairsOf s
          = (some K, (s.vals.getD 0 default).1) ::ₘ HashHeap.pairsOf (HashHeap.swapdown t 0).1
      unfold HashHeap.pairsOf
      have hm1 : (s.vals.map (fun x => (HashHeap.elemKey s x, x.1))).Perm
          (((s.vals.getD 0 default) :: t.vals).map (fun x => (HashHeap.elemKey s x, x.1))) :=
        hpermA.map _
      have hm2 : ((s.vals.getD 0 default) :: t.vals).map
            (fun x => (HashHeap.elemKey s x, x.1))
          = (some K, (s.vals.getD 0 default).1)
            :: t.vals.map (fun x => (HashHeap.elemKey t x, x.1)) := by
        rw [List.map_cons, hekd]
        have hekt2 : ∀ x ∈ t.vals,
            (HashHeap.elemKey s x, x.1) = (HashHeap.elemKey t x, x.1) := by
          intro x hx
          rw [hekt x hx]
        rw [List.map_congr_left hekt2]
      have hm3 : ((HashHeap.swapdown t 0).1.vals.map
            (fun x => (HashHeap.elemKey (HashHeap.swapdown t 0).1 x, x.1))).Perm
          (t.vals.map (fun x => (HashHeap.elemKey t x, x.1))) := by
        have hfun : (fun x => (HashHeap.elemKey (HashHeap.swapdown t 0).1 x, x.1))
            = (fun x : VT × Nat => (HashHeap.elemKey t x, x.1)) := by
          funext x
          rw [hh_swapdown_elemKey]
        rw [hfun]
        refine List.Perm.map _ ?_
        have hproj : (HashHeap.swapdown t 0).1.vals
            = (siftDownGo (HashHeap.hlt t) t.vals.length t.vals 0 (t.vals.length + 1)).1 :=
          congrArg Prod.fst (hh_swapdownGo_proj (t.vals.length + 1) t 0)
        rw [hproj]
        exact siftDownGo_perm (HashHeap.hlt t) t.vals.length (t.vals.length + 1) t.vals 0
          (le_refl _)
      rw [Multiset.coe_eq_coe.2 hm1, hm2]
      rw [← Multiset.cons_coe]
      rw [Multiset.coe_eq_coe.2 hm3]
    · intro y hy
      obtain ⟨j, hj, hje⟩ := mem_getD_index s.vals y hy
      rw [← hje]
      exact heapD_root hok (fun _ _ => trivial) hheap j hj

theorem hh_pop_empty (s : HashHeap KT VT) (h : s.vals.length = 0) :
    HashHeap.pop s = some (none, s) := by
  unfold HashHeap.pop
  dsimp only
  rw [if_pos h]

theorem hh_reach_inv (s : HashHeap KT VT) (hr : HashHeap.Reach s) :
    HashHeap.Inv s ∧ HashHeap.CmpCanon s := by
  induction hr with
  | init cap maxheap dh =>
    refine ⟨⟨⟨?_, ?_, ?_⟩, ?_⟩, ?_⟩
    · intro i hi
      simp [HashHeap.with_capacity] at hi
    · intro h ki vi hl
      cases hl
    · intro h1 h2 ki vi1 vi2 l1 l2 _
      cases l1
    · intro c hc0 hcn
      simp [HashHeap.with_capacity] at hcn
    · rfl
  | insert s s' k v r hre hstep ih =>
    obtain ⟨hInv, hcc⟩ := ih
    obtain ⟨hInv2, hl, hm⟩ := hh_insert_inv s s' k v r hInv (hh_ltOk_canon s hcc) hstep
    refine ⟨hInv2, ?_⟩
    unfold HashHeap.CmpCanon at hcc ⊢
    rw [hl, hm]
    exact hcc
  | push s s' k v b hre hstep ih =>
    obtain ⟨hInv, hcc⟩ := ih
    obtain ⟨hInv2, hl, hm⟩ := hh_push_inv s s' k v b hInv (hh_ltOk_canon s hcc) hstep
    refine ⟨hInv2, ?_⟩
    unfold HashHeap.CmpCanon at hcc ⊢
    rw [hl, hm]
    exact hcc
  | modify s s' k f b hre hstep ih =>
    obtain ⟨hInv, hcc⟩ := ih
    obtain ⟨hInv2, hl, hm⟩ := hh_modify_inv s s' k f b hInv (hh_ltOk_canon s hcc) hstep
    refine ⟨hInv2, ?_⟩
    unfold HashHeap.CmpCanon at hcc ⊢
    rw [hl, hm]
    exact hcc
  | remove s s' k r hre hstep ih =>
    obtain ⟨hInv, hcc⟩ := ih
    obtain ⟨hInv2, hl, hm⟩ := hh_remove_inv s s' k r hInv (hh_ltOk_canon s hcc) hstep
    refine ⟨hInv2, ?_⟩
    unfold HashHeap.CmpCanon at hcc ⊢
    rw [hl, hm]
    exact hcc
  | pop s s' r hre hstep ih =>
    obtain ⟨hInv, hcc⟩ := ih
    rcases Nat.eq_zero_or_pos s.vals.length with h0 | h0
    · rw [hh_pop_empty s h0] at hstep
      simp only [Option.some.injEq, Prod.mk.injEq] at hstep
      rw [← hstep.2]
      exact ⟨hInv, hcc⟩
    · obtain ⟨K, s2, hpop, hInv2, hl, hm, _, _, _⟩ :=
        hh_pop_spec s hInv (hh_ltOk_canon s hcc) h0
      rw [hpop] at hstep
      simp only [Option.some.injEq, Prod.mk.injEq] at hstep
      rw [← hstep.2]
      refine ⟨hInv2, ?_⟩
      unfold HashHeap.CmpCanon at hcc ⊢
      rw [hl, hm]
      exact hcc

theorem hh_drainGo_succ (s : HashHeap KT VT) (fuel : Nat) :
    HashHeap.drainGo s (fuel+1)
      = match HashHeap.pop s with
        | some (some p, s2) =>
          ((p :: (HashHeap.drainGo s2 fuel).1 : List (KT × VT)),
            (HashHeap.drainGo s2 fuel).2)
        | some (none, s2) => ([], s2)
        | none => ([], s) := rfl

theorem hh_drainGo_spec (fuel : Nat) :
    ∀ (s : HashHeap KT VT) (L : VT → VT → Bool), HashHeap.Inv s →
      LtOk (HashHeap.hlt s) (fun _ => True) →
      s.vals.length < fuel → L = s.lessthan →
      List.Pairwise (fun (p q : KT × VT) => L p.2 q.2 = false) (HashHeap.drainGo s fuel).1
      ∧ HashHeap.pairsOf s
          = ((HashHeap.drainGo s fuel).1.map (fun p => ((some p.1 : Option KT), p.2))
              : Multiset (Option KT × VT))
      ∧ (HashHeap.drainGo s fuel).2.vals.length = 0 := by
  induction fuel with
  | zero =>
    intro s L _ _ hlt _
    omega
  | succ f ih =>
    intro s L hInv hok hflt hL
    rcases Nat.eq_zero_or_pos s.vals.length with h0 | h0
    · rw [hh_drainGo_succ, hh_pop_empty s h0]
      have hnil : s.vals = [] := List.length_eq_zero.1 h0
      refine ⟨List.Pairwise.nil, ?_, h0⟩
      unfold HashHeap.pairsOf
      rw [hnil]
      rfl
    · obtain ⟨K, s2, hpop, hInv2, hl2, hm2, hlen2, hpairs2, hext2⟩ :=
        hh_pop_spec s hInv hok h0
      rw [hh_drainGo_succ, hpop]
      have hok2 : LtOk (HashHeap.hlt s2) (fun _ => True) := by
        have he : HashHeap.hlt s2 = HashHeap.hlt s := by
          unfold HashHeap.hlt
          rw [hl2]
        rw [he]
        exact hok
      obtain ⟨ihp, ihm, ihz⟩ := ih s2 L hInv2 hok2 (by omega) (by rw [hL, ← hl2])
      refine ⟨?_, ?_, ihz⟩
      · refine List.Pairwise.cons ?_ ihp
        intro q hq
        have hqm : ((some q.1 : Option KT), q.2)
            ∈ (HashHeap.drainGo s2 f).1.map (fun p => ((some p.1 : Option KT), p.2)) :=
          List.mem_map_of_mem _ hq
        have hqm2 : ((some q.1 : Option KT), q.2) ∈ HashHeap.pairsOf s2 := by
          rw [ihm]
          exact hqm
        have hqm3 : ((some q.1 : Option KT), q.2) ∈ HashHeap.pairsOf s := by
          rw [hpairs2]
          exact Multiset.mem_cons_of_mem hqm2
        unfold HashHeap.pairsOf at hqm3
        rw [Multiset.mem_coe, List.mem_map] at hqm3
        obtain ⟨y, hy, hye⟩ := hqm3
        have hv : y.1 = q.2 := congrArg Prod.snd hye
        have := hext2 y hy
        unfold HashHeap.hlt at this
        rw [hv] at this
        rw [hL]
        exact this
      · rw [hpairs2, ihm, List.map_cons]
        rw [← Multiset.cons_coe]

theorem hh_drain_spec (s : HashHeap KT VT) (hInv : HashHeap.Inv s)
    (hok : LtOk (HashHeap.hlt s) (fun _ => True)) :
    List.Pairwise (fun (p q : KT × VT) => s.lessthan p.2 q.2 = false) (HashHeap.drain s).1
    ∧ HashHeap.pairsOf s
        = ((HashHeap.drain s).1.map (fun p => ((some p.1 : Option KT), p.2))
            : Multiset (Option KT × VT))
    ∧ (HashHeap.drain s).2.vals.length = 0 :=
  hh_drainGo_spec (s.vals.length + 1) s s.lessthan hInv hok (by omega) rfl

end GrowState

/-- C5 amended: the growable `push` behaves as claimed (present key: `false`
and unchanged; absent key: it inserts — the push succeeds with `true`, the
new pair joins the stored multiset and the entry count grows by one), but the
bounded `push` is an alias for `insert`, so on a present key it replaces the
value and returns `true`. -/
theorem c5_amended :
    (∀ (KT VT : Type) [DecidableEq KT] [LinearOrder VT] [Inhabited VT]
        (s : HashHeap KT VT) (k : KT) (v : VT) (h : Nat),
        HashHeap.findslot s k = some (h, true) → HashHeap.push s k v = some (false, s))
    ∧ (∀ (KT VT : Type) [DecidableEq KT] [LinearOrder VT] [Inhabited VT]
        (s : HashHeap KT VT) (k : KT) (v : VT) (h : Nat),
        HashHeap.findslot s k = some (h, false) →
          (HashHeap.push s k v).map (fun r => r.1) = some true)
    ∧ (∀ (KT VT : Type) [DecidableEq KT] [LinearOrder VT] [Inhabited VT]
        (s : HashHeap KT VT) (k : KT) (v : VT) (h : Nat),
        HashHeap.KmapOk s → HashHeap.findslot s k = some (h, false) →
          ∃ t, HashHeap.push s k v = some (true, t)
            ∧ HashHeap.pairsOf t = (some k, v) ::ₘ HashHeap.pairsOf s
            ∧ HashHeap.len t = HashHeap.len s + 1)
    ∧ (∀ (KT VT : Type) [DecidableEq KT] [LinearOrder VT] (CAP fuel : Nat)
        (s : ConstHashHeap KT VT CAP) (k : KT) (v : VT),
        ConstHashHeap.push fuel s k v = ConstHashHeap.insert fuel s k v) := by
  refine ⟨?_, ?_, ?_, ?_⟩
  · intro KT VT _ _ _ s k v h hf
    unfold HashHeap.push
    rw [hf]
  · intro KT VT _ _ _ s k v h hf
    unfold HashHeap.push
    rw [hf]
    rfl
  · intro KT VT _ _ _ s k v h hkm hf
    exact hh_push_new_pairs s k v h hkm hf
  · intro KT VT _ _ CAP fuel s k v
    rfl

theorem c5_amended_witness :
    HashHeap.push hhC9base 0 (7 : Int) = some (false, hhC9base)
    ∧ (HashHeap.push hhC9base 2 (7 : Int)).map (fun r => r.1) = some true
    ∧ (∃ t, HashHeap.push (HashHeap.with_capacity 4 false (fun k => k % 4)) 2 (5 : Int)
          = some (true, t)
        ∧ HashHeap.pairsOf t = ((some 2 : Option Nat), (5 : Int)) ::ₘ
            HashHeap.pairsOf (HashHeap.with_capacity 4 false (fun k => k % 4))
        ∧ HashHeap.len t
            = HashHeap.len (HashHeap.with_capacity 4 false
                (fun k => k % 4) : HashHeap Nat Int) + 1)
    ∧ ConstHashHeap.push 16 chhC5 0 (99 : Int) = ConstHashHeap.insert 16 chhC5 0 99 :=
  ⟨c5_amended.1 Nat Int hhC9base 0 7 0 (by decide),
   c5_amended.2.1 Nat Int hhC9base 2 7 2 (by decide),
   c5_amended.2.2.1 Nat Int (HashHeap.with_capacity 4 false (fun k => k % 4)) 2 5 2
     ⟨fun i hi => absurd hi (Nat.not_lt_zero i),
      fun g ki vi hl => Option.noConfusion hl,
      fun g1 g2 ki vi1 vi2 hl1 hl2 hlv => Option.noConfusion hl1⟩
     (by decide),
   c5_amended.2.2.2 Nat Int 4 16 chhC5 0 99⟩

/-! ## Bounded variant: `swap` and the sift loops at state level -/

section ConstState

variable {KT VT : Type} [DecidableEq KT] [LinearOrder VT] {CAP : Nat}

theorem optcmp_none_right {VT : Type} [LinearOrder VT] (a : Option (VT × Nat)) (neg : Bool) :
    optcmp a none neg = false := by
  unfold optcmp
  cases a with
  | none => cases neg <;> rfl
  | some p => cases neg <;> rfl

theorem optcmp_none_left {VT : Type} [LinearOrder VT] (b : Option (VT × Nat)) (neg : Bool) :
    optcmp none b neg = false := by
  unfold optcmp
  cases b with
  | none => cases neg <;> rfl
  | some p => cases neg <;> rfl

theorem optcmp_true_isSome {VT : Type} [LinearOrder VT] (a b : Option (VT × Nat)) (neg : Bool)
    (h : optcmp a b neg = true) : a.isSome ∧ b.isSome := by
  cases a with
  | none => rw [optcmp_none_left] at h; cases h
  | some p =>
    cases b with
    | none => rw [optcmp_none_right] at h; cases h
    | some q => exact ⟨rfl, rfl⟩

theorem ltOk_optcmp {VT : Type} [LinearOrder VT] (neg : Bool) :
    LtOk (fun (a b : Option (VT × Nat)) => optcmp a b neg)
      (fun z => z.isSome = true) := by
  refine ⟨?_, ?_, ?_⟩
  · intro a b hab
    obtain ⟨ha, hb⟩ := optcmp_true_isSome a b neg hab
    cases a with
    | none => cases ha
    | some p =>
      cases b with
      | none => cases hb
      | some q =>
        obtain ⟨pv, pn⟩ := p
        obtain ⟨qv, qn⟩ := q
        cases neg with
        | true =>
          simp only [optcmp, decide_eq_true_eq] at hab
          simp only [optcmp, decide_eq_false_iff_not]
          exact lt_asymm hab
        | false =>
          simp only [optcmp, decide_eq_true_eq] at hab
          simp only [optcmp, decide_eq_false_iff_not]
          exact lt_asymm hab
  · intro a b c hab hbc
    obtain ⟨ha, hb⟩ := optcmp_true_isSome a b neg hab
    obtain ⟨_, hc⟩ := optcmp_true_isSome b c neg hbc
    cases a with
    | none => cases ha
    | some p =>
      cases b with
      | none => cases hb
      | some q =>
        cases c with
        | none => cases hc
        | some r =>
          obtain ⟨pv, pn⟩ := p
          obtain ⟨qv, qn⟩ := q
          obtain ⟨rv, rn⟩ := r
          cases neg with
          | true =>
            simp only [optcmp, decide_eq_true_eq] at hab hbc ⊢
            exact lt_trans hab hbc
          | false =>
            simp only [optcmp, decide_eq_true_eq] at hab hbc ⊢
            exact lt_trans hbc hab
  · intro a b c ha hb hc hac
    cases a with
    | none => simp at ha
    | some p =>
      cases b with
      | none => simp at hb
      | some q =>
        cases c with
        | none => simp at hc
        | some r =>
          obtain ⟨pv, pn⟩ := p
          obtain ⟨qv, qn⟩ := q
          obtain ⟨rv, rn⟩ := r
          cases neg with
          | true =>
            simp only [optcmp, decide_eq_true_eq] at hac ⊢
            rcases lt_or_le pv qv with h | h
            · exact Or.inl h
            · exact Or.inr (lt_of_le_of_lt h hac)
          | false =>
            simp only [optcmp, decide_eq_true_eq] at hac ⊢
            rcases lt_or_le qv pv with h | h
            · exact Or.inl h
            · exact Or.inr (lt_of_lt_of_le hac h)

theorem chh_cmpis_ltOk (s : ConstHashHeap KT VT CAP) (mh : Bool)
    (hc : ConstHashHeap.CmpIs s mh) :
    LtOk s.lessthan (fun z => z.isSome = true) := by
  unfold ConstHashHeap.CmpIs ConstHashHeap.canonLt at hc
  cases mh with
  | true =>
    rw [hc, if_pos rfl]
    exact ltOk_optcmp true
  | false =>
    rw [hc, if_neg (by simp)]
    exact ltOk_optcmp false

theorem chh_cmpis_def1 (s : ConstHashHeap KT VT CAP) (mh : Bool)
    (hc : ConstHashHeap.CmpIs s mh) :
    ∀ z, s.lessthan z none = false := by
  intro z
  unfold ConstHashHeap.CmpIs ConstHashHeap.canonLt at hc
  cases mh with
  | true =>
    rw [hc, if_pos rfl]
    exact optcmp_none_right z true
  | false =>
    rw [hc, if_neg (by simp)]
    exact optcmp_none_right z false

theorem chh_cmpis_def2 (s : ConstHashHeap KT VT CAP) (mh : Bool)
    (hc : ConstHashHeap.CmpIs s mh) :
    ∀ z, s.lessthan none z = false := by
  intro z
  unfold ConstHashHeap.CmpIs ConstHashHeap.canonLt at hc
  cases mh with
  | true =>
    rw [hc, if_pos rfl]
    exact optcmp_none_left z true
  | false =>
    rw [hc, if_neg (by simp)]
    exact optcmp_none_left z false

theorem updKeyVi_length (K : List (Option (KT × Nat))) (a b : Nat) :
    (ConstHashHeap.updKeyVi K a b).length = K.length := by
  unfold ConstHashHeap.updKeyVi
  rw [List.length_set]

theorem chh_swap_vals (s : ConstHashHeap KT VT CAP) (i k : Nat) :
    (ConstHashHeap.swap s i k).vals = lswap s.vals i k := rfl

theorem chh_swap_conf (s : ConstHashHeap KT VT CAP) (i k : Nat) :
    ConstHashHeap.SameConfC s (ConstHashHeap.swap s i k) := by
  refine ⟨rfl, rfl, rfl, rfl, ?_, ?_⟩
  · show (ConstHashHeap.swap s i k).keys.length = s.keys.length
    unfold ConstHashHeap.swap
    dsimp only
    cases lswap s.vals i k |>.getD i none with
    | none =>
      cases lswap s.vals i k |>.getD k none with
      | none => rfl
      | some p => exact updKeyVi_length s.keys p.2 k
    | some q =>
      cases lswap s.vals i k |>.getD k none with
      | none => exact updKeyVi_length s.keys q.2 i
      | some p =>
        show (ConstHashHeap.updKeyVi (ConstHashHeap.updKeyVi s.keys q.2 i) p.2 k).length
            = s.keys.length
        rw [updKeyVi_length, updKeyVi_length]
  · show (lswap s.vals i k).length = s.vals.length
    exact lswap_length s.vals i k

theorem chh_sameconfc_refl (s : ConstHashHeap KT VT CAP) : ConstHashHeap.SameConfC s s :=
  ⟨rfl, rfl, rfl, rfl, rfl, rfl⟩

theorem chh_sameconfc_trans {s t u : ConstHashHeap KT VT CAP}
    (h1 : ConstHashHeap.SameConfC s t) (h2 : ConstHashHeap.SameConfC t u) :
    ConstHashHeap.SameConfC s u := by
  obtain ⟨e1, e2, e3, e4, e5, e6⟩ := h2
  obtain ⟨d1, d2, d3, d4, d5, d6⟩ := h1
  refine ⟨e1.trans d1, e2.trans d2, e3.trans d3, e4.trans d4, e5.trans d5, e6.trans d6⟩

theorem chh_swapupGo_succ (s : ConstHashHeap KT VT CAP) (i fuel : Nat) :
    ConstHashHeap.swapupGo s i (fuel+1)
      = if 0 < i ∧ s.lessthan (s.vals.getD (heapParent i) none) (s.vals.getD i none) = true
        then ConstHashHeap.swapupGo (ConstHashHeap.swap s i (heapParent i)) (heapParent i) fuel
        else (s, i) := rfl

theorem chh_swapdownGo_succ (s : ConstHashHeap KT VT CAP) (i fuel : Nat) :
    ConstHashHeap.swapdownGo s i (fuel+1)
      = match ConstHashHeap.swapdownSi s i with
        | some k => ConstHashHeap.swapdownGo (ConstHashHeap.swap s i k) k fuel
        | none => (s, i) := rfl

theorem chh_swapdownSi_eq (s : ConstHashHeap KT VT CAP) (i : Nat) :
    ConstHashHeap.swapdownSi s i = heapPick s.lessthan s.size s.vals i := rfl

theorem chh_swapupGo_proj (fuel : Nat) :
    ∀ (s : ConstHashHeap KT VT CAP) (i : Nat),
      ((ConstHashHeap.swapupGo s i fuel).1.vals, (ConstHashHeap.swapupGo s i fuel).2)
        = siftUpGo s.lessthan s.vals i fuel := by
  induction fuel with
  | zero => intro s i; rfl
  | succ f ih =>
    intro s i
    rw [chh_swapupGo_succ, siftUpGo_succ]
    by_cases hc : 0 < i ∧ s.lessthan (s.vals.getD (heapParent i) none)
        (s.vals.getD i none) = true
    · have hc2 : 0 < i ∧ s.lessthan (s.vals.getD (heapParent i) default)
          (s.vals.getD i default) = true := hc
      rw [if_pos hc, if_pos hc2, ih, (chh_swap_conf s i (heapParent i)).2.2.2.1, chh_swap_vals]
    · have hc2 : ¬(0 < i ∧ s.lessthan (s.vals.getD (heapParent i) default)
          (s.vals.getD i default) = true) := hc
      rw [if_neg hc, if_neg hc2]

theorem chh_swapdownGo_proj (fuel : Nat) :
    ∀ (s : ConstHashHeap KT VT CAP) (i : Nat),
      ((ConstHashHeap.swapdownGo s i fuel).1.vals, (ConstHashHeap.swapdownGo s i fuel).2)
        = siftDownGo s.lessthan s.size s.vals i fuel := by
  induction fuel with
  | zero => intro s i; rfl
  | succ f ih =>
    intro s i
    rw [chh_swapdownGo_succ, siftDownGo_succ, ← chh_swapdownSi_eq]
    cases hp : ConstHashHeap.swapdownSi s i with
    | some k =>
      show ((ConstHashHeap.swapdownGo (ConstHashHeap.swap s i k) k f).1.vals,
            (ConstHashHeap.swapdownGo (ConstHashHeap.swap s i k) k f).2)
          = siftDownGo s.lessthan s.size (lswap s.vals i k) k f
      rw [ih, (chh_swap_conf s i k).2.2.2.1, (chh_swap_conf s i k).2.1, chh_swap_vals]
    | none => rfl

theorem getD_some_lt {α : Type} (l : List (Option α)) (j : Nat) (y : α)
    (h : l.getD j none = some y) : j < l.length := by
  by_contra hge
  rw [getD_oob l j none (by omega)] at h
  cases h

theorem updKeyVi_getD_ne (K : List (Option (KT × Nat))) (a b j : Nat) (h : j ≠ a) :
    (ConstHashHeap.updKeyVi K a b).getD j none = K.getD j none := by
  unfold ConstHashHeap.updKeyVi
  exact getD_set_ne K a j _ none (fun he => h he.symm)

theorem updKeyVi_getD_self (K : List (Option (KT × Nat))) (a b : Nat) (ha : a < K.length) :
    (ConstHashHeap.updKeyVi K a b).getD a none
      = (K.getD a none).map (fun p => (p.1, b)) := by
  unfold ConstHashHeap.updKeyVi
  exact getD_set_self K a _ none ha

theorem getD_lswap_other_n {α : Type} (l : List (Option α)) (i j k2 : Nat)
    (h1 : k2 ≠ i) (h2 : k2 ≠ j) : (lswap l i j).getD k2 none = l.getD k2 none :=
  getD_lswap_other l i j k2 h1 h2

theorem chh_swap_keys_char (s : ConstHashHeap KT VT CAP) (i k : Nat) :
    (ConstHashHeap.swap s i k).keys
      = (match (lswap s.vals i k).getD k none with
         | some (_, kk) => ConstHashHeap.updKeyVi
             (match (lswap s.vals i k).getD i none with
              | some (_, ik) => ConstHashHeap.updKeyVi s.keys ik i
              | none => s.keys) kk k
         | none => (match (lswap s.vals i k).getD i none with
              | some (_, ik) => ConstHashHeap.updKeyVi s.keys ik i
              | none => s.keys)) := rfl

theorem chh_swap_keyval (s : ConstHashHeap KT VT CAP) (i k : Nat)
    (hi : i < s.vals.length) (hk : k < s.vals.length)
    (hkv : ConstHashHeap.KeyVal s) :
    ConstHashHeap.KeyVal (ConstHashHeap.swap s i k) := by
  obtain ⟨kv1, kv2⟩ := hkv
  have hveq : (ConstHashHeap.swap s i k).vals = lswap s.vals i k := rfl
  by_cases hik : i = k
  · subst hik
    have hveq2 : lswap s.vals i i = s.vals := lswap_self s.vals i
    have hkg : ∀ j, (ConstHashHeap.swap s i i).keys.getD j none = s.keys.getD j none := by
      intro j
      rw [chh_swap_keys_char, hveq2]
      cases hA : s.vals.getD i none with
      | none => rfl
      | some p =>
        obtain ⟨av, ac⟩ := p
        obtain ⟨kA, hbA⟩ := kv1 i av ac hA
        have hacb : ac < s.keys.length := getD_some_lt s.keys ac _ hbA
        have hupd : ConstHashHeap.updKeyVi s.keys ac i = s.keys := by
          unfold ConstHashHeap.updKeyVi
          rw [hbA]
          show s.keys.set ac (some (kA, i)) = s.keys
          rw [← hbA]
          exact set_getD_eq_self s.keys ac none (Or.inr hacb)
        show (ConstHashHeap.updKeyVi (ConstHashHeap.updKeyVi s.keys ac i) ac i).getD j none = _
        rw [hupd, hupd]
    constructor
    · intro j v c hj
      rw [hveq, hveq2] at hj
      obtain ⟨k2, hk2⟩ := kv1 j v c hj
      refine ⟨k2, ?_⟩
      rw [hkg c]
      exact hk2
    · intro h k2 vi2 hh
      rw [hkg h] at hh
      obtain ⟨v, hv⟩ := kv2 h k2 vi2 hh
      refine ⟨v, ?_⟩
      rw [hveq, hveq2]
      exact hv
  · have hgi : (lswap s.vals i k).getD i none = s.vals.getD k none :=
      getD_lswap_fst s.vals i k hi hk
    have hgk : (lswap s.vals i k).getD k none = s.vals.getD i none :=
      getD_lswap_snd s.vals i k hi hk
    cases hA : s.vals.getD i none with
    | some pA =>
      obtain ⟨av, ac⟩ := pA
      obtain ⟨kA, hbA⟩ := kv1 i av ac hA
      have hacK : ac < s.keys.length := getD_some_lt s.keys ac _ hbA
      cases hB : s.vals.getD k none with
      | some pB =>
        obtain ⟨bv, bc⟩ := pB
        obtain ⟨kB, hbB⟩ := kv1 k bv bc hB
        have hbcK : bc < s.keys.length := getD_some_lt s.keys bc _ hbB
        have hacbc : ac ≠ bc := by
          intro he
          rw [he, hbB] at hbA
          simp only [Option.some.injEq, Prod.mk.injEq] at hbA
          exact hik hbA.2.symm
        have hkeys : (ConstHashHeap.swap s i k).keys
            = ConstHashHeap.updKeyVi (ConstHashHeap.updKeyVi s.keys bc i) ac k := by
          rw [chh_swap_keys_char, hgi, hgk, hA, hB]
        have ht : ∀ j, (ConstHashHeap.swap s i k).keys.getD j none
            = if j = ac then some (kA, k)
              else if j = bc then some (kB, i)
              else s.keys.getD j none := by
          intro j
          rw [hkeys]
          by_cases h1 : j = ac
          · rw [if_pos h1, h1, updKeyVi_getD_self _ _ _ (by rw [updKeyVi_length]; exact hacK),
                updKeyVi_getD_ne _ _ _ _ hacbc, hbA]
            rfl
          · rw [if_neg h1, updKeyVi_getD_ne _ _ _ _ h1]
            by_cases h2 : j = bc
            · rw [if_pos h2, h2, updKeyVi_getD_self _ _ _ hbcK, hbB]
              rfl
            · rw [if_neg h2, updKeyVi_getD_ne _ _ _ _ h2]
        refine ⟨?_, ?_⟩
        · intro j v c hj
          rw [hveq] at hj
          by_cases hji : j = i
          · rw [hji, hgi, hB] at hj
            simp only [Option.some.injEq, Prod.mk.injEq] at hj
            refine ⟨kB, ?_⟩
            rw [ht c, if_neg (by rw [← hj.2]; exact fun he => hacbc he.symm),
                if_pos (by rw [← hj.2]), hji]
          · by_cases hjk : j = k
            · rw [hjk, hgk, hA] at hj
              simp only [Option.some.injEq, Prod.mk.injEq] at hj
              refine ⟨kA, ?_⟩
              rw [ht c, if_pos (by rw [← hj.2]), hjk]
            · rw [getD_lswap_other_n s.vals i k j hji hjk] at hj
              obtain ⟨kc, hkc⟩ := kv1 j v c hj
              have hcac : c ≠ ac := by
                intro he
                rw [he, hbA] at hkc
                simp only [Option.some.injEq, Prod.mk.injEq] at hkc
                exact hji hkc.2.symm
              have hcbc : c ≠ bc := by
                intro he
                rw [he, hbB] at hkc
                simp only [Option.some.injEq, Prod.mk.injEq] at hkc
                exact hjk hkc.2.symm
              refine ⟨kc, ?_⟩
              rw [ht c, if_neg hcac, if_neg hcbc]
              exact hkc
        · intro h k2 vi2 hh
          rw [ht h] at hh
          split_ifs at hh with h1 h2
          · simp only [Option.some.injEq, Prod.mk.injEq] at hh
            refine ⟨av, ?_⟩
            rw [hveq, ← hh.2, hgk, hA, h1]
          · simp only [Option.some.injEq, Prod.mk.injEq] at hh
            refine ⟨bv, ?_⟩
            rw [hveq, ← hh.2, hgi, hB, h2]
          · obtain ⟨v, hv⟩ := kv2 h k2 vi2 hh
            have hvi : vi2 ≠ i := by
              intro he
              rw [he, hA] at hv
              simp only [Option.some.injEq, Prod.mk.injEq] at hv
              exact h1 hv.2.symm
            have hvk : vi2 ≠ k := by
              intro he
              rw [he, hB] at hv
              simp only [Option.some.injEq, Prod.mk.injEq] at hv
              exact h2 hv.2.symm
            refine ⟨v, ?_⟩
            rw [hveq, getD_lswap_other_n s.vals i k vi2 hvi hvk]
            exact hv
      | none =>
        have hkeys : (ConstHashHeap.swap s i k).keys
            = ConstHashHeap.updKeyVi s.keys ac k := by
          rw [chh_swap_keys_char, hgi, hgk, hA, hB]
        have ht : ∀ j, (ConstHashHeap.swap s i k).keys.getD j none
            = if j = ac then some (kA, k) else s.keys.getD j none := by
          intro j
          rw [hkeys]
          by_cases h1 : j = ac
          · rw [if_pos h1, h1, updKeyVi_getD_self _ _ _ hacK, hbA]
            rfl
          · rw [if_neg h1, updKeyVi_getD_ne _ _ _ _ h1]
        refine ⟨?_, ?_⟩
        · intro j v c hj
          rw [hveq] at hj
          by_cases hji : j = i
          · rw [hji, hgi, hB] at hj
            cases hj
          · by_cases hjk : j = k
            · rw [hjk, hgk, hA] at hj
              simp only [Option.some.injEq, Prod.mk.injEq] at hj
              refine ⟨kA, ?_⟩
              rw [ht c, if_pos (by rw [← hj.2]), hjk]
            · rw [getD_lswap_other_n s.vals i k j hji hjk] at hj
              obtain ⟨kc, hkc⟩ := kv1 j v c hj
              have hcac : c ≠ ac := by
                intro he
                rw [he, hbA] at hkc
                simp only [Option.some.injEq, Prod.mk.injEq] at hkc
                exact hji hkc.2.symm
              refine ⟨kc, ?_⟩
              rw [ht c, if_neg hcac]
              exact hkc
        · intro h k2 vi2 hh
          rw [ht h] at hh
          split_ifs at hh with h1
          · simp only [Option.some.injEq, Prod.mk.injEq] at hh
            refine ⟨av, ?_⟩
            rw [hveq, ← hh.2, hgk, hA, h1]
          · obtain ⟨v, hv⟩ := kv2 h k2 vi2 hh
            have hvi : vi2 ≠ i := by
              intro he
              rw [he, hA] at hv
              simp only [Option.some.injEq, Prod.mk.injEq] at hv
              exact h1 hv.2.symm
            have hvk : vi2 ≠ k := by
              intro he
              rw [he, hB] at hv
              cases hv
            refine ⟨v, ?_⟩
            rw [hveq, getD_lswap_other_n s.vals i k vi2 hvi hvk]
            exact hv
    | none =>
      cases hB : s.vals.getD k none with
      | some pB =>
        obtain ⟨bv, bc⟩ := pB
        obtain ⟨kB, hbB⟩ := kv1 k bv bc hB
        have hbcK : bc < s.keys.length := getD_some_lt s.keys bc _ hbB
        have hkeys : (ConstHashHeap.swap s i k).keys
            = ConstHashHeap.updKeyVi s.keys bc i := by
          rw [chh_swap_keys_char, hgi, hgk, hA, hB]
        have ht : ∀ j, (ConstHashHeap.swap s i k).keys.getD j none
            = if j = bc then some (kB, i) else s.keys.getD j none := by
          intro j
          rw [hkeys]
          by_cases h1 : j = bc
          · rw [if_pos h1, h1, updKeyVi_getD_self _ _ _ hbcK, hbB]
            rfl
          · rw [if_neg h1, updKeyVi_getD_ne _ _ _ _ h1]
        refine ⟨?_, ?_⟩
        · intro j v c hj
          rw [hveq] at hj
          by_cases hji : j = i
          · rw [hji, hgi, hB] at hj
            simp only [Option.some.injEq, Prod.mk.injEq] at hj
            refine ⟨kB, ?_⟩
            rw [ht c, if_pos (by rw [← hj.2]), hji]
          · by_cases hjk : j = k
            · rw [hjk, hgk, hA] at hj
              cases hj
            · rw [getD_lswap_other_n s.vals i k j hji hjk] at hj
              obtain ⟨kc, hkc⟩ := kv1 j v c hj
              have hcbc : c ≠ bc := by
                intro he
                rw [he, hbB] at hkc
                simp only [Option.some.injEq, Prod.mk.injEq] at hkc
                exact hjk hkc.2.symm
              refine ⟨kc, ?_⟩
              rw [ht c, if_neg hcbc]
              exact hkc
        · intro h k2 vi2 hh
          rw [ht h] at hh
          split_ifs at hh with h1
          · simp only [Option.some.injEq, Prod.mk.injEq] at hh
            refine ⟨bv, ?_⟩
            rw [hveq, ← hh.2, hgi, hB, h1]
          · obtain ⟨v, hv⟩ := kv2 h k2 vi2 hh
            have hvi : vi2 ≠ i := by
              intro he
              rw [he, hA] at hv
              cases hv
            have hvk : vi2 ≠ k := by
              intro he
              rw [he, hB] at hv
              simp only [Option.some.injEq, Prod.mk.injEq] at hv
              exact h1 hv.2.symm
            refine ⟨v, ?_⟩
            rw [hveq, getD_lswap_other_n s.vals i k vi2 hvi hvk]
            exact hv
      | none =>
        have hkeys : (ConstHashHeap.swap s i k).keys = s.keys := by
          rw [chh_swap_keys_char, hgi, hgk, hA, hB]
        refine ⟨?_, ?_⟩
        · intro j v c hj
          rw [hveq] at hj
          by_cases hji : j = i
          · rw [hji, hgi, hB] at hj
            cases hj
          · by_cases hjk : j = k
            · rw [hjk, hgk, hA] at hj
              cases hj
            · rw [getD_lswap_other_n s.vals i k j hji hjk] at hj
              obtain ⟨kc, hkc⟩ := kv1 j v c hj
              refine ⟨kc, ?_⟩
              rw [hkeys]
              exact hkc
        · intro h k2 vi2 hh
          rw [hkeys] at hh
          obtain ⟨v, hv⟩ := kv2 h k2 vi2 hh
          have hvi : vi2 ≠ i := by
            intro he
            rw [he, hA] at hv
            cases hv
          have hvk : vi2 ≠ k := by
            intro he
            rw [he, hB] at hv
            cases hv
          refine ⟨v, ?_⟩
          rw [hveq, getD_lswap_other_n s.vals i k vi2 hvi hvk]
          exact hv

theorem heapPick_some_lt {α : Type} [Inhabited α] {lt : α → α → Bool} {n : Nat}
    {l : List α} {i k : Nat} (hp : heapPick lt n l i = some k) :
    lt (l.getD i default) (l.getD k default) = true := by
  revert hp
  show (if heapRight i < n ∧ _ ∧ _ then some (heapRight i)
        else if heapLeft i < n ∧ _ then some (heapLeft i) else none) = some k → _
  split
  · rename_i hc
    intro he
    cases he
    exact hc.2.1
  · split
    · rename_i hc
      intro he
      cases he
      exact hc.2
    · intro he
      cases he

theorem siftUpGo_getD_above {α : Type} [Inhabited α] (lt : α → α → Bool) :
    ∀ (fuel : Nat) (l : List α) (i j : Nat), i < j →
      (siftUpGo lt l i fuel).1.getD j default = l.getD j default := by
  intro fuel
  induction fuel with
  | zero => intro l i j _; rfl
  | succ f ih =>
    intro l i j hij
    rw [siftUpGo_succ]
    split
    · rename_i hc
      have hp : heapParent i < i := heapParent_lt hc.1
      rw [ih (lswap l i (heapParent i)) (heapParent i) j (by omega),
          getD_lswap_other l i (heapParent i) j (by omega) (by omega)]
    · rfl

theorem getD_lswap_fst_opt {α : Type} (l : List (Option α)) (i j : Nat)
    (hi : i < l.length) (hj : j < l.length) :
    (lswap l i j).getD i none = l.getD j none :=
  getD_lswap_fst l i j hi hj

theorem getD_lswap_snd_opt {α : Type} (l : List (Option α)) (i j : Nat)
    (hi : i < l.length) (hj : j < l.length) :
    (lswap l i j).getD j none = l.getD i none :=
  getD_lswap_snd l i j hi hj

theorem occL_lswap {α : Type} (l : List (Option α)) (i k m : Nat)
    (hi : i < m) (hk : k < m) (him : i < l.length) (hkm : k < l.length)
    (h : OccL m l) : OccL m (lswap l i k) := by
  obtain ⟨h1, h2⟩ := h
  constructor
  · intro j hj
    by_cases hji : j = i
    · rw [hji, getD_lswap_fst_opt l i k him hkm]
      exact h1 k hk
    · by_cases hjk : j = k
      · rw [hjk, getD_lswap_snd_opt l i k him hkm]
        exact h1 i hi
      · rw [getD_lswap_other_n l i k j hji hjk]
        exact h1 j hj
  · intro j hj
    rw [getD_lswap_other_n l i k j (by omega) (by omega)]
    exact h2 j hj

theorem chh_keyName_updKeyVi (K : List (Option (KT × Nat))) (a b j : Nat) :
    ((ConstHashHeap.updKeyVi K a b).getD j none).map (fun p => p.1)
      = (K.getD j none).map (fun p => p.1) := by
  by_cases hja : j = a
  · by_cases hal : a < K.length
    · rw [hja, updKeyVi_getD_self K a b hal]
      cases K.getD a none with
      | none => rfl
      | some p => rfl
    · unfold ConstHashHeap.updKeyVi
      rw [List.set_eq_of_length_le (by omega)]
  · rw [updKeyVi_getD_ne K a b j hja]

theorem chh_keyName_keys_fst (s : ConstHashHeap KT VT CAP) (i k : Nat) :
    ∀ j, ((ConstHashHeap.swap s i k).keys.getD j none).map (fun p => p.1)
      = (s.keys.getD j none).map (fun p => p.1) := by
  intro j
  rw [chh_swap_keys_char]
  cases (lswap s.vals i k).getD k none with
  | some pk =>
    obtain ⟨_, kk⟩ := pk
    cases (lswap s.vals i k).getD i none with
    | some pi =>
      obtain ⟨_, ik⟩ := pi
      show ((ConstHashHeap.updKeyVi (ConstHashHeap.updKeyVi s.keys ik i) kk k).getD j
          none).map _ = _
      rw [chh_keyName_updKeyVi, chh_keyName_updKeyVi]
    | none =>
      show ((ConstHashHeap.updKeyVi s.keys kk k).getD j none).map _ = _
      rw [chh_keyName_updKeyVi]
  | none =>
    cases (lswap s.vals i k).getD i none with
    | some pi =>
      obtain ⟨_, ik⟩ := pi
      show ((ConstHashHeap.updKeyVi s.keys ik i).getD j none).map _ = _
      rw [chh_keyName_updKeyVi]
    | none => rfl

theorem chh_keyName_swap (s : ConstHashHeap KT VT CAP) (i k : Nat)
    (x : Option (VT × Nat)) :
    ConstHashHeap.keyName (ConstHashHeap.swap s i k) x = ConstHashHeap.keyName s x := by
  unfold ConstHashHeap.keyName
  cases x with
  | none => rfl
  | some p =>
    show ((ConstHashHeap.swap s i k).keys.getD p.2 none).map _
        = (s.keys.getD p.2 none).map _
    exact chh_keyName_keys_fst s i k p.2

theorem chh_swapupGo_pres (fuel : Nat) :
    ∀ (s : ConstHashHeap KT VT CAP) (i m : Nat), i < m → m ≤ s.vals.length →
      OccL m s.vals → ConstHashHeap.KeyVal s →
      ConstHashHeap.KeyVal (ConstHashHeap.swapupGo s i fuel).1
      ∧ OccL m (ConstHashHeap.swapupGo s i fuel).1.vals
      ∧ ConstHashHeap.SameConfC s (ConstHashHeap.swapupGo s i fuel).1
      ∧ (∀ x, ConstHashHeap.keyName (ConstHashHeap.swapupGo s i fuel).1 x
          = ConstHashHeap.keyName s x) := by
  induction fuel with
  | zero =>
    intro s i m _ _ hocc hkv
    exact ⟨hkv, hocc, chh_sameconfc_refl s, fun x => rfl⟩
  | succ f ih =>
    intro s i m him hm hocc hkv
    rw [chh_swapupGo_succ]
    by_cases hc : 0 < i ∧ s.lessthan (s.vals.getD (heapParent i) none)
        (s.vals.getD i none) = true
    · rw [if_pos hc]
      have hp : heapParent i < i := heapParent_lt hc.1
      have hconf := chh_swap_conf s i (heapParent i)
      have hkv2 := chh_swap_keyval s i (heapParent i) (by omega) (by omega) hkv
      have hocc2 : OccL m (ConstHashHeap.swap s i (heapParent i)).vals := by
        rw [chh_swap_vals]
        exact occL_lswap s.vals i (heapParent i) m him (by omega) (by omega) (by omega) hocc
      obtain ⟨a, b, c, d⟩ := ih (ConstHashHeap.swap s i (heapParent i)) (heapParent i) m
        (by omega) (by rw [hconf.2.2.2.2.2]; exact hm) hocc2 hkv2
      refine ⟨a, b, chh_sameconfc_trans hconf c, fun x => ?_⟩
      rw [d x, chh_keyName_swap]
    · rw [if_neg hc]
      exact ⟨hkv, hocc, chh_sameconfc_refl s, fun x => rfl⟩

theorem chh_swapdownGo_pres (fuel : Nat) :
    ∀ (s : ConstHashHeap KT VT CAP) (i m : Nat), i < m → m ≤ s.vals.length →
      (∀ z, s.lessthan z none = false) →
      OccL m s.vals → ConstHashHeap.KeyVal s →
      ConstHashHeap.KeyVal (ConstHashHeap.swapdownGo s i fuel).1
      ∧ OccL m (ConstHashHeap.swapdownGo s i fuel).1.vals
      ∧ ConstHashHeap.SameConfC s (ConstHashHeap.swapdownGo s i fuel).1
      ∧ (∀ x, ConstHashHeap.keyName (ConstHashHeap.swapdownGo s i fuel).1 x
          = ConstHashHeap.keyName s x) := by
  induction fuel with
  | zero =>
    intro s i m _ _ _ hocc hkv
    exact ⟨hkv, hocc, chh_sameconfc_refl s, fun x => rfl⟩
  | succ f ih =>
    intro s i m him hm hdef hocc hkv
    rw [chh_swapdownGo_succ]
    cases hp : ConstHashHeap.swapdownSi s i with
    | none => exact ⟨hkv, hocc, chh_sameconfc_refl s, fun x => rfl⟩
    | some k =>
      have hlt : s.lessthan (s.vals.getD i none) (s.vals.getD k none) = true :=
        heapPick_some_lt (chh_swapdownSi_eq s i ▸ hp)
      have hkm : k < m := by
        by_contra hge
        rw [hocc.2 k (by omega), hdef] at hlt
        cases hlt
      have hconf := chh_swap_conf s i k
      have hkv2 := chh_swap_keyval s i k (by omega) (by omega) hkv
      have hocc2 : OccL m (ConstHashHeap.swap s i k).vals := by
        rw [chh_swap_vals]
        exact occL_lswap s.vals i k m him hkm (by omega) (by omega) hocc
      have hdef2 : ∀ z, (ConstHashHeap.swap s i k).lessthan z none = false := fun z => hdef z
      obtain ⟨a, b, c, d⟩ := ih (ConstHashHeap.swap s i k) k m hkm
        (by rw [hconf.2.2.2.2.2]; exact hm) hdef2 hocc2 hkv2
      refine ⟨a, b, chh_sameconfc_trans hconf c, fun x => ?_⟩
      rw [d x, chh_keyName_swap]

theorem chh_adjust_pres (s : ConstHashHeap KT VT CAP) (i m : Nat) (both : Bool)
    (him : i < m) (hm : m ≤ s.vals.length)
    (hdef : ∀ z, s.lessthan z none = false)
    (hocc : OccL m s.vals) (hkv : ConstHashHeap.KeyVal s) :
    ConstHashHeap.KeyVal (ConstHashHeap.adjust s i both).1
    ∧ OccL m (ConstHashHeap.adjust s i both).1.vals
    ∧ ConstHashHeap.SameConfC s (ConstHashHeap.adjust s i both).1
    ∧ (∀ x, ConstHashHeap.keyName (ConstHashHeap.adjust s i both).1 x
        = ConstHashHeap.keyName s x) := by
  have hup := chh_swapupGo_pres (i+1) s i m him hm hocc hkv
  unfold ConstHashHeap.adjust ConstHashHeap.swapup
  by_cases hcond : (ConstHashHeap.swapupGo s i (i+1)).2 = i ∧ both = true
  · rw [if_pos hcond]
    obtain ⟨a, b, c, d⟩ := hup
    have hdef2 : ∀ z, (ConstHashHeap.swapupGo s i (i+1)).1.lessthan z none = false := by
      intro z
      rw [c.2.2.2.1]
      exact hdef z
    unfold ConstHashHeap.swapdown
    obtain ⟨a2, b2, c2, d2⟩ := chh_swapdownGo_pres
      ((ConstHashHeap.swapupGo s i (i+1)).1.size + 1)
      (ConstHashHeap.swapupGo s i (i+1)).1 i m
      (by omega) (by rw [c.2.2.2.2.2]; exact hm) hdef2 b a
    refine ⟨a2, b2, chh_sameconfc_trans c c2, fun x => ?_⟩
    rw [d2 x, d x]
  · rw [if_neg hcond]
    exact hup

theorem chh_swapupGo_conf (fuel : Nat) :
    ∀ (s : ConstHashHeap KT VT CAP) (i : Nat),
      ConstHashHeap.SameConfC s (ConstHashHeap.swapupGo s i fuel).1 := by
  induction fuel with
  | zero => intro s i; exact chh_sameconfc_refl s
  | succ f ih =>
    intro s i
    rw [chh_swapupGo_succ]
    split
    · exact chh_sameconfc_trans (chh_swap_conf s i (heapParent i)) (ih _ _)
    · exact chh_sameconfc_refl s

theorem chh_swapdownGo_conf (fuel : Nat) :
    ∀ (s : ConstHashHeap KT VT CAP) (i : Nat),
      ConstHashHeap.SameConfC s (ConstHashHeap.swapdownGo s i fuel).1 := by
  induction fuel with
  | zero => intro s i; exact chh_sameconfc_refl s
  | succ f ih =>
    intro s i
    rw [chh_swapdownGo_succ]
    cases hp : ConstHashHeap.swapdownSi s i with
    | some k => exact chh_sameconfc_trans (chh_swap_conf s i k) (ih _ _)
    | none => exact chh_sameconfc_refl s

theorem chh_adjust_heap (s1 : ConstHashHeap KT VT CAP)
    (l₀ : List (Option (VT × Nat))) (x : Option (VT × Nat)) (i n : Nat) (both : Bool)
    (hok : LtOk s1.lessthan (fun z => z.isSome = true))
    (hdef1 : ∀ z, s1.lessthan z none = false) (hdef2 : ∀ z, s1.lessthan none z = false)
    (hvals : s1.vals = l₀.set i x) (hn : n ≤ l₀.length) (hin : i < n)
    (hsz : n ≤ s1.size)
    (hnone : ∀ j, n ≤ j → (l₀.set i x).getD j none = none)
    (hg : ∀ j, j < n → j ≠ i → (l₀.getD j none).isSome)
    (hgi : 2*i+1 < n → (l₀.getD i none).isSome)
    (hgx : x.isSome)
    (hheap : HeapD s1.lessthan l₀ n)
    (hleaf : both = false → n ≤ 2*i+1) :
    HeapD s1.lessthan (ConstHashHeap.adjust s1 i both).1.vals n := by
  have hmain := resift_replace_heap hok l₀ x i n hn hin
    (fun j hj hji => hg j hj hji) (fun hc => hgi hc) hgx hheap both hleaf
    (s1.size + 1) (by omega) (by omega)
  have hupconf := chh_swapupGo_conf (i+1) s1 i
  have hupproj := chh_swapupGo_proj (i+1) s1 i
  have hupvals : (ConstHashHeap.swapupGo s1 i (i+1)).1.vals
      = (siftUpGo s1.lessthan (l₀.set i x) i (i+1)).1 := by
    have h1 : (ConstHashHeap.swapupGo s1 i (i+1)).1.vals
        = (siftUpGo s1.lessthan s1.vals i (i+1)).1 := congrArg Prod.fst hupproj
    rw [h1, hvals]
  have hup2 : (ConstHashHeap.swapupGo s1 i (i+1)).2
      = (siftUpGo s1.lessthan (l₀.set i x) i (i+1)).2 := by
    have h1 : (ConstHashHeap.swapupGo s1 i (i+1)).2
        = (siftUpGo s1.lessthan s1.vals i (i+1)).2 := congrArg Prod.snd hupproj
    rw [h1, hvals]
  unfold ConstHashHeap.adjust ConstHashHeap.swapup
  by_cases hcond : (ConstHashHeap.swapupGo s1 i (i+1)).2 = i ∧ both = true
  · rw [if_pos hcond]
    have hgcond : (siftUpGo s1.lessthan (l₀.set i x) i (i+1)).2 = i ∧ both = true := by
      rw [← hup2]
      exact hcond
    rw [if_pos hgcond] at hmain
    unfold ConstHashHeap.swapdown
    have hdproj := chh_swapdownGo_proj
      ((ConstHashHeap.swapupGo s1 i (i+1)).1.size + 1) (ConstHashHeap.swapupGo s1 i (i+1)).1 i
    have hdvals : (ConstHashHeap.swapdownGo (ConstHashHeap.swapupGo s1 i (i+1)).1 i
          ((ConstHashHeap.swapupGo s1 i (i+1)).1.size + 1)).1.vals
        = (siftDownGo (ConstHashHeap.swapupGo s1 i (i+1)).1.lessthan
            (ConstHashHeap.swapupGo s1 i (i+1)).1.size
            (ConstHashHeap.swapupGo s1 i (i+1)).1.vals i
            ((ConstHashHeap.swapupGo s1 i (i+1)).1.size + 1)).1 :=
      congrArg Prod.fst hdproj
    rw [hdvals, hupconf.2.2.2.1, hupconf.2.1, hupvals]
    have hregion : ∀ j, n ≤ j →
        (siftUpGo s1.lessthan (l₀.set i x) i (i+1)).1.getD j default = default := by
      intro j hj
      rw [siftUpGo_getD_above s1.lessthan (i+1) (l₀.set i x) i j (by omega)]
      exact hnone j hj
    rw [siftDownGo_shrink s1.lessthan s1.size n hsz hdef1 hdef2 (s1.size + 1)
        (siftUpGo s1.lessthan (l₀.set i x) i (i+1)).1 i
        (by rw [siftUpGo_length, List.length_set]; omega) hregion]
    exact hmain
  · rw [if_neg hcond]
    have hgcond : ¬((siftUpGo s1.lessthan (l₀.set i x) i (i+1)).2 = i ∧ both = true) := by
      rw [← hup2]
      exact hcond
    rw [if_neg hgcond] at hmain
    show HeapD s1.lessthan (ConstHashHeap.swapupGo s1 i (i+1)).1.vals n
    rw [hupvals]
    exact hmain

theorem chh_probeGo_succ (s : ConstHashHeap KT VT CAP) (key : KT)
    (h0 h hashes fuel : Nat) :
    ConstHashHeap.probeGo s key h0 h hashes (fuel+1)
    = match s.keys.getD h none with
      | some (k, vi) =>
        if k = key then some (vi, h)
        else if hashes < s.maxhashes.getD h0 0 then
          ConstHashHeap.probeGo s key h0 (ConstHashHeap.rehash CAP h) (hashes+1) fuel
        else none
      | none =>
        if hashes < s.maxhashes.getD h0 0 then
          ConstHashHeap.probeGo s key h0 (ConstHashHeap.rehash CAP h) (hashes+1) fuel
        else none := rfl

theorem chh_probeGo_found (s : ConstHashHeap KT VT CAP) (key : KT) (h0 : Nat) :
    ∀ (fuel h hashes vi h1 : Nat),
      ConstHashHeap.probeGo s key h0 h hashes fuel = some (vi, h1) →
      s.keys.getD h1 none = some (key, vi) := by
  intro fuel
  induction fuel with
  | zero => intro h hashes vi h1 hp; exact Option.noConfusion hp
  | succ f ih =>
    intro h hashes vi h1 hp
    rw [chh_probeGo_succ] at hp
    cases hk : s.keys.getD h none with
    | some p =>
      obtain ⟨k, vi2⟩ := p
      rw [hk] at hp
      dsimp only at hp
      by_cases hkey : k = key
      · rw [if_pos hkey] at hp
        simp only [Option.some.injEq, Prod.mk.injEq] at hp
        rw [← hp.2, hk, hkey, hp.1]
      · rw [if_neg hkey] at hp
        by_cases hha : hashes < s.maxhashes.getD h0 0
        · rw [if_pos hha] at hp
          exact ih _ _ _ _ hp
        · rw [if_neg hha] at hp
          exact Option.noConfusion hp
    | none =>
      rw [hk] at hp
      dsimp only at hp
      by_cases hha : hashes < s.maxhashes.getD h0 0
      · rw [if_pos hha] at hp
        exact ih _ _ _ _ hp
      · rw [if_neg hha] at hp
        exact Option.noConfusion hp

theorem chh_probe_found (s : ConstHashHeap KT VT CAP) (key : KT) (vi h1 : Nat)
    (hp : ConstHashHeap.probe s key = some (vi, h1)) :
    s.keys.getD h1 none = some (key, vi) :=
  chh_probeGo_found s key (ConstHashHeap.hash s key) _ _ _ _ _ hp

theorem chh_insertGo_succ (s : ConstHashHeap KT VT CAP) (key : KT)
    (h0 h hashes fuel : Nat) (target : Option Nat) :
    ConstHashHeap.insertGo s key h0 h hashes target (fuel+1)
    = match s.keys.getD h none with
      | some (k, vi) =>
        if k = key then some (vi, h, hashes, target)
        else ConstHashHeap.insertGo s key h0 (ConstHashHeap.rehash CAP h)
          (hashes+1) target fuel
      | none =>
        if hashes < s.maxhashes.getD h0 0 then
          ConstHashHeap.insertGo s key h0 (ConstHashHeap.rehash CAP h) (hashes+1)
            (match target with | some t => some t | none => some h) fuel
        else some (s.size, h, hashes, target) := rfl

theorem chh_insertGo_char (s : ConstHashHeap KT VT CAP) (key : KT) (h0 : Nat) :
    ∀ (fuel h hashes : Nat) (target : Option Nat) (vi h1 hashes1 : Nat)
      (tgt : Option Nat),
      h < CAP →
      (∀ t, target = some t → s.keys.getD t none = none ∧ t < CAP) →
      ConstHashHeap.insertGo s key h0 h hashes target fuel
        = some (vi, h1, hashes1, tgt) →
      s.keys.getD h1 none = some (key, vi)
      ∨ (vi = s.size ∧ s.keys.getD h1 none = none ∧ h1 < CAP
          ∧ ∀ t, tgt = some t → s.keys.getD t none = none ∧ t < CAP) := by
  intro fuel
  induction fuel with
  | zero => intro h hashes target vi h1 hashes1 tgt _ _ hp; exact Option.noConfusion hp
  | succ f ih =>
    intro h hashes target vi h1 hashes1 tgt hcap htgt hp
    rw [chh_insertGo_succ] at hp
    cases hk : s.keys.getD h none with
    | some p =>
      obtain ⟨k, vi2⟩ := p
      rw [hk] at hp
      dsimp only at hp
      by_cases hkey : k = key
      · rw [if_pos hkey] at hp
        simp only [Option.some.injEq, Prod.mk.injEq] at hp
        left
        rw [← hp.2.1, hk, hkey, hp.1]
      · rw [if_neg hkey] at hp
        exact ih _ _ _ _ _ _ _ (Nat.mod_lt _ (by omega)) htgt hp
    | none =>
      rw [hk] at hp
      dsimp only at hp
      by_cases hha : hashes < s.maxhashes.getD h0 0
      · rw [if_pos hha] at hp
        refine ih _ _ _ _ _ _ _ (Nat.mod_lt _ (by omega)) ?_ hp
        intro t ht
        cases hto : target with
        | some t0 =>
          rw [hto] at ht
          dsimp only at ht
          injection ht with hte
          rw [← hte]
          exact htgt t0 hto
        | none =>
          rw [hto] at ht
          dsimp only at ht
          injection ht with hte
          rw [← hte]
          exact ⟨hk, hcap⟩
      · rw [if_neg hha] at hp
        simp only [Option.some.injEq, Prod.mk.injEq] at hp
        right
        refine ⟨hp.1.symm, ?_, ?_, ?_⟩
        · rw [← hp.2.1]; exact hk
        · rw [← hp.2.1]; exact hcap
        · rw [← hp.2.2.2]; exact htgt

theorem chh_found_lt (s : ConstHashHeap KT VT CAP) (key : KT) (vi h1 : Nat)
    (hx : ConstHashHeap.Xref s) (hk : s.keys.getD h1 none = some (key, vi)) :
    vi < s.size ∧ ∃ v, s.vals.getD vi none = some (v, h1) := by
  obtain ⟨v, hv⟩ := hx.2.2 h1 key vi hk
  refine ⟨?_, v, hv⟩
  by_contra hge
  rw [hx.1.2 vi (by omega)] at hv
  exact Option.noConfusion hv

theorem chh_adjust_inv (s3 : ConstHashHeap KT VT CAP) (mh : Bool) (vi : Nat)
    (both : Bool) (l₀ : List (Option (VT × Nat))) (x : Option (VT × Nat))
    (hcmp : ConstHashHeap.CmpIs s3 mh)
    (hsh : ConstHashHeap.Shape s3)
    (hx : ConstHashHeap.Xref s3)
    (hvi : vi < s3.size)
    (hvals : s3.vals = l₀.set vi x)
    (hlen : l₀.length = CAP)
    (hgi : 2*vi+1 < s3.size → (l₀.getD vi none).isSome)
    (hheap : HeapD s3.lessthan l₀ s3.size)
    (hleaf : both = false → s3.size ≤ 2*vi+1) :
    ConstHashHeap.Inv (ConstHashHeap.adjust s3 vi both).1
    ∧ ConstHashHeap.CmpIs (ConstHashHeap.adjust s3 vi both).1 mh
    ∧ ConstHashHeap.SameConfC s3 (ConstHashHeap.adjust s3 vi both).1
    ∧ (∀ y, ConstHashHeap.keyName (ConstHashHeap.adjust s3 vi both).1 y
        = ConstHashHeap.keyName s3 y) := by
  have hdef1 := chh_cmpis_def1 s3 mh hcmp
  have hdef2 := chh_cmpis_def2 s3 mh hcmp
  have hm : s3.size ≤ s3.vals.length := by rw [hsh.2.1]; exact hsh.2.2.2
  obtain ⟨pkv, pocc, pconf, pname⟩ :=
    chh_adjust_pres s3 vi s3.size both hvi hm hdef1 hx.1 hx.2
  have hheap2 := chh_adjust_heap s3 l₀ x vi s3.size both
    (chh_cmpis_ltOk s3 mh hcmp) hdef1 hdef2 hvals
    (by rw [hlen]; exact hsh.2.2.2) hvi (le_refl _)
    (fun j hj => by rw [← hvals]; exact hx.1.2 j hj)
    (fun j hj hji => by
      have hjs := hx.1.1 j hj
      rw [hvals, getD_set_ne l₀ vi j x none (fun he => hji he.symm)] at hjs
      exact hjs)
    hgi
    (by
      have hvs := hx.1.1 vi hvi
      have hszc : s3.size ≤ CAP := hsh.2.2.2
      rw [hvals, getD_set_self l₀ vi x none (by rw [hlen]; omega)] at hvs
      exact hvs)
    hheap hleaf
  refine ⟨⟨⟨?_, ?_, ?_, ?_⟩, ⟨?_, pkv⟩, ?_⟩, ?_, pconf, pname⟩
  · rw [pconf.2.2.2.2.1]; exact hsh.1
  · rw [pconf.2.2.2.2.2]; exact hsh.2.1
  · rw [pconf.1]; exact hsh.2.2.1
  · rw [pconf.2.1]; exact hsh.2.2.2
  · show OccL (ConstHashHeap.adjust s3 vi both).1.size
      (ConstHashHeap.adjust s3 vi both).1.vals
    rw [pconf.2.1]
    exact pocc
  · rw [pconf.2.1, pconf.2.2.2.1]
    exact hheap2
  · show (ConstHashHeap.adjust s3 vi both).1.lessthan = ConstHashHeap.canonLt mh
    rw [pconf.2.2.2.1]
    exact hcmp

theorem chh_insert_existing (mh : Bool) (s : ConstHashHeap KT VT CAP)
    (key : KT) (val : VT) (vi h1 : Nat) (M : List Nat) (both : Bool)
    (hcmp : ConstHashHeap.CmpIs s mh) (hinv : ConstHashHeap.Inv s)
    (hfound : s.keys.getD h1 none = some (key, vi)) (hM : M.length = CAP)
    (hleaf : both = false → s.size ≤ 2*vi+1) :
    ConstHashHeap.Inv (ConstHashHeap.adjust
      ({ s with maxhashes := M,
                keys := s.keys.set h1 (some (key, vi)),
                vals := s.vals.set vi (some (val, h1)) } : ConstHashHeap KT VT CAP)
      vi both).1
    ∧ ConstHashHeap.CmpIs (ConstHashHeap.adjust
      ({ s with maxhashes := M,
                keys := s.keys.set h1 (some (key, vi)),
                vals := s.vals.set vi (some (val, h1)) } : ConstHashHeap KT VT CAP)
      vi both).1 mh := by
  obtain ⟨hsh, hx, hheap⟩ := hinv
  obtain ⟨hvilt, v0, hv0⟩ := chh_found_lt s key vi h1 hx hfound
  have hh1len : h1 < s.keys.length := getD_some_lt s.keys h1 _ hfound
  have hvlen : vi < s.vals.length := by
    have hc := hsh.2.2.2
    rw [hsh.2.1]
    omega
  set s3 : ConstHashHeap KT VT CAP :=
    { s with maxhashes := M,
             keys := s.keys.set h1 (some (key, vi)),
             vals := s.vals.set vi (some (val, h1)) } with hs3def
  have hkeq : s3.keys = s.keys := by
    show s.keys.set h1 (some (key, vi)) = s.keys
    rw [← hfound]
    exact set_getD_eq_self s.keys h1 none (Or.inr hh1len)
  have hveq : s3.vals = s.vals.set vi (some (val, h1)) := rfl
  have hmain := chh_adjust_inv s3 mh vi both s.vals (some (val, h1))
    hcmp
    (⟨by show (s.keys.set h1 (some (key, vi))).length = CAP
         rw [List.length_set]; exact hsh.1,
      by show (s.vals.set vi (some (val, h1))).length = CAP
         rw [List.length_set]; exact hsh.2.1,
      hM, hsh.2.2.2⟩)
    (⟨⟨fun j hj => by
        rw [hveq]
        by_cases hjv : j = vi
        · rw [hjv, getD_set_self s.vals vi _ none hvlen]
          rfl
        · rw [getD_set_ne s.vals vi j _ none (fun he => hjv he.symm)]
          exact hx.1.1 j hj,
      fun j hj => by
        have hj2 : s.size ≤ j := hj
        rw [hveq, getD_set_ne s.vals vi j _ none (by omega)]
        exact hx.1.2 j hj2⟩,
      fun i v2 ki2 hval => by
        rw [hveq] at hval
        by_cases hiv : i = vi
        · rw [hiv, getD_set_self s.vals vi _ none hvlen] at hval
          simp only [Option.some.injEq, Prod.mk.injEq] at hval
          refine ⟨key, ?_⟩
          rw [hkeq, ← hval.2, hiv]
          exact hfound
        · rw [getD_set_ne s.vals vi i _ none (fun he => hiv he.symm)] at hval
          obtain ⟨k2, hk2⟩ := hx.2.1 i v2 ki2 hval
          refine ⟨k2, ?_⟩
          rw [hkeq]
          exact hk2,
      fun h2 k2 vi3 hkey2 => by
        rw [hkeq] at hkey2
        obtain ⟨v2, hv2⟩ := hx.2.2 h2 k2 vi3 hkey2
        by_cases hv3 : vi3 = vi
        · have hcomb : some (v0, h1) = some (v2, h2) := by
            rw [← hv0, ← hv2, hv3]
          simp only [Option.some.injEq, Prod.mk.injEq] at hcomb
          refine ⟨val, ?_⟩
          rw [hveq, hv3, getD_set_self s.vals vi _ none hvlen, hcomb.2]
        · refine ⟨v2, ?_⟩
          rw [hveq, getD_set_ne s.vals vi vi3 _ none (fun he => hv3 he.symm)]
          exact hv2⟩)
    hvilt rfl hsh.2.1
    (fun _ => by rw [hv0]; rfl)
    hheap hleaf
  exact ⟨hmain.1, hmain.2.1⟩

theorem chh_insert_new (mh : Bool) (s : ConstHashHeap KT VT CAP)
    (key : KT) (val : VT) (h1 : Nat) (M : List Nat) (both : Bool)
    (hcmp : ConstHashHeap.CmpIs s mh) (hinv : ConstHashHeap.Inv s)
    (hnone : s.keys.getD h1 none = none) (hh1 : h1 < CAP) (hszlt : s.size < CAP)
    (hM : M.length = CAP) :
    ConstHashHeap.Inv (ConstHashHeap.adjust
      ({ s with size := s.size + 1, maxhashes := M,
                keys := s.keys.set h1 (some (key, s.size)),
                vals := s.vals.set s.size (some (val, h1)) } : ConstHashHeap KT VT CAP)
      s.size both).1
    ∧ ConstHashHeap.CmpIs (ConstHashHeap.adjust
      ({ s with size := s.size + 1, maxhashes := M,
                keys := s.keys.set h1 (some (key, s.size)),
                vals := s.vals.set s.size (some (val, h1)) } : ConstHashHeap KT VT CAP)
      s.size both).1 mh := by
  obtain ⟨hsh, hx, hheap⟩ := hinv
  have hklen : h1 < s.keys.length := by rw [hsh.1]; exact hh1
  have hvlen : s.size < s.vals.length := by rw [hsh.2.1]; exact hszlt
  set s3 : ConstHashHeap KT VT CAP :=
    { s with size := s.size + 1, maxhashes := M,
             keys := s.keys.set h1 (some (key, s.size)),
             vals := s.vals.set s.size (some (val, h1)) } with hs3def
  have hkeq : s3.keys = s.keys.set h1 (some (key, s.size)) := rfl
  have hveq : s3.vals = s.vals.set s.size (some (val, h1)) := rfl
  have hsz3 : s3.size = s.size + 1 := rfl
  have hmain := chh_adjust_inv s3 mh s.size both s.vals (some (val, h1))
    hcmp
    (⟨by show (s.keys.set h1 (some (key, s.size))).length = CAP
         rw [List.length_set]; exact hsh.1,
      by show (s.vals.set s.size (some (val, h1))).length = CAP
         rw [List.length_set]; exact hsh.2.1,
      hM, by show s.size + 1 ≤ CAP; omega⟩)
    (⟨⟨fun j hj => by
        rw [hveq]
        by_cases hjv : j = s.size
        · rw [hjv, getD_set_self s.vals s.size _ none hvlen]
          rfl
        · rw [getD_set_ne s.vals s.size j _ none (fun he => hjv he.symm)]
          have hj2 : j < s.size + 1 := hj
          exact hx.1.1 j (by omega),
      fun j hj => by
        have hj2 : s.size + 1 ≤ j := hj
        rw [hveq, getD_set_ne s.vals s.size j _ none (by omega)]
        exact hx.1.2 j (by omega)⟩,
      fun i v2 ki2 hval => by
        rw [hveq] at hval
        by_cases hiv : i = s.size
        · rw [hiv, getD_set_self s.vals s.size _ none hvlen] at hval
          simp only [Option.some.injEq, Prod.mk.injEq] at hval
          refine ⟨key, ?_⟩
          rw [hkeq, ← hval.2, getD_set_self s.keys h1 _ none hklen, hiv]
        · rw [getD_set_ne s.vals s.size i _ none (fun he => hiv he.symm)] at hval
          obtain ⟨k2, hk2⟩ := hx.2.1 i v2 ki2 hval
          have hki2 : ki2 ≠ h1 := by
            intro he
            rw [he, hnone] at hk2
            exact Option.noConfusion hk2
          refine ⟨k2, ?_⟩
          rw [hkeq, getD_set_ne s.keys h1 ki2 _ none (fun he => hki2 he.symm)]
          exact hk2,
      fun h2 k2 vi3 hkey2 => by
        rw [hkeq] at hkey2
        by_cases hh2 : h2 = h1
        · rw [hh2, getD_set_self s.keys h1 _ none hklen] at hkey2
          simp only [Option.some.injEq, Prod.mk.injEq] at hkey2
          refine ⟨val, ?_⟩
          rw [hveq, ← hkey2.2, getD_set_self s.vals s.size _ none hvlen, hh2]
        · rw [getD_set_ne s.keys h1 h2 _ none (fun he => hh2 he.symm)] at hkey2
          obtain ⟨v2, hv2⟩ := hx.2.2 h2 k2 vi3 hkey2
          have hvi3 : vi3 ≠ s.size := by
            intro he
            rw [he, hx.1.2 s.size (le_refl _)] at hv2
            exact Option.noConfusion hv2
          refine ⟨v2, ?_⟩
          rw [hveq, getD_set_ne s.vals s.size vi3 _ none (fun he => hvi3 he.symm)]
          exact hv2⟩)
    (by show s.size < s.size + 1; omega)
    rfl hsh.2.1
    (fun hc => by
      have hc2 : 2*s.size+1 < s.size + 1 := hc
      exact absurd hc2 (by omega))
    (by
      intro c hc0 hcn
      have hcn2 : c < s.size + 1 := hcn
      by_cases hcs : c < s.size
      · exact hheap c hc0 hcs
      · have hceq : c = s.size := by omega
        have hz : s.vals.getD c default = none := by
          rw [hceq]
          exact hx.1.2 s.size (le_refl _)
        rw [hz]
        exact chh_cmpis_def1 s mh hcmp _)
    (fun _ => by
      show s.size + 1 ≤ 2*s.size+1
      omega)
  exact ⟨hmain.1, hmain.2.1⟩

theorem chh_insert_inv (mh : Bool) (fuel : Nat) (s s' : ConstHashHeap KT VT CAP)
    (key : KT) (val : VT) (b : Bool)
    (hcmp : ConstHashHeap.CmpIs s mh) (hinv : ConstHashHeap.Inv s)
    (hins : ConstHashHeap.insert fuel s key val = some (b, s')) :
    ConstHashHeap.Inv s' ∧ ConstHashHeap.CmpIs s' mh := by
  unfold ConstHashHeap.insert at hins
  dsimp only at hins
  cases hgo : ConstHashHeap.insertGo s key (ConstHashHeap.hash s key)
      (ConstHashHeap.hash s key) 1 none fuel with
  | none =>
    rw [hgo] at hins
    exact Option.noConfusion hins
  | some q =>
    obtain ⟨vi, h1, hashes1, tgt⟩ := q
    rw [hgo] at hins
    dsimp only at hins
    by_cases hcap0 : CAP = 0
    · -- capacity 0: the probe loop exits immediately with the new-slot arm and
      -- the full-capacity guard fires, leaving the structure unchanged
      have hsz0 : s.size = 0 := by
        have := hinv.1.2.2.2
        omega
      have hkey0 : s.keys.getD (ConstHashHeap.hash s key) none = none :=
        getD_oob s.keys _ none (by rw [hinv.1.1]; omega)
      have hmx0 : s.maxhashes.getD (ConstHashHeap.hash s key) 0 = 0 :=
        getD_oob s.maxhashes _ 0 (by rw [hinv.1.2.2.1]; omega)
      cases fuel with
      | zero => exact Option.noConfusion hgo
      | succ f =>
        rw [chh_insertGo_succ, hkey0] at hgo
        dsimp only at hgo
        rw [hmx0, if_neg (by omega)] at hgo
        simp only [Option.some.injEq, Prod.mk.injEq] at hgo
        rw [if_pos ⟨hgo.1.symm, by omega⟩] at hins
        simp only [Option.some.injEq, Prod.mk.injEq] at hins
        rw [← hins.2]
        exact ⟨hinv, hcmp⟩
    · have hchar := chh_insertGo_char s key (ConstHashHeap.hash s key) fuel
        (ConstHashHeap.hash s key) 1 none vi h1 hashes1 tgt
        (Nat.mod_lt _ (by omega)) (fun t ht => Option.noConfusion ht) hgo
      cases hchar with
      | inl hfound =>
        obtain ⟨hvilt, v0, hv0⟩ := chh_found_lt s key vi h1 hinv.2.1 hfound
        have hvine : vi ≠ s.size := by omega
        rw [if_neg (fun hc => hvine hc.1)] at hins
        simp only [if_neg hvine] at hins
        by_cases hmx : hashes1 > s.maxhashes.getD (ConstHashHeap.hash s key) 0
        · simp only [if_pos hmx] at hins
          simp only [Option.some.injEq, Prod.mk.injEq] at hins
          rw [← hins.2]
          exact chh_insert_existing mh s key val vi h1
            (s.maxhashes.set (ConstHashHeap.hash s key) hashes1)
            (decide (vi + 1 < s.size)) hcmp hinv hfound
            (by rw [List.length_set]; exact hinv.1.2.2.1)
            (fun hd => by
              have h2 : ¬ (vi + 1 < s.size) := of_decide_eq_false hd
              omega)
        · simp only [if_neg hmx] at hins
          simp only [Option.some.injEq, Prod.mk.injEq] at hins
          rw [← hins.2]
          exact chh_insert_existing mh s key val vi h1 s.maxhashes
            (decide (vi + 1 < s.size)) hcmp hinv hfound hinv.1.2.2.1
            (fun hd => by
              have h2 : ¬ (vi + 1 < s.size) := of_decide_eq_false hd
              omega)
      | inr hnew =>
        obtain ⟨hvieq, hslot, hh1cap, htgt⟩ := hnew
        by_cases hge : s.size ≥ CAP
        · rw [if_pos ⟨hvieq, hge⟩] at hins
          simp only [Option.some.injEq, Prod.mk.injEq] at hins
          rw [← hins.2]
          exact ⟨hinv, hcmp⟩
        · have hszlt : s.size < CAP := by omega
          rw [if_neg (fun hc => hge hc.2)] at hins
          simp only [if_pos hvieq] at hins
          rw [hvieq] at hins
          cases tgt with
          | some t =>
            obtain ⟨htslot, htcap⟩ := htgt t rfl
            dsimp only at hins
            by_cases hmx : hashes1 > s.maxhashes.getD (ConstHashHeap.hash s key) 0
            · simp only [if_pos hmx] at hins
              simp only [Option.some.injEq, Prod.mk.injEq] at hins
              rw [← hins.2]
              exact chh_insert_new mh s key val t
                (s.maxhashes.set (ConstHashHeap.hash s key) hashes1)
                (decide (s.size + 1 < s.size + 1)) hcmp hinv htslot htcap hszlt
                (by rw [List.length_set]; exact hinv.1.2.2.1)
            · simp only [if_neg hmx] at hins
              simp only [Option.some.injEq, Prod.mk.injEq] at hins
              rw [← hins.2]
              exact chh_insert_new mh s key val t s.maxhashes
                (decide (s.size + 1 < s.size + 1)) hcmp hinv htslot htcap hszlt
                hinv.1.2.2.1
          | none =>
            dsimp only at hins
            by_cases hmx : hashes1 > s.maxhashes.getD (ConstHashHeap.hash s key) 0
            · simp only [if_pos hmx] at hins
              simp only [Option.some.injEq, Prod.mk.injEq] at hins
              rw [← hins.2]
              exact chh_insert_new mh s key val h1
                (s.maxhashes.set (ConstHashHeap.hash s key) hashes1)
                (decide (s.size + 1 < s.size + 1)) hcmp hinv hslot hh1cap hszlt
                (by rw [List.length_set]; exact hinv.1.2.2.1)
            · simp only [if_neg hmx] at hins
              simp only [Option.some.injEq, Prod.mk.injEq] at hins
              rw [← hins.2]
              exact chh_insert_new mh s key val h1 s.maxhashes
                (decide (s.size + 1 < s.size + 1)) hcmp hinv hslot hh1cap hszlt
                hinv.1.2.2.1

theorem chh_modify_found (mh : Bool) (s : ConstHashHeap KT VT CAP) (key : KT)
    (f : VT → VT) (vi h1 : Nat) (both : Bool)
    (hcmp : ConstHashHeap.CmpIs s mh) (hinv : ConstHashHeap.Inv s)
    (hfound : s.keys.getD h1 none = some (key, vi))
    (hleaf : both = false → s.size ≤ 2*vi+1) :
    ConstHashHeap.Inv (ConstHashHeap.adjust
      ({ s with vals := ConstHashHeap.valUpd s.vals vi f } : ConstHashHeap KT VT CAP)
      vi both).1
    ∧ ConstHashHeap.CmpIs (ConstHashHeap.adjust
      ({ s with vals := ConstHashHeap.valUpd s.vals vi f } : ConstHashHeap KT VT CAP)
      vi both).1 mh := by
  obtain ⟨hsh, hx, hheap⟩ := hinv
  obtain ⟨hvilt, v0, hv0⟩ := chh_found_lt s key vi h1 hx hfound
  have hvlen : vi < s.vals.length := by
    have hc := hsh.2.2.2
    rw [hsh.2.1]
    omega
  set s3 : ConstHashHeap KT VT CAP :=
    { s with vals := ConstHashHeap.valUpd s.vals vi f } with hs3def
  have hveq : s3.vals
      = s.vals.set vi ((s.vals.getD vi none).map (fun p => (f p.1, p.2))) := rfl
  have hxval : (s.vals.getD vi none).map (fun p => (f p.1, p.2)) = some (f v0, h1) := by
    rw [hv0]
    rfl
  have hmain := chh_adjust_inv s3 mh vi both s.vals
    ((s.vals.getD vi none).map (fun p => (f p.1, p.2)))
    hcmp
    (⟨hsh.1,
      by show (s.vals.set vi _).length = CAP
         rw [List.length_set]; exact hsh.2.1,
      hsh.2.2.1, hsh.2.2.2⟩)
    (⟨⟨fun j hj => by
        rw [hveq]
        by_cases hjv : j = vi
        · rw [hjv, getD_set_self s.vals vi _ none hvlen, hxval]
          rfl
        · rw [getD_set_ne s.vals vi j _ none (fun he => hjv he.symm)]
          exact hx.1.1 j hj,
      fun j hj => by
        have hj2 : s.size ≤ j := hj
        rw [hveq, getD_set_ne s.vals vi j _ none (by omega)]
        exact hx.1.2 j hj2⟩,
      fun i v2 ki2 hval => by
        rw [hveq] at hval
        by_cases hiv : i = vi
        · rw [hiv, getD_set_self s.vals vi _ none hvlen, hxval] at hval
          simp only [Option.some.injEq, Prod.mk.injEq] at hval
          refine ⟨key, ?_⟩
          show s.keys.getD ki2 none = some (key, i)
          rw [← hval.2, hiv]
          exact hfound
        · rw [getD_set_ne s.vals vi i _ none (fun he => hiv he.symm)] at hval
          exact hx.2.1 i v2 ki2 hval,
      fun h2 k2 vi3 hkey2 => by
        obtain ⟨v2, hv2⟩ := hx.2.2 h2 k2 vi3 hkey2
        by_cases hv3 : vi3 = vi
        · have hcomb : some (v0, h1) = some (v2, h2) := by
            rw [← hv0, ← hv2, hv3]
          simp only [Option.some.injEq, Prod.mk.injEq] at hcomb
          refine ⟨f v0, ?_⟩
          rw [hveq, hv3, getD_set_self s.vals vi _ none hvlen, hxval, hcomb.2]
        · refine ⟨v2, ?_⟩
          rw [hveq, getD_set_ne s.vals vi vi3 _ none (fun he => hv3 he.symm)]
          exact hv2⟩)
    hvilt hveq hsh.2.1
    (fun _ => by rw [hv0]; rfl)
    hheap (fun hb => hleaf hb)
  exact ⟨hmain.1, hmain.2.1⟩

theorem chh_modify_opt_inv (mh : Bool) (s s' : ConstHashHeap KT VT CAP)
    (iopt : Option Nat) (key : KT) (f : VT → VT) (r : Option Nat)
    (hcmp : ConstHashHeap.CmpIs s mh) (hinv : ConstHashHeap.Inv s)
    (hmod : ConstHashHeap.modify_opt s iopt key f = (r, s')) :
    ConstHashHeap.Inv s' ∧ ConstHashHeap.CmpIs s' mh := by
  unfold ConstHashHeap.modify_opt at hmod
  dsimp only at hmod
  cases iopt with
  | none =>
    cases hpr : ConstHashHeap.probe s key with
    | some p =>
      obtain ⟨vi, h⟩ := p
      rw [hpr] at hmod
      dsimp only at hmod
      have hfound := chh_probe_found s key vi h hpr
      obtain ⟨hvilt, v0, hv0⟩ := chh_found_lt s key vi h hinv.2.1 hfound
      simp only [Prod.mk.injEq] at hmod
      rw [← hmod.2]
      exact chh_modify_found mh s key f vi h (decide (vi + 1 < s.size)) hcmp hinv
        hfound (fun hd => by
          have h2 : ¬ (vi + 1 < s.size) := of_decide_eq_false hd
          omega)
    | none =>
      rw [hpr] at hmod
      dsimp only at hmod
      simp only [Prod.mk.injEq] at hmod
      rw [← hmod.2]
      exact ⟨hinv, hcmp⟩
  | some h0 =>
    dsimp only at hmod
    by_cases hlen : h0 < s.keys.length
    · rw [if_pos hlen] at hmod
      cases hk : s.keys.getD h0 none with
      | some p =>
        obtain ⟨k, vi⟩ := p
        rw [hk] at hmod
        dsimp only at hmod
        by_cases hkey : k = key
        · rw [if_pos hkey] at hmod
          have hfound : s.keys.getD h0 none = some (key, vi) := by
            rw [hk, hkey]
          obtain ⟨hvilt, v0, hv0⟩ := chh_found_lt s key vi h0 hinv.2.1 hfound
          simp only [Prod.mk.injEq] at hmod
          rw [← hmod.2]
          exact chh_modify_found mh s key f vi h0 (decide (vi + 1 < s.size)) hcmp hinv
            hfound (fun hd => by
              have h2 : ¬ (vi + 1 < s.size) := of_decide_eq_false hd
              omega)
        · rw [if_neg hkey] at hmod
          cases hpr : ConstHashHeap.probe s key with
          | some p =>
            obtain ⟨vi2, h2⟩ := p
            rw [hpr] at hmod
            dsimp only at hmod
            have hfound := chh_probe_found s key vi2 h2 hpr
            obtain ⟨hvilt, v0, hv0⟩ := chh_found_lt s key vi2 h2 hinv.2.1 hfound
            simp only [Prod.mk.injEq] at hmod
            rw [← hmod.2]
            exact chh_modify_found mh s key f vi2 h2 (decide (vi2 + 1 < s.size)) hcmp
              hinv hfound (fun hd => by
                have h3 : ¬ (vi2 + 1 < s.size) := of_decide_eq_false hd
                omega)
          | none =>
            rw [hpr] at hmod
            dsimp only at hmod
            simp only [Prod.mk.injEq] at hmod
            rw [← hmod.2]
            exact ⟨hinv, hcmp⟩
      | none =>
        rw [hk] at hmod
        dsimp only at hmod
        cases hpr : ConstHashHeap.probe s key with
        | some p =>
          obtain ⟨vi2, h2⟩ := p
          rw [hpr] at hmod
          dsimp only at hmod
          have hfound := chh_probe_found s key vi2 h2 hpr
          obtain ⟨hvilt, v0, hv0⟩ := chh_found_lt s key vi2 h2 hinv.2.1 hfound
          simp only [Prod.mk.injEq] at hmod
          rw [← hmod.2]
          exact chh_modify_found mh s key f vi2 h2 (decide (vi2 + 1 < s.size)) hcmp
            hinv hfound (fun hd => by
              have h3 : ¬ (vi2 + 1 < s.size) := of_decide_eq_false hd
              omega)
        | none =>
          rw [hpr] at hmod
          dsimp only at hmod
          simp only [Prod.mk.injEq] at hmod
          rw [← hmod.2]
          exact ⟨hinv, hcmp⟩
    · rw [if_neg hlen] at hmod
      cases hpr : ConstHashHeap.probe s key with
      | some p =>
        obtain ⟨vi2, h2⟩ := p
        rw [hpr] at hmod
        dsimp only at hmod
        have hfound := chh_probe_found s key vi2 h2 hpr
        obtain ⟨hvilt, v0, hv0⟩ := chh_found_lt s key vi2 h2 hinv.2.1 hfound
        simp only [Prod.mk.injEq] at hmod
        rw [← hmod.2]
        exact chh_modify_found mh s key f vi2 h2 (decide (vi2 + 1 < s.size)) hcmp
          hinv hfound (fun hd => by
            have h3 : ¬ (vi2 + 1 < s.size) := of_decide_eq_false hd
            omega)
      | none =>
        rw [hpr] at hmod
        dsimp only at hmod
        simp only [Prod.mk.injEq] at hmod
        rw [← hmod.2]
        exact ⟨hinv, hcmp⟩

theorem chh_remove_state_inv (mh : Bool) (s : ConstHashHeap KT VT CAP) (key : KT)
    (vi h1 : Nat)
    (hcmp : ConstHashHeap.CmpIs s mh) (hinv : ConstHashHeap.Inv s)
    (hfound : s.keys.getD h1 none = some (key, vi))
    (s2 : ConstHashHeap KT VT CAP)
    (hs2 : s2 = (if vi + 1 ≠ s.size
        then (ConstHashHeap.adjust (ConstHashHeap.swap
          ({ s with keys := s.keys.set h1 none,
                    vals := s.vals.set vi none } : ConstHashHeap KT VT CAP)
          vi (s.size - 1)) vi true).1
        else { s with keys := s.keys.set h1 none,
                      vals := s.vals.set vi none })) :
    ConstHashHeap.Inv ({ s2 with size := s2.size - 1 } : ConstHashHeap KT VT CAP)
    ∧ ConstHashHeap.CmpIs ({ s2 with size := s2.size - 1 } : ConstHashHeap KT VT CAP)
      mh := by
  obtain ⟨hsh, hx, hheap⟩ := hinv
  obtain ⟨hvilt, v0, hv0⟩ := chh_found_lt s key vi h1 hx hfound
  have hdef1 := chh_cmpis_def1 s mh hcmp
  have hdef2 := chh_cmpis_def2 s mh hcmp
  have hvlen : vi < s.vals.length := by
    have hc := hsh.2.2.2
    rw [hsh.2.1]
    omega
  have hh1len : h1 < s.keys.length := getD_some_lt s.keys h1 _ hfound
  have hkv1 : ConstHashHeap.KeyVal
      ({ s with keys := s.keys.set h1 none,
                vals := s.vals.set vi none } : ConstHashHeap KT VT CAP) := by
    constructor
    · intro i v2 ki2 hval
      show ∃ k, (s.keys.set h1 none).getD ki2 none = some (k, i)
      have hival : (s.vals.set vi none).getD i none = some (v2, ki2) := hval
      have hiv : i ≠ vi := by
        intro he
        rw [he, getD_set_self s.vals vi none none hvlen] at hival
        exact Option.noConfusion hival
      rw [getD_set_ne s.vals vi i none none (fun he => hiv he.symm)] at hival
      obtain ⟨k2, hk2⟩ := hx.2.1 i v2 ki2 hival
      have hki2 : ki2 ≠ h1 := by
        intro he
        rw [he, hfound] at hk2
        simp only [Option.some.injEq, Prod.mk.injEq] at hk2
        exact hiv hk2.2.symm
      rw [getD_set_ne s.keys h1 ki2 none none (fun he => hki2 he.symm)]
      exact ⟨k2, hk2⟩
    · intro h2 k2 vi3 hkey2
      show ∃ v, (s.vals.set vi none).getD vi3 none = some (v, h2)
      have hik : (s.keys.set h1 none).getD h2 none = some (k2, vi3) := hkey2
      have hh2 : h2 ≠ h1 := by
        intro he
        rw [he, getD_set_self s.keys h1 none none hh1len] at hik
        exact Option.noConfusion hik
      rw [getD_set_ne s.keys h1 h2 none none (fun he => hh2 he.symm)] at hik
      obtain ⟨v2, hv2⟩ := hx.2.2 h2 k2 vi3 hik
      have hvi3 : vi3 ≠ vi := by
        intro he
        rw [he, hv0] at hv2
        simp only [Option.some.injEq, Prod.mk.injEq] at hv2
        exact hh2 hv2.2.symm
      rw [getD_set_ne s.vals vi vi3 none none (fun he => hvi3 he.symm)]
      exact ⟨v2, hv2⟩
  by_cases hvs : vi + 1 = s.size
  · subst hs2
    rw [if_neg (not_not_intro hvs)]
    refine ⟨⟨⟨?_, ?_, ?_, ?_⟩, ⟨⟨?_, ?_⟩, hkv1⟩, ?_⟩, ?_⟩
    · show (s.keys.set h1 none).length = CAP
      rw [List.length_set]; exact hsh.1
    · show (s.vals.set vi none).length = CAP
      rw [List.length_set]; exact hsh.2.1
    · exact hsh.2.2.1
    · show s.size - 1 ≤ CAP
      have := hsh.2.2.2
      omega
    · intro j hj
      have hj2 : j < s.size - 1 := hj
      show ((s.vals.set vi none).getD j none).isSome
      rw [getD_set_ne s.vals vi j none none (by omega)]
      exact hx.1.1 j (by omega)
    · intro j hj
      have hj2 : s.size - 1 ≤ j := hj
      show (s.vals.set vi none).getD j none = none
      by_cases hjv : j = vi
      · rw [hjv, getD_set_self s.vals vi none none hvlen]
      · rw [getD_set_ne s.vals vi j none none (fun he => hjv he.symm)]
        exact hx.1.2 j (by omega)
    · intro c hc0 hcn
      have hcn2 : c < s.size - 1 := hcn
      have hpc : heapParent c ≤ c := by
        unfold heapParent
        omega
      show s.lessthan ((s.vals.set vi none).getD (heapParent c) default)
        ((s.vals.set vi none).getD c default) = false
      rw [getD_set_ne s.vals vi c none default (by omega),
          getD_set_ne s.vals vi (heapParent c) none default (by omega)]
      exact hheap c hc0 (by omega)
    · exact hcmp
  · have hlt2 : vi < s.size - 1 := by omega
    have hsz2 : 2 ≤ s.size := by omega
    subst hs2
    rw [if_pos hvs]
    set s1 : ConstHashHeap KT VT CAP :=
      { s with keys := s.keys.set h1 none, vals := s.vals.set vi none } with hs1def
    have hs1len : s1.vals.length = CAP := by
      show (s.vals.set vi none).length = CAP
      rw [List.length_set]; exact hsh.2.1
    have hlast := hx.1.1 (s.size - 1) (by omega)
    have hswconf := chh_swap_conf s1 vi (s.size - 1)
    have hkvSw := chh_swap_keyval s1 vi (s.size - 1)
      (by rw [hs1len]; have := hsh.2.2.2; omega)
      (by rw [hs1len]; have := hsh.2.2.2; omega) hkv1
    have hswvals : (ConstHashHeap.swap s1 vi (s.size - 1)).vals
        = (s.vals.set (s.size - 1) none).set vi (s.vals.getD (s.size - 1) none) := by
      rw [chh_swap_vals]
      have hX : (s.vals.set vi none).getD (s.size - 1) default
          = s.vals.getD (s.size - 1) none :=
        getD_set_ne s.vals vi (s.size - 1) none default (by omega)
      have hY : (s.vals.set vi none).getD vi default = none :=
        getD_set_self s.vals vi none default hvlen
      show ((s1.vals.set vi (s1.vals.getD (s.size - 1) default)).set (s.size - 1)
        (s1.vals.getD vi default)) = _
      show (((s.vals.set vi none).set vi ((s.vals.set vi none).getD (s.size - 1)
        default)).set (s.size - 1) ((s.vals.set vi none).getD vi default)) = _
      rw [hX, hY, List.set_set, List.set_comm _ _ _ (show vi ≠ s.size - 1 by omega)]
    have hoccSw : OccL (s.size - 1) (ConstHashHeap.swap s1 vi (s.size - 1)).vals := by
      rw [hswvals]
      constructor
      · intro j hj
        by_cases hjv : j = vi
        · rw [hjv, getD_set_self _ vi _ none
            (by rw [List.length_set, hsh.2.1]; have := hsh.2.2.2; omega)]
          exact hlast
        · rw [getD_set_ne _ vi j _ none (fun he => hjv he.symm),
              getD_set_ne s.vals (s.size - 1) j none none (by omega)]
          exact hx.1.1 j (by omega)
      · intro j hj
        rw [getD_set_ne _ vi j _ none (by omega)]
        by_cases hjl : j = s.size - 1
        · rw [hjl, getD_set_self s.vals (s.size - 1) none none
            (by rw [hsh.2.1]; have := hsh.2.2.2; omega)]
        · rw [getD_set_ne s.vals (s.size - 1) j none none (fun he => hjl he.symm)]
          exact hx.1.2 j (by omega)
    obtain ⟨pkv, pocc, pconf, pname⟩ := chh_adjust_pres
      (ConstHashHeap.swap s1 vi (s.size - 1)) vi (s.size - 1) true hlt2
      (by rw [hswconf.2.2.2.2.2, hs1len]; have := hsh.2.2.2; omega)
      (fun z => hdef1 z) hoccSw hkvSw
    have hheapR := chh_adjust_heap (ConstHashHeap.swap s1 vi (s.size - 1))
      (s.vals.set (s.size - 1) none) (s.vals.getD (s.size - 1) none) vi
      (s.size - 1) true
      (chh_cmpis_ltOk _ mh hcmp) (fun z => hdef1 z) (fun z => hdef2 z)
      hswvals
      (by rw [List.length_set, hsh.2.1]; have := hsh.2.2.2; omega)
      hlt2
      (by show s.size - 1 ≤ s.size; omega)
      (by
        intro j hj
        rw [getD_set_ne _ vi j _ none (by omega)]
        by_cases hjl : j = s.size - 1
        · rw [hjl, getD_set_self s.vals (s.size - 1) none none
            (by rw [hsh.2.1]; have := hsh.2.2.2; omega)]
        · rw [getD_set_ne s.vals (s.size - 1) j none none (fun he => hjl he.symm)]
          exact hx.1.2 j (by omega))
      (fun j hj hji => by
        rw [getD_set_ne s.vals (s.size - 1) j none none (by omega)]
        exact hx.1.1 j (by omega))
      (fun _ => by
        rw [getD_set_ne s.vals (s.size - 1) vi none none (by omega), hv0]
        rfl)
      hlast
      (by
        intro c hc0 hcn
        have hpc : heapParent c ≤ c := by
          unfold heapParent
          omega
        show (ConstHashHeap.swap s1 vi (s.size - 1)).lessthan
          ((s.vals.set (s.size - 1) none).getD (heapParent c) default)
          ((s.vals.set (s.size - 1) none).getD c default) = false
        rw [getD_set_ne s.vals (s.size - 1) c none default (by omega),
            getD_set_ne s.vals (s.size - 1) (heapParent c) none default (by omega)]
        exact hheap c hc0 (by omega))
      (fun h => Bool.noConfusion h)
    set R : ConstHashHeap KT VT CAP :=
      (ConstHashHeap.adjust (ConstHashHeap.swap s1 vi (s.size - 1)) vi true).1
      with hRdef
    have hRsize : R.size = s.size := pconf.2.1
    refine ⟨⟨⟨?_, ?_, ?_, ?_⟩, ⟨?_, ?_⟩, ?_⟩, ?_⟩
    · show R.keys.length = CAP
      rw [pconf.2.2.2.2.1, hswconf.2.2.2.2.1]
      show (s.keys.set h1 none).length = CAP
      rw [List.length_set]; exact hsh.1
    · show R.vals.length = CAP
      rw [pconf.2.2.2.2.2, hswconf.2.2.2.2.2]
      exact hs1len
    · show R.maxhashes.length = CAP
      rw [pconf.1, hswconf.1]
      exact hsh.2.2.1
    · show R.size - 1 ≤ CAP
      rw [hRsize]
      have := hsh.2.2.2
      omega
    · show OccL ({ R with size := R.size - 1 } : ConstHashHeap KT VT CAP).size
        ({ R with size := R.size - 1 } : ConstHashHeap KT VT CAP).vals
      show OccL (R.size - 1) R.vals
      rw [hRsize]
      exact pocc
    · exact pkv
    · show HeapD R.lessthan R.vals (R.size - 1)
      rw [hRsize, pconf.2.2.2.1]
      exact hheapR
    · show R.lessthan = ConstHashHeap.canonLt mh
      rw [pconf.2.2.2.1]
      exact hcmp

theorem chh_remove_opt_inv (mh : Bool) (s s' : ConstHashHeap KT VT CAP)
    (iopt : Option Nat) (key : KT) (r : Option (KT × VT))
    (hcmp : ConstHashHeap.CmpIs s mh) (hinv : ConstHashHeap.Inv s)
    (hrem : ConstHashHeap.remove_opt s iopt key = (r, s')) :
    ConstHashHeap.Inv s' ∧ ConstHashHeap.CmpIs s' mh := by
  unfold ConstHashHeap.remove_opt at hrem
  dsimp only at hrem
  cases iopt with
  | none =>
    cases hpr : ConstHashHeap.probe s key with
    | some p =>
      obtain ⟨vi, h⟩ := p
      rw [hpr] at hrem
      dsimp only at hrem
      have hfound := chh_probe_found s key vi h hpr
      simp only [Prod.mk.injEq] at hrem
      rw [← hrem.2]
      exact chh_remove_state_inv mh s key vi h hcmp hinv hfound _ rfl
    | none =>
      rw [hpr] at hrem
      dsimp only at hrem
      simp only [Prod.mk.injEq] at hrem
      rw [← hrem.2]
      exact ⟨hinv, hcmp⟩
  | some idx =>
    dsimp only at hrem
    by_cases hlen : idx < s.keys.length
    · rw [if_pos hlen] at hrem
      cases hk : s.keys.getD idx none with
      | some p =>
        obtain ⟨k, vi⟩ := p
        rw [hk] at hrem
        dsimp only at hrem
        by_cases hkey : k = key
        · rw [if_pos hkey] at hrem
          dsimp only at hrem
          have hfound : s.keys.getD idx none = some (key, vi) := by
            rw [hk, hkey]
          simp only [Prod.mk.injEq] at hrem
          rw [← hrem.2]
          exact chh_remove_state_inv mh s key vi idx hcmp hinv hfound _ rfl
        · rw [if_neg hkey] at hrem
          dsimp only at hrem
          cases hpr : ConstHashHeap.probe s key with
          | some p =>
            obtain ⟨vi2, h2⟩ := p
            rw [hpr] at hrem
            dsimp only at hrem
            have hfound := chh_probe_found s key vi2 h2 hpr
            simp only [Prod.mk.injEq] at hrem
            rw [← hrem.2]
            exact chh_remove_state_inv mh s key vi2 h2 hcmp hinv hfound _ rfl
          | none =>
            rw [hpr] at hrem
            dsimp only at hrem
            simp only [Prod.mk.injEq] at hrem
            rw [← hrem.2]
            exact ⟨hinv, hcmp⟩
      | none =>
        rw [hk] at hrem
        dsimp only at hrem
        cases hpr : ConstHashHeap.probe s key with
        | some p =>
          obtain ⟨vi2, h2⟩ := p
          rw [hpr] at hrem
          dsimp only at hrem
          have hfound := chh_probe_found s key vi2 h2 hpr
          simp only [Prod.mk.injEq] at hrem
          rw [← hrem.2]
          exact chh_remove_state_inv mh s key vi2 h2 hcmp hinv hfound _ rfl
        | none =>
          rw [hpr] at hrem
          dsimp only at hrem
          simp only [Prod.mk.injEq] at hrem
          rw [← hrem.2]
          exact ⟨hinv, hcmp⟩
    · rw [if_neg hlen] at hrem
      dsimp only at hrem
      cases hpr : ConstHashHeap.probe s key with
      | some p =>
        obtain ⟨vi2, h2⟩ := p
        rw [hpr] at hrem
        dsimp only at hrem
        have hfound := chh_probe_found s key vi2 h2 hpr
        simp only [Prod.mk.injEq] at hrem
        rw [← hrem.2]
        exact chh_remove_state_inv mh s key vi2 h2 hcmp hinv hfound _ rfl
      | none =>
        rw [hpr] at hrem
        dsimp only at hrem
        simp only [Prod.mk.injEq] at hrem
        rw [← hrem.2]
        exact ⟨hinv, hcmp⟩

theorem getD_take {α : Type} (l : List α) (m j : Nat) (d : α) (hj : j < m) :
    (l.take m).getD j d = l.getD j d := by
  rw [List.getD_eq_getElem?_getD, List.getD_eq_getElem?_getD, List.getElem?_take,
      if_pos hj]

theorem drop_eq_replicate_none {α : Type} (l : List (Option α)) (m : Nat)
    (h : ∀ j, m ≤ j → l.getD j none = none) :
    l.drop m = List.replicate (l.length - m) none := by
  refine List.eq_replicate_iff.2 ⟨by rw [List.length_drop], ?_⟩
  intro b hb
  obtain ⟨i, hi, he⟩ := List.mem_iff_getElem.1 hb
  rw [List.getElem_drop] at he
  have hx : l.getD (m+i) none = none := h (m+i) (by omega)
  rw [List.getD_eq_getElem?_getD,
      List.getElem?_eq_getElem (by rw [List.length_drop] at hi; omega)] at hx
  rw [← he]
  exact hx

theorem take_coe_eq_of_perm_region {α : Type} (l1 l2 : List (Option α)) (m : Nat)
    (hlen : l1.length = l2.length) (hperm : l1.Perm l2)
    (h1 : ∀ j, m ≤ j → l1.getD j none = none)
    (h2 : ∀ j, m ≤ j → l2.getD j none = none) :
    (↑(l1.take m) : Multiset (Option α)) = ↑(l2.take m) := by
  have e1 : (↑l1 : Multiset (Option α)) = ↑(l1.take m) + ↑(l1.drop m) := by
    conv_lhs => rw [← List.take_append_drop m l1]
    rfl
  have e2 : (↑l2 : Multiset (Option α)) = ↑(l2.take m) + ↑(l2.drop m) := by
    conv_lhs => rw [← List.take_append_drop m l2]
    rfl
  have hd1 := drop_eq_replicate_none l1 m h1
  have hd2 := drop_eq_replicate_none l2 m h2
  have hco : (↑l1 : Multiset (Option α)) = ↑l2 := Multiset.coe_eq_coe.2 hperm
  rw [e1, e2, hd1, hd2, hlen] at hco
  exact add_right_cancel hco

theorem chh_kill_keyval (s : ConstHashHeap KT VT CAP) (k0 : KT) (v0 : VT)
    (vi h1 : Nat) (hx : ConstHashHeap.Xref s)
    (hfound : s.keys.getD h1 none = some (k0, vi))
    (hv0 : s.vals.getD vi none = some (v0, h1))
    (hvlen : vi < s.vals.length) (hh1len : h1 < s.keys.length) :
    ConstHashHeap.KeyVal
      ({ s with keys := s.keys.set h1 none,
                vals := s.vals.set vi none } : ConstHashHeap KT VT CAP) := by
  constructor
  · intro i v2 ki2 hval
    show ∃ k, (s.keys.set h1 none).getD ki2 none = some (k, i)
    have hival : (s.vals.set vi none).getD i none = some (v2, ki2) := hval
    have hiv : i ≠ vi := by
      intro he
      rw [he, getD_set_self s.vals vi none none hvlen] at hival
      exact Option.noConfusion hival
    rw [getD_set_ne s.vals vi i none none (fun he => hiv he.symm)] at hival
    obtain ⟨k2, hk2⟩ := hx.2.1 i v2 ki2 hival
    have hki2 : ki2 ≠ h1 := by
      intro he
      rw [he, hfound] at hk2
      simp only [Option.some.injEq, Prod.mk.injEq] at hk2
      exact hiv hk2.2.symm
    rw [getD_set_ne s.keys h1 ki2 none none (fun he => hki2 he.symm)]
    exact ⟨k2, hk2⟩
  · intro h2 k2 vi3 hkey2
    show ∃ v, (s.vals.set vi none).getD vi3 none = some (v, h2)
    have hik : (s.keys.set h1 none).getD h2 none = some (k2, vi3) := hkey2
    have hh2 : h2 ≠ h1 := by
      intro he
      rw [he, getD_set_self s.keys h1 none none hh1len] at hik
      exact Option.noConfusion hik
    rw [getD_set_ne s.keys h1 h2 none none (fun he => hh2 he.symm)] at hik
    obtain ⟨v2, hv2⟩ := hx.2.2 h2 k2 vi3 hik
    have hvi3 : vi3 ≠ vi := by
      intro he
      rw [he, hv0] at hv2
      simp only [Option.some.injEq, Prod.mk.injEq] at hv2
      exact hh2 hv2.2.symm
    rw [getD_set_ne s.vals vi vi3 none none (fun he => hvi3 he.symm)]
    exact ⟨v2, hv2⟩

theorem chh_pop_empty (s : ConstHashHeap KT VT CAP) (h : s.size = 0) :
    ConstHashHeap.pop s = (none, s) := by
  unfold ConstHashHeap.pop
  rw [if_pos (by omega)]

theorem chh_pop_spec (mh : Bool) (s : ConstHashHeap KT VT CAP)
    (hcmp : ConstHashHeap.CmpIs s mh) (hinv : ConstHashHeap.Inv s)
    (hpos : 0 < s.size) :
    ∃ K v0 ki s',
      s.vals.getD 0 none = some (v0, ki)
      ∧ ConstHashHeap.pop s = (some (K, v0), s')
      ∧ ConstHashHeap.Inv s' ∧ ConstHashHeap.CmpIs s' mh
      ∧ s'.size = s.size - 1
      ∧ ConstHashHeap.pairsOfC s = (some K, some v0) ::ₘ ConstHashHeap.pairsOfC s'
      ∧ ∀ y ∈ s.vals.take s.size, s.lessthan (some (v0, ki)) y = false := by
  obtain ⟨hsh, hx, hheap⟩ := hinv
  have hdef1 := chh_cmpis_def1 s mh hcmp
  have hdef2 := chh_cmpis_def2 s mh hcmp
  have hok := chh_cmpis_ltOk s mh hcmp
  have hvlen : s.vals.length = CAP := hsh.2.1
  have hszC : s.size ≤ CAP := hsh.2.2.2
  have hroot := hx.1.1 0 hpos
  cases hr0 : s.vals.getD 0 none with
  | none =>
    rw [hr0] at hroot
    exact Bool.noConfusion hroot
  | some p =>
    obtain ⟨v0, ki⟩ := p
    obtain ⟨k0, hk0⟩ := hx.2.1 0 v0 ki hr0
    have hkilen : ki < s.keys.length := getD_some_lt s.keys ki _ hk0
    have hext : ∀ y ∈ s.vals.take s.size, s.lessthan (some (v0, ki)) y = false := by
      intro y hy
      obtain ⟨j, hj, hje⟩ := mem_getD_index (s.vals.take s.size) y hy
      have hjlt : j < s.size := by
        rw [List.length_take] at hj
        omega
      have hjv : (s.vals.take s.size).getD j default = s.vals.getD j default :=
        getD_take s.vals s.size j default hjlt
      have hr := heapD_root hok (fun j2 hj2 => hx.1.1 j2 hj2) hheap j hjlt
      have hr0d : s.vals.getD 0 default = some (v0, ki) := hr0
      rw [← hje, hjv, ← hr0d]
      exact hr
    have hkv1 : ConstHashHeap.KeyVal
        ({ s with keys := s.keys.set ki none, vals := s.vals.set 0 none,
                  size := s.size - 1 } : ConstHashHeap KT VT CAP) :=
      chh_kill_keyval s k0 v0 0 ki hx hk0 hr0 (by omega) hkilen
    have hpop : ConstHashHeap.pop s = (some (k0, v0),
        (if 0 < s.size - 1
         then (ConstHashHeap.swapdown (ConstHashHeap.swap
           ({ s with keys := s.keys.set ki none, vals := s.vals.set 0 none,
                     size := s.size - 1 } : ConstHashHeap KT VT CAP)
           0 (s.size - 1)) 0).1
         else { s with keys := s.keys.set ki none, vals := s.vals.set 0 none,
                       size := s.size - 1 })) := by
      unfold ConstHashHeap.pop
      dsimp only
      rw [if_neg (show ¬ s.size < 1 by omega), hr0]
      dsimp only
      rw [hk0]
    by_cases hn1 : 0 < s.size - 1
    · -- at least two entries: the last entry moves to the root and sifts down
      have hsz2 : 2 ≤ s.size := by omega
      rw [if_pos hn1] at hpop
      set s1a : ConstHashHeap KT VT CAP :=
        { s with keys := s.keys.set ki none, vals := s.vals.set 0 none,
                 size := s.size - 1 } with hs1adef
      have hlast := hx.1.1 (s.size - 1) (by omega)
      set last : Option (VT × Nat) := s.vals.getD (s.size - 1) none with hlastdef
      have hs1alen : s1a.vals.length = CAP := by
        show (s.vals.set 0 none).length = CAP
        rw [List.length_set]
        exact hvlen
      have hkvSw := chh_swap_keyval s1a 0 (s.size - 1)
        (by rw [hs1alen]; omega) (by rw [hs1alen]; omega) hkv1
      have hswconf := chh_swap_conf s1a 0 (s.size - 1)
      have hswvals : (ConstHashHeap.swap s1a 0 (s.size - 1)).vals
          = (s.vals.set (s.size - 1) none).set 0 last := by
        rw [chh_swap_vals]
        have hX : (s.vals.set 0 none).getD (s.size - 1) default = last :=
          getD_set_ne s.vals 0 (s.size - 1) none default (by omega)
        have hY : (s.vals.set 0 none).getD 0 default = none :=
          getD_set_self s.vals 0 none default (by rw [hvlen]; omega)
        show ((s.vals.set 0 none).set 0 ((s.vals.set 0 none).getD (s.size - 1)
          default)).set (s.size - 1) ((s.vals.set 0 none).getD 0 default) = _
        rw [hX, hY, List.set_set,
            List.set_comm _ _ _ (show (0:Nat) ≠ s.size - 1 by omega)]
      have hoccSw : OccL (s.size - 1) (ConstHashHeap.swap s1a 0 (s.size - 1)).vals := by
        rw [hswvals]
        constructor
        · intro j hj
          by_cases hj0 : j = 0
          · rw [hj0, getD_set_self _ 0 last none
              (by rw [List.length_set, hvlen]; omega)]
            exact hlast
          · rw [getD_set_ne _ 0 j last none (fun he => hj0 he.symm),
                getD_set_ne s.vals (s.size - 1) j none none (by omega)]
            exact hx.1.1 j (by omega)
        · intro j hj
          rw [getD_set_ne _ 0 j last none (by omega)]
          by_cases hjl : j = s.size - 1
          · rw [hjl, getD_set_self s.vals (s.size - 1) none none (by rw [hvlen]; omega)]
          · rw [getD_set_ne s.vals (s.size - 1) j none none (fun he => hjl he.symm)]
            exact hx.1.2 j (by omega)
      set sSw : ConstHashHeap KT VT CAP := ConstHashHeap.swap s1a 0 (s.size - 1)
        with hsSwdef
      have hokSw : LtOk sSw.lessthan (fun z => z.isSome = true) := hok
      have hdvals : (ConstHashHeap.swapdownGo sSw 0 (sSw.size + 1)).1.vals
          = (siftDownGo sSw.lessthan sSw.size sSw.vals 0 (sSw.size + 1)).1 :=
        congrArg Prod.fst (chh_swapdownGo_proj (sSw.size + 1) sSw 0)
      obtain ⟨pkv, pocc, pconf, pname⟩ := chh_swapdownGo_pres (sSw.size + 1) sSw 0
        (s.size - 1) hn1
        (by rw [hswconf.2.2.2.2.2, hs1alen]; omega)
        (fun z => hdef1 z) hoccSw hkvSw
      set R : ConstHashHeap KT VT CAP := (ConstHashHeap.swapdown sSw 0).1 with hRdef
      have hRvals : R.vals
          = (siftDownGo sSw.lessthan sSw.size sSw.vals 0 (sSw.size + 1)).1 := hdvals
      have pconfR : ConstHashHeap.SameConfC sSw R := pconf
      have pkvR : ConstHashHeap.KeyVal R := pkv
      have poccR : OccL (s.size - 1) R.vals := pocc
      have pnameR : ∀ x, ConstHashHeap.keyName R x = ConstHashHeap.keyName sSw x :=
        pname
      have hRsize : R.size = s.size - 1 := pconfR.2.1
      have hheapR : HeapD sSw.lessthan R.vals (s.size - 1) := by
        have hmain := siftDown_root_heap hokSw
          (s.vals.set (s.size - 1) none) last (s.size - 1)
          (by rw [List.length_set, hvlen]; omega)
          (by rw [List.length_set, hvlen]; omega)
          (by
            intro c hc0 hcn
            have hpc : heapParent c ≤ c := by
              unfold heapParent
              omega
            show sSw.lessthan
              ((s.vals.set (s.size - 1) none).getD (heapParent c) default)
              ((s.vals.set (s.size - 1) none).getD c default) = false
            rw [getD_set_ne s.vals (s.size - 1) c none default (by omega),
                getD_set_ne s.vals (s.size - 1) (heapParent c) none default (by omega)]
            exact hheap c hc0 (by omega))
          (fun j hj hj0 => by
            rw [getD_set_ne s.vals (s.size - 1) j none default (by omega)]
            exact hx.1.1 j (by omega))
          hlast
          (sSw.size + 1) (by omega)
          (by show s.size - 1 ≤ s.size - 1 + 1; omega)
        rw [hRvals]
        have hsz : sSw.size = s.size - 1 := rfl
        rw [hsz, hswvals]
        exact hmain
      refine ⟨k0, v0, ki, R, rfl, hpop, ⟨⟨?_, ?_, ?_, ?_⟩, ⟨?_, pkvR⟩, ?_⟩,
        ?_, hRsize, ?_, hext⟩
      · show R.keys.length = CAP
        rw [pconfR.2.2.2.2.1, hswconf.2.2.2.2.1]
        show (s.keys.set ki none).length = CAP
        rw [List.length_set]
        exact hsh.1
      · show R.vals.length = CAP
        rw [pconfR.2.2.2.2.2, hswconf.2.2.2.2.2]
        exact hs1alen
      · show R.maxhashes.length = CAP
        rw [pconfR.1, hswconf.1]
        exact hsh.2.2.1
      · show R.size ≤ CAP
        rw [hRsize]
        omega
      · show OccL R.size R.vals
        rw [hRsize]
        exact poccR
      · show HeapD R.lessthan R.vals R.size
        rw [hRsize, pconfR.2.2.2.1]
        exact hheapR
      · show R.lessthan = ConstHashHeap.canonLt mh
        rw [pconfR.2.2.2.1]
        exact hcmp
      · -- the stored-pairs multiset identity
        have hperm : R.vals.Perm sSw.vals := by
          rw [hRvals]
          exact siftDownGo_perm sSw.lessthan sSw.size (sSw.size + 1) sSw.vals 0
            (by
              show s.size - 1 ≤ sSw.vals.length
              rw [hswconf.2.2.2.2.2, hs1alen]
              omega)
        have hlenR : R.vals.length = sSw.vals.length := pconfR.2.2.2.2.2
        have htakeEq : (↑(R.vals.take (s.size - 1)) : Multiset (Option (VT × Nat)))
            = ↑(sSw.vals.take (s.size - 1)) :=
          take_coe_eq_of_perm_region R.vals sSw.vals (s.size - 1) hlenR hperm
            poccR.2 hoccSw.2
        have hTne : s.vals.take (s.size - 1) ≠ [] := by
          intro he
          have hl := congrArg List.length he
          rw [List.length_take] at hl
          simp only [List.length_nil] at hl
          omega
        have hTcons := List.head_cons_tail (s.vals.take (s.size - 1)) hTne
        have hhead : (s.vals.take (s.size - 1)).head hTne = some (v0, ki) := by
          have h0 : (s.vals.take (s.size - 1)).getD 0 none = some (v0, ki) := by
            rw [getD_take s.vals (s.size - 1) 0 none (by omega)]
            exact hr0
          rw [← hTcons] at h0
          exact h0
        have hsetid : (s.vals.take (s.size - 1)).set (s.size - 1) none
            = s.vals.take (s.size - 1) :=
          List.set_eq_of_length_le (by rw [List.length_take]; omega)
        have hswtake : sSw.vals.take (s.size - 1)
            = last :: (s.vals.take (s.size - 1)).tail := by
          rw [hswvals, List.set_take, List.set_take, hsetid]
          conv_lhs => rw [← hTcons]
          rfl
        have hg2 : s.vals[s.size - 1]? = some last := by
          rw [hlastdef, List.getD_eq_getElem?_getD]
          cases hq : s.vals[s.size - 1]? with
          | none =>
            have hb := List.getElem?_eq_none_iff.1 hq
            rw [hvlen] at hb
            omega
          | some a => rfl
        have hvalstake : s.vals.take s.size
            = (s.vals.take (s.size - 1)) ++ [last] := by
          have h1 : s.size = (s.size - 1) + 1 := by omega
          conv_lhs => rw [h1]
          rw [List.take_succ, hg2]
          rfl
        have hpermA : (s.vals.take s.size).Perm
            (some (v0, ki) :: sSw.vals.take (s.size - 1)) := by
          rw [hvalstake, hswtake]
          have hp1 : ((s.vals.take (s.size - 1)) ++ [last]).Perm
              (last :: (s.vals.take (s.size - 1))) := List.perm_append_singleton _ _
          have hp2 : (last :: (s.vals.take (s.size - 1))).Perm
              (some (v0, ki) :: last :: (s.vals.take (s.size - 1)).tail) := by
            conv_lhs => rw [← hTcons]
            rw [hhead]
            exact List.Perm.swap _ _ _
          exact hp1.trans hp2
        have hptwise : ∀ x ∈ sSw.vals.take (s.size - 1),
            (ConstHashHeap.keyName s x, x.map (fun p => p.1))
            = (ConstHashHeap.keyName s1a x, x.map (fun p => p.1)) := by
          intro x hxm
          obtain ⟨j, hj, hje⟩ := mem_getD_index (sSw.vals.take (s.size - 1)) x hxm
          have hjb : j < s.size - 1 := by
            rw [List.length_take] at hj
            omega
          have hxj : x = sSw.vals.getD j default := by
            rw [← hje, getD_take sSw.vals (s.size - 1) j default hjb]
          have hxval : ∃ jx, 0 < jx ∧ jx < s.size ∧ x = s.vals.getD jx none := by
            rw [hswvals] at hxj
            by_cases hj0 : j = 0
            · refine ⟨s.size - 1, by omega, by omega, ?_⟩
              rw [hxj, hj0, getD_set_self _ 0 last default
                (by rw [List.length_set, hvlen]; omega)]
            · refine ⟨j, by omega, by omega, ?_⟩
              rw [hxj, getD_set_ne _ 0 j last default (fun he => hj0 he.symm),
                  getD_set_ne s.vals (s.size - 1) j none default (by omega)]
              rfl
          obtain ⟨jx, hjx0, hjxn, hxe⟩ := hxval
          have hxs := hx.1.1 jx hjxn
          cases hxv : s.vals.getD jx none with
          | none =>
            rw [hxv] at hxs
            exact Bool.noConfusion hxs
          | some q =>
            obtain ⟨vx, cx⟩ := q
            obtain ⟨kx, hkx⟩ := hx.2.1 jx vx cx hxv
            have hcxki : cx ≠ ki := by
              intro he
              rw [he, hk0] at hkx
              simp only [Option.some.injEq, Prod.mk.injEq] at hkx
              omega
            rw [hxe, hxv]
            show (ConstHashHeap.keyName s (some (vx, cx)), _)
              = (ConstHashHeap.keyName s1a (some (vx, cx)), _)
            have he1 : ConstHashHeap.keyName s (some (vx, cx))
                = ConstHashHeap.keyName s1a (some (vx, cx)) := by
              show (s.keys.getD cx none).map (fun q => q.1)
                = ((s.keys.set ki none).getD cx none).map (fun q => q.1)
              rw [getD_set_ne s.keys ki cx none none (fun he => hcxki he.symm)]
            rw [he1]
        show ConstHashHeap.pairsOfC s = (some k0, some v0) ::ₘ ConstHashHeap.pairsOfC R
        unfold ConstHashHeap.pairsOfC
        have hkn : ConstHashHeap.keyName s (some (v0, ki)) = some k0 := by
          show (s.keys.getD ki none).map (fun q => q.1) = some k0
          rw [hk0]
          rfl
        have hfunR : (fun x : Option (VT × Nat) =>
            (ConstHashHeap.keyName R x, x.map (fun p => p.1)))
            = (fun x => (ConstHashHeap.keyName s1a x, x.map (fun p => p.1))) := by
          funext x
          rw [pnameR x]
          show (ConstHashHeap.keyName sSw x, _) = _
          rw [chh_keyName_swap s1a 0 (s.size - 1) x]
        have hm1 : ((s.vals.take s.size).map (fun x =>
            (ConstHashHeap.keyName s x, x.map (fun p => p.1)))).Perm
            ((some (v0, ki) :: sSw.vals.take (s.size - 1)).map (fun x =>
              (ConstHashHeap.keyName s x, x.map (fun p => p.1)))) :=
          hpermA.map _
        have hm2 : ((some (v0, ki) :: sSw.vals.take (s.size - 1)).map (fun x =>
            (ConstHashHeap.keyName s x, x.map (fun p => p.1))))
            = (some k0, some v0) :: ((sSw.vals.take (s.size - 1)).map (fun x =>
              (ConstHashHeap.keyName s1a x, x.map (fun p => p.1)))) := by
          rw [List.map_cons, hkn]
          rw [List.map_congr_left hptwise]
          show ((some k0, (some (v0, ki)).map (fun p => p.1)) :: _ : List _) = _
          rfl
        rw [Multiset.coe_eq_coe.2 hm1, hm2, hRsize, hfunR]
        rw [← Multiset.cons_coe]
        have hms : (↑((sSw.vals.take (s.size - 1)).map (fun x =>
            (ConstHashHeap.keyName s1a x, x.map (fun p => p.1))))
              : Multiset (Option KT × Option VT))
            = ↑((R.vals.take (s.size - 1)).map (fun x =>
              (ConstHashHeap.keyName s1a x, x.map (fun p => p.1)))) := by
          have e1 : (↑((sSw.vals.take (s.size - 1)).map (fun x =>
              (ConstHashHeap.keyName s1a x, x.map (fun p => p.1))))
                : Multiset (Option KT × Option VT))
              = Multiset.map (fun x => (ConstHashHeap.keyName s1a x,
                  x.map (fun p => p.1))) ↑(sSw.vals.take (s.size - 1)) := rfl
          have e2 : (↑((R.vals.take (s.size - 1)).map (fun x =>
              (ConstHashHeap.keyName s1a x, x.map (fun p => p.1))))
                : Multiset (Option KT × Option VT))
              = Multiset.map (fun x => (ConstHashHeap.keyName s1a x,
                  x.map (fun p => p.1))) ↑(R.vals.take (s.size - 1)) := rfl
          rw [e1, e2, htakeEq]
        rw [hms]
    · -- one element: the structure is emptied without any swap
      have hsz1 : s.size = 1 := by omega
      rw [if_neg hn1] at hpop
      set s1a : ConstHashHeap KT VT CAP :=
        { s with keys := s.keys.set ki none, vals := s.vals.set 0 none,
                 size := s.size - 1 } with hs1adef
      refine ⟨k0, v0, ki, s1a, rfl, hpop, ⟨⟨?_, ?_, ?_, ?_⟩, ⟨⟨?_, ?_⟩, hkv1⟩, ?_⟩,
        hcmp, rfl, ?_, hext⟩
      · show (s.keys.set ki none).length = CAP
        rw [List.length_set]; exact hsh.1
      · show (s.vals.set 0 none).length = CAP
        rw [List.length_set]; exact hvlen
      · exact hsh.2.2.1
      · show s.size - 1 ≤ CAP
        omega
      · intro j hj
        have hj2 : j < s.size - 1 := hj
        exact absurd hj2 (by omega)
      · intro j hj
        show (s.vals.set 0 none).getD j none = none
        by_cases hj0 : j = 0
        · rw [hj0, getD_set_self s.vals 0 none none (by omega)]
        · rw [getD_set_ne s.vals 0 j none none (fun he => hj0 he.symm)]
          exact hx.1.2 j (by omega)
      · intro c hc0 hcn
        have hcn2 : c < s.size - 1 := hcn
        exact absurd hcn2 (by omega)
      · show ConstHashHeap.pairsOfC s = _
        unfold ConstHashHeap.pairsOfC
        have ht1 : s.vals.take s.size = [some (v0, ki)] := by
          rw [hsz1, List.take_succ,
              List.getElem?_eq_getElem (show 0 < s.vals.length by omega)]
          have hg0 : s.vals[0] = some (v0, ki) := by
            have := hr0
            rw [List.getD_eq_getElem?_getD,
                List.getElem?_eq_getElem (show 0 < s.vals.length by omega)] at this
            exact this
          rw [hg0]
          rfl
        have ht2 : s1a.vals.take s1a.size = [] := by
          show (s.vals.set 0 none).take (s.size - 1) = []
          rw [show s.size - 1 = 0 by omega]
          rfl
        rw [ht1, ht2]
        show ↑([some (v0, ki)].map
            (fun x => (ConstHashHeap.keyName s x, x.map (fun p => p.1))))
          = (some k0, some v0) ::ₘ ↑(([] : List (Option (VT × Nat))).map
            (fun x => (ConstHashHeap.keyName s1a x, x.map (fun p => p.1))))
        have hkn : ConstHashHeap.keyName s (some (v0, ki)) = some k0 := by
          unfold ConstHashHeap.keyName
          show (s.keys.getD ki none).map (fun q => q.1) = some k0
          rw [hk0]
          rfl
        rw [List.map_cons, hkn]
        rfl

theorem canonLt_nat_irrel (mh : Bool) (a b : VT) (i j i2 j2 : Nat) :
    ConstHashHeap.canonLt mh (some (a, i)) (some (b, j))
      = ConstHashHeap.canonLt mh (some (a, i2)) (some (b, j2)) := by
  cases mh <;> rfl

theorem chh_reach_inv (s : ConstHashHeap KT VT CAP) (hr : ConstHashHeap.Reach s) :
    ConstHashHeap.Inv s ∧ ∃ mh, ConstHashHeap.CmpIs s mh := by
  induction hr with
  | init maxheap hf =>
    have hrepv : ∀ j, (List.replicate CAP (none : Option (VT × Nat))).getD j none
        = none := by
      intro j
      by_cases hj : j < CAP
      · rw [List.getD_eq_getElem?_getD, List.getElem?_replicate, if_pos hj]
        rfl
      · exact getD_oob _ _ _ (by rw [List.length_replicate]; omega)
    have hrepk : ∀ j, (List.replicate CAP (none : Option (KT × Nat))).getD j none
        = none := by
      intro j
      by_cases hj : j < CAP
      · rw [List.getD_eq_getElem?_getD, List.getElem?_replicate, if_pos hj]
        rfl
      · exact getD_oob _ _ _ (by rw [List.length_replicate]; omega)
    refine ⟨⟨⟨?_, ?_, ?_, ?_⟩, ⟨⟨?_, ?_⟩, ⟨?_, ?_⟩⟩, ?_⟩, maxheap, ?_⟩
    · exact List.length_replicate CAP none
    · exact List.length_replicate CAP none
    · exact List.length_replicate CAP 0
    · show 0 ≤ CAP
      omega
    · intro j hj
      have hj2 : j < 0 := hj
      exact absurd hj2 (by omega)
    · intro j _
      exact hrepv j
    · intro i v ki hv
      have hv2 : (List.replicate CAP (none : Option (VT × Nat))).getD i none
          = some (v, ki) := hv
      rw [hrepv i] at hv2
      exact Option.noConfusion hv2
    · intro h k vi hk
      have hk2 : (List.replicate CAP (none : Option (KT × Nat))).getD h none
          = some (k, vi) := hk
      rw [hrepk h] at hk2
      exact Option.noConfusion hk2
    · intro c hc0 hcn
      have hcn2 : c < 0 := hcn
      exact absurd hcn2 (by omega)
    · rfl
  | insert s s' fuel k v b hre hstep ih =>
    obtain ⟨hInv, mh, hcmp⟩ := ih
    obtain ⟨hInv2, hcmp2⟩ := chh_insert_inv mh fuel s s' k v b hcmp hInv hstep
    exact ⟨hInv2, mh, hcmp2⟩
  | modify s s' iopt k f r hre hstep ih =>
    obtain ⟨hInv, mh, hcmp⟩ := ih
    obtain ⟨hInv2, hcmp2⟩ := chh_modify_opt_inv mh s s' iopt k f r hcmp hInv hstep
    exact ⟨hInv2, mh, hcmp2⟩
  | remove s s' iopt k r hre hstep ih =>
    obtain ⟨hInv, mh, hcmp⟩ := ih
    obtain ⟨hInv2, hcmp2⟩ := chh_remove_opt_inv mh s s' iopt k r hcmp hInv hstep
    exact ⟨hInv2, mh, hcmp2⟩
  | pop s s' r hre hstep ih =>
    obtain ⟨hInv, mh, hcmp⟩ := ih
    rcases Nat.eq_zero_or_pos s.size with h0 | h0
    · rw [chh_pop_empty s h0] at hstep
      simp only [Prod.mk.injEq] at hstep
      rw [← hstep.2]
      exact ⟨hInv, mh, hcmp⟩
    · obtain ⟨K, v0, ki, s2, _, hpop, hInv2, hcmp2, _, _, _⟩ :=
        chh_pop_spec mh s hcmp hInv h0
      rw [hpop] at hstep
      simp only [Prod.mk.injEq] at hstep
      rw [← hstep.2]
      exact ⟨hInv2, mh, hcmp2⟩

theorem chh_drainGo_succ (s : ConstHashHeap KT VT CAP) (fuel : Nat) :
    ConstHashHeap.drainGo s (fuel+1)
      = match ConstHashHeap.pop s with
        | (some p, s2) =>
          ((p :: (ConstHashHeap.drainGo s2 fuel).1 : List (KT × VT)),
            (ConstHashHeap.drainGo s2 fuel).2)
        | (none, s2) => ([], s2) := rfl

theorem chh_drainGo_spec (fuel : Nat) :
    ∀ (s : ConstHashHeap KT VT CAP) (mh : Bool), ConstHashHeap.Inv s →
      ConstHashHeap.CmpIs s mh → s.size < fuel →
      List.Pairwise (fun (p q : KT × VT) =>
        ConstHashHeap.canonLt mh (some (p.2, 0)) (some (q.2, 0)) = false)
        (ConstHashHeap.drainGo s fuel).1
      ∧ ConstHashHeap.pairsOfC s
          = ((ConstHashHeap.drainGo s fuel).1.map
              (fun p => ((some p.1 : Option KT), (some p.2 : Option VT)))
            : Multiset (Option KT × Option VT))
      ∧ (ConstHashHeap.drainGo s fuel).2.size = 0 := by
  induction fuel with
  | zero =>
    intro s mh _ _ hlt
    omega
  | succ f ih =>
    intro s mh hInv hcmp hflt
    rcases Nat.eq_zero_or_pos s.size with h0 | h0
    · rw [chh_drainGo_succ, chh_pop_empty s h0]
      refine ⟨List.Pairwise.nil, ?_, h0⟩
      unfold ConstHashHeap.pairsOfC
      rw [h0]
      rfl
    · obtain ⟨K, v0, ki, s2, hr0, hpop, hInv2, hcmp2, hsz2, hpairs2, hext2⟩ :=
        chh_pop_spec mh s hcmp hInv h0
      rw [chh_drainGo_succ, hpop]
      obtain ⟨ihp, ihm, ihz⟩ := ih s2 mh hInv2 hcmp2 (by omega)
      refine ⟨?_, ?_, ihz⟩
      · refine List.Pairwise.cons ?_ ihp
        intro q hq
        have hqm : ((some q.1 : Option KT), (some q.2 : Option VT))
            ∈ (ConstHashHeap.drainGo s2 f).1.map
              (fun p => ((some p.1 : Option KT), (some p.2 : Option VT))) :=
          List.mem_map_of_mem _ hq
        have hqm2 : ((some q.1 : Option KT), (some q.2 : Option VT))
            ∈ ConstHashHeap.pairsOfC s2 := by
          rw [ihm]
          exact hqm
        have hqm3 : ((some q.1 : Option KT), (some q.2 : Option VT))
            ∈ ConstHashHeap.pairsOfC s := by
          rw [hpairs2]
          exact Multiset.mem_cons_of_mem hqm2
        unfold ConstHashHeap.pairsOfC at hqm3
        rw [Multiset.mem_coe, List.mem_map] at hqm3
        obtain ⟨y, hy, hye⟩ := hqm3
        have hv : y.map (fun p => p.1) = some q.2 := congrArg Prod.snd hye
        cases hyv : y with
        | none =>
          rw [hyv] at hv
          exact Option.noConfusion hv
        | some w =>
          obtain ⟨wv, wc⟩ := w
          rw [hyv] at hv hy
          simp only [Option.map_some', Option.some.injEq] at hv
          have hex := hext2 (some (wv, wc)) hy
          rw [hcmp] at hex
          rw [hv] at hex
          rw [canonLt_nat_irrel mh v0 q.2 0 0 ki wc]
          exact hex
      · rw [hpairs2, ihm, List.map_cons]
        rw [← Multiset.cons_coe]

theorem chh_drain_spec (s : ConstHashHeap KT VT CAP) (mh : Bool)
    (hInv : ConstHashHeap.Inv s) (hcmp : ConstHashHeap.CmpIs s mh) :
    List.Pairwise (fun (p q : KT × VT) =>
      ConstHashHeap.canonLt mh (some (p.2, 0)) (some (q.2, 0)) = false)
      (ConstHashHeap.drain s).1
    ∧ ConstHashHeap.pairsOfC s
        = ((ConstHashHeap.drain s).1.map
            (fun p => ((some p.1 : Option KT), (some p.2 : Option VT)))
          : Multiset (Option KT × Option VT))
    ∧ (ConstHashHeap.drain s).2.size = 0 :=
  chh_drainGo_spec (s.size + 1) s mh hInv hcmp (by omega)

end ConstState

/-! ## C1: draining a reachable instance of either variant -/

/-- C1: on any instance of either variant reachable by insert/push/modify/
remove/pop, repeatedly calling `pop` until it reports absence (which is what
the consuming iterators do) yields exactly the stored key-value pairs — in
non-decreasing value order for a min-discipline instance and non-increasing
order for a max-discipline instance — and leaves the structure empty, after
which `pop` reports absence. -/
theorem c1_drain_sorted {KT VT : Type} [DecidableEq KT] [LinearOrder VT]
    [Inhabited VT] {CAP : Nat}
    (s : HashHeap KT VT) (hs : HashHeap.Reach s)
    (t : ConstHashHeap KT VT CAP) (mh : Bool)
    (ht : ConstHashHeap.Reach t) (hmh : ConstHashHeap.CmpIs t mh) :
    ((s.minmax = false →
        List.Pairwise (fun (p q : KT × VT) => p.2 ≤ q.2) (HashHeap.drain s).1)
      ∧ (s.minmax = true →
        List.Pairwise (fun (p q : KT × VT) => q.2 ≤ p.2) (HashHeap.drain s).1)
      ∧ HashHeap.pairsOf s
          = ((HashHeap.drain s).1.map (fun p => ((some p.1 : Option KT), p.2))
            : Multiset (Option KT × VT))
      ∧ (HashHeap.drain s).2.vals.length = 0
      ∧ HashHeap.pop (HashHeap.drain s).2 = some (none, (HashHeap.drain s).2))
    ∧ ((mh = false →
        List.Pairwise (fun (p q : KT × VT) => p.2 ≤ q.2) (ConstHashHeap.drain t).1)
      ∧ (mh = true →
        List.Pairwise (fun (p q : KT × VT) => q.2 ≤ p.2) (ConstHashHeap.drain t).1)
      ∧ ConstHashHeap.pairsOfC t
          = ((ConstHashHeap.drain t).1.map
              (fun p => ((some p.1 : Option KT), (some p.2 : Option VT)))
            : Multiset (Option KT × Option VT))
      ∧ (ConstHashHeap.drain t).2.size = 0
      ∧ ConstHashHeap.pop (ConstHashHeap.drain t).2
          = (none, (ConstHashHeap.drain t).2)) := by
  obtain ⟨hInvG, hcc⟩ := hh_reach_inv s hs
  obtain ⟨hpG, hmG, hzG⟩ := hh_drain_spec s hInvG (hh_ltOk_canon s hcc)
  obtain ⟨hInvC, _⟩ := chh_reach_inv t ht
  obtain ⟨hpC, hmC, hzC⟩ := chh_drain_spec t mh hInvC hmh
  refine ⟨⟨?_, ?_, hmG, hzG, hh_pop_empty _ hzG⟩,
    ⟨?_, ?_, hmC, hzC, chh_pop_empty _ hzC⟩⟩
  · intro hmin
    refine hpG.imp ?_
    intro a b hab
    rw [hcc, hmin] at hab
    have hab2 : decide (b.2 < a.2) = false := hab
    exact le_of_not_lt (of_decide_eq_false hab2)
  · intro hmax
    refine hpG.imp ?_
    intro a b hab
    rw [hcc, hmax] at hab
    have hab2 : decide (a.2 < b.2) = false := hab
    exact le_of_not_lt (of_decide_eq_false hab2)
  · intro hmin
    refine hpC.imp ?_
    intro a b hab
    rw [hmin] at hab
    have hab2 : decide (b.2 < a.2) = false := hab
    exact le_of_not_lt (of_decide_eq_false hab2)
  · intro hmax
    refine hpC.imp ?_
    intro a b hab
    rw [hmax] at hab
    have hab2 : decide (a.2 < b.2) = false := hab
    exact le_of_not_lt (of_decide_eq_false hab2)

/-- C1 witness: the claim applied to concrete two-element instances of both
variants, with the reachability and comparator hypotheses discharged on the
actual insertion sequences. -/
theorem c1_drain_sorted_witness :
    HashHeap.Reach hhW2 ∧ ConstHashHeap.Reach chhW2
    ∧ ConstHashHeap.CmpIs chhW2 false
    ∧ (HashHeap.drain hhW2).2.vals.length = 0
    ∧ (ConstHashHeap.drain chhW2).2.size = 0 := by
  have hg : HashHeap.Reach hhW2 :=
    HashHeap.Reach.insert hhW1 hhW2 1 3 none
      (HashHeap.Reach.insert hhW0 hhW1 0 5 none
        (HashHeap.Reach.init 4 false id) (by rfl))
      (by rfl)
  have hc : ConstHashHeap.Reach chhW2 :=
    ConstHashHeap.Reach.insert chhW1 chhW2 16 1 3 true
      (ConstHashHeap.Reach.insert chhW0 chhW1 16 0 5 true
        (ConstHashHeap.Reach.init false id) (by rfl))
      (by rfl)
  have hm : ConstHashHeap.CmpIs chhW2 false := by rfl
  have happ := c1_drain_sorted hhW2 hg chhW2 false hc hm
  exact ⟨hg, hc, hm, happ.1.2.2.2.1, happ.2.2.2.2.1⟩

/-! ## C7: hinted operations agree with the plain ones -/

section C7Section

variable {KT VT : Type} [DecidableEq KT] [LinearOrder VT] {CAP : Nat}

theorem chh_probeOkCheck_sound (s : ConstHashHeap KT VT CAP)
    (h : ConstHashHeap.probeOkCheck s = true) : ConstHashHeap.ProbeOk s := by
  intro h0 hh0
  have hmem : h0 ∈ List.range CAP := List.mem_range.2 hh0
  have hall := (List.all_eq_true.1 h) h0 hmem
  cases hk : s.keys.getD h0 none with
  | some p =>
    obtain ⟨k, vi⟩ := p
    rw [hk] at hall
    dsimp only at hall
    dsimp only
    exact of_decide_eq_true hall
  | none =>
    exact True.intro

theorem chh_hint_getopt (s : ConstHashHeap KT VT CAP) (hlen : s.keys.length = CAP)
    (hpo : ConstHashHeap.ProbeOk s) (i : Nat) (k : KT) :
    ConstHashHeap.getopt s (some i) k = ConstHashHeap.getopt s none k := by
  unfold ConstHashHeap.getopt
  dsimp only
  by_cases hi : i < s.keys.length
  · rw [if_pos hi]
    cases hk : s.keys.getD i none with
    | some p =>
      obtain ⟨k2, vi⟩ := p
      dsimp only
      by_cases hkk : k2 = k
      · rw [if_pos hkk]
        have hppre := hpo i (by omega)
        rw [hk] at hppre
        dsimp only at hppre
        rw [hkk] at hppre
        rw [hppre]
      · rw [if_neg hkk]
    | none => rfl
  · rw [if_neg hi]

theorem chh_hint_modify (s : ConstHashHeap KT VT CAP) (hlen : s.keys.length = CAP)
    (hpo : ConstHashHeap.ProbeOk s) (i : Nat) (k : KT) (f : VT → VT) :
    ConstHashHeap.modify_opt s (some i) k f = ConstHashHeap.modify_opt s none k f := by
  unfold ConstHashHeap.modify_opt
  dsimp only
  by_cases hi : i < s.keys.length
  · rw [if_pos hi]
    cases hk : s.keys.getD i none with
    | some p =>
      obtain ⟨k2, vi⟩ := p
      dsimp only
      by_cases hkk : k2 = k
      · rw [if_pos hkk]
        have hppre := hpo i (by omega)
        rw [hk] at hppre
        dsimp only at hppre
        rw [hkk] at hppre
        rw [hppre]
      · rw [if_neg hkk]
    | none => rfl
  · rw [if_neg hi]

theorem chh_hint_remove (s : ConstHashHeap KT VT CAP) (hlen : s.keys.length = CAP)
    (hpo : ConstHashHeap.ProbeOk s) (i : Nat) (k : KT) :
    ConstHashHeap.remove_opt s (some i) k = ConstHashHeap.remove_opt s none k := by
  unfold ConstHashHeap.remove_opt
  dsimp only
  by_cases hi : i < s.keys.length
  · rw [if_pos hi]
    cases hk : s.keys.getD i none with
    | some p =>
      obtain ⟨k2, vi⟩ := p
      dsimp only
      by_cases hkk : k2 = k
      · rw [if_pos hkk]
        have hppre := hpo i (by omega)
        rw [hk] at hppre
        dsimp only at hppre
        rw [hkk] at hppre
        rw [hppre]
      · rw [if_neg hkk]
    | none => rfl
  · rw [if_neg hi]

end C7Section

/-- C7: for the bounded variant, on any state whose key store has the full
capacity and satisfies probe consistency (`ProbeOk`: every stored key is found
by the bounded probe at its own slot), the hinted operations agree with the
plain ones for every hint index `i`: `get_at i k` returns the same result as
`get k`; `modify_at i k f` succeeds exactly when `modify k f` does and produces
the same resulting state; `remove_at i k` returns the same pair and resulting
state as `remove k`.  A stale, arbitrary or out-of-range hint never changes the
outcome. -/
theorem c7_hinted_ops {KT VT : Type} [DecidableEq KT] [LinearOrder VT] {CAP : Nat}
    (s : ConstHashHeap KT VT CAP) (hlen : s.keys.length = CAP)
    (hpo : ConstHashHeap.ProbeOk s) :
    (∀ i k, ConstHashHeap.get_at s i k = ConstHashHeap.get s k)
    ∧ (∀ i k f, (ConstHashHeap.modify_at s i k f).1.isSome
          = (ConstHashHeap.modify s k f).1
        ∧ (ConstHashHeap.modify_at s i k f).2 = (ConstHashHeap.modify s k f).2)
    ∧ (∀ i k, ConstHashHeap.remove_at s i k = ConstHashHeap.remove s k) := by
  refine ⟨?_, ?_, ?_⟩
  · intro i k
    exact chh_hint_getopt s hlen hpo i k
  · intro i k f
    have he := chh_hint_modify s hlen hpo i k f
    unfold ConstHashHeap.modify_at ConstHashHeap.modify
    rw [he]
    exact ⟨rfl, rfl⟩
  · intro i k
    exact chh_hint_remove s hlen hpo i k

/-- C7 witness: the agreement applied to a concrete two-element bounded heap,
with a stale in-range hint, a valid hint and an out-of-range hint. -/
theorem c7_hinted_ops_witness :
    (chhW2.keys.length = 4 ∧ ConstHashHeap.ProbeOk chhW2)
    ∧ ConstHashHeap.get_at chhW2 3 0 = ConstHashHeap.get chhW2 0
    ∧ (ConstHashHeap.modify_at chhW2 0 0 (fun v => v + 1)).2
        = (ConstHashHeap.modify chhW2 0 (fun v => v + 1)).2
    ∧ ConstHashHeap.remove_at chhW2 7 1 = ConstHashHeap.remove chhW2 1 := by
  have hpo : ConstHashHeap.ProbeOk chhW2 := chh_probeOkCheck_sound chhW2 (by decide)
  have happ := c7_hinted_ops chhW2 (by decide) hpo
  exact ⟨⟨by decide, hpo⟩, happ.1 3 0, (happ.2.1 0 0 (fun v => v + 1)).2,
    happ.2.2 7 1⟩

/-! ## C8: `resize` copies every pair to the same heap position -/

section C8Section

variable {KT VT : Type} [DecidableEq KT] [LinearOrder VT] {CAP : Nat}

theorem getD_replicate_none {α : Type} (n j : Nat) :
    (List.replicate n (none : Option α)).getD j none = none := by
  by_cases hj : j < n
  · rw [List.getD_eq_getElem?_getD, List.getElem?_replicate, if_pos hj]
    rfl
  · exact getD_oob _ _ _ (by rw [List.length_replicate]; omega)

theorem getD_map_lt {α β : Type} (g : α → β) (l : List α) (j : Nat) (da : α) (db : β)
    (hj : j < l.length) : (l.map g).getD j db = g (l.getD j da) := by
  rw [List.getD_eq_getElem?_getD, List.getElem?_map,
      List.getElem?_eq_getElem hj, List.getD_eq_getElem?_getD,
      List.getElem?_eq_getElem hj]
  rfl

theorem exists_free_slot {KT VT : Type} (NEWCAP : Nat)
    (keys2 : List (Option (KT × Nat))) (vals2 : List (Option (VT × Nat))) (i : Nat)
    (hi : i < NEWCAP)
    (hb : ∀ h k vi2, keys2.getD h none = some (k, vi2) →
        vi2 < i ∧ ∃ v, vals2.getD vi2 none = some (v, h)) :
    ∃ j, j < NEWCAP ∧ keys2.getD j none = none := by
  by_contra hno
  push_neg at hno
  have hocc : ∀ h, h < NEWCAP → ∃ k vi2, keys2.getD h none = some (k, vi2) := by
    intro h hh
    cases hk : keys2.getD h none with
    | none => exact absurd hk (hno h hh)
    | some p =>
      obtain ⟨k, vi2⟩ := p
      exact ⟨k, vi2, rfl⟩
  have hmaps : ∀ h ∈ Finset.range NEWCAP,
      (fun h2 => match keys2.getD h2 none with
        | some p => p.2
        | none => 0) h ∈ Finset.range i := by
    intro h hh
    rw [Finset.mem_range] at hh
    obtain ⟨k, vi2, hk⟩ := hocc h hh
    rw [Finset.mem_range]
    have := (hb h k vi2 hk).1
    dsimp only
    rw [hk]
    exact this
  have hinj : Set.InjOn (fun h2 => match keys2.getD h2 none with
      | some p => p.2
      | none => 0) (Finset.range NEWCAP) := by
    intro a1 ha1 a2 ha2 hfe
    rw [Finset.coe_range, Set.mem_Iio] at ha1 ha2
    obtain ⟨k1, v1, hk1⟩ := hocc a1 ha1
    obtain ⟨k2, v2, hk2⟩ := hocc a2 ha2
    have e1 : (fun h2 => match keys2.getD h2 none with
        | some p => p.2
        | none => 0) a1 = v1 := by
      dsimp only
      rw [hk1]
    have e2 : (fun h2 => match keys2.getD h2 none with
        | some p => p.2
        | none => 0) a2 = v2 := by
      dsimp only
      rw [hk2]
    rw [e1, e2] at hfe
    obtain ⟨_, w1, hw1⟩ := hb a1 k1 v1 hk1
    obtain ⟨_, w2, hw2⟩ := hb a2 k2 v2 hk2
    rw [← hfe, hw1] at hw2
    simp only [Option.some.injEq, Prod.mk.injEq] at hw2
    exact hw2.2
  have hcard := Finset.card_le_card_of_injOn _ hmaps hinj
  rw [Finset.card_range, Finset.card_range] at hcard
  omega

theorem probe_seq_hits (N h j : Nat) (hh : h < N) (hj : j < N) :
    ∃ d, d < N ∧ (h + d) % N = j := by
  by_cases hle : h ≤ j
  · refine ⟨j - h, by omega, ?_⟩
    rw [show h + (j - h) = j by omega]
    exact Nat.mod_eq_of_lt hj
  · refine ⟨N - h + j, by omega, ?_⟩
    rw [show h + (N - h + j) = N + j by omega, Nat.add_mod_left]
    exact Nat.mod_eq_of_lt hj

theorem chh_probeEmptyGo_succ (keys2 : List (Option (KT × Nat))) (N h hashes fuel : Nat) :
    ConstHashHeap.probeEmptyGo keys2 N h hashes (fuel+1)
    = match keys2.getD h none with
      | some _ => ConstHashHeap.probeEmptyGo keys2 N ((h+1) % N) (hashes+1) fuel
      | none => some (h, hashes) := rfl

theorem probeEmptyGo_found (keys2 : List (Option (KT × Nat))) (N : Nat) :
    ∀ (d h hashes fuel : Nat), h < N → keys2.getD ((h + d) % N) none = none →
      d < fuel →
      ∃ h2 hashes2,
        ConstHashHeap.probeEmptyGo keys2 N h hashes fuel = some (h2, hashes2)
        ∧ keys2.getD h2 none = none ∧ h2 < N := by
  intro d
  induction d with
  | zero =>
    intro h hashes fuel hh hslot hfuel
    rw [Nat.add_zero, Nat.mod_eq_of_lt hh] at hslot
    cases fuel with
    | zero => omega
    | succ f =>
      refine ⟨h, hashes, ?_, hslot, hh⟩
      rw [chh_probeEmptyGo_succ, hslot]
  | succ d ih =>
    intro h hashes fuel hh hslot hfuel
    cases fuel with
    | zero => omega
    | succ f =>
      cases hk : keys2.getD h none with
      | none =>
        refine ⟨h, hashes, ?_, hk, hh⟩
        rw [chh_probeEmptyGo_succ, hk]
      | some p =>
        have hslot2 : keys2.getD (((h+1) % N + d) % N) none = none := by
          rw [Nat.mod_add_mod, show h + 1 + d = h + (d + 1) by omega]
          exact hslot
        obtain ⟨h2, hs2, he, hn2, hl2⟩ :=
          ih ((h+1) % N) (hashes+1) f (Nat.mod_lt _ (by omega)) hslot2 (by omega)
        refine ⟨h2, hs2, ?_, hn2, hl2⟩
        rw [chh_probeEmptyGo_succ, hk]
        exact he

theorem chh_resizeStep_inv (s : ConstHashHeap KT VT CAP) (NEWCAP i : Nat)
    (a : ConstHashHeap KT VT CAP) (b : ConstHashHeap KT VT NEWCAP)
    (hx : ConstHashHeap.Xref s) (hsh : ConstHashHeap.Shape s)
    (hi : i < s.size) (hle : s.size ≤ NEWCAP)
    (hP : ConstHashHeap.ResizeInv s NEWCAP i a b) :
    ∃ a2 b2, ConstHashHeap.resizeStep a b i = some (a2, b2)
      ∧ ConstHashHeap.ResizeInv s NEWCAP (i+1) a2 b2 := by
  obtain ⟨hak, hav, haf, hbk, hbv, hbl, hbs, hbf, hunt, hukeys, hmoved, hreg,
    hbkeys⟩ := hP
  have h0 : 0 < NEWCAP := by omega
  have hszC : s.size ≤ CAP := hsh.2.2.2
  have hocc := hx.1.1 i hi
  cases hsv : s.vals.getD i none with
  | none =>
    rw [hsv] at hocc
    exact Bool.noConfusion hocc
  | some p =>
    obtain ⟨vI, ki⟩ := p
    obtain ⟨kI, hki⟩ := hx.2.1 i vI ki hsv
    have hsva : a.vals.getD i none = some (vI, ki) := by
      rw [hunt i (le_refl _)]
      exact hsv
    have hska : a.keys.getD ki none = some (kI, i) := by
      rw [hukeys i vI ki (le_refl _) hsv]
      exact hki
    obtain ⟨je, hjeN, hje⟩ := exists_free_slot NEWCAP b.keys b.vals i
      (by omega) hbkeys
    have hh0lt : ConstHashHeap.borrow_hash NEWCAP a.hashf kI < NEWCAP :=
      Nat.mod_lt _ h0
    obtain ⟨d, hd, hdj⟩ := probe_seq_hits NEWCAP
      (ConstHashHeap.borrow_hash NEWCAP a.hashf kI) je hh0lt hjeN
    obtain ⟨hE, hashesE, hpe, hpeslot, hpelt⟩ := probeEmptyGo_found b.keys NEWCAP d
      (ConstHashHeap.borrow_hash NEWCAP a.hashf kI) 1 (NEWCAP+1) hh0lt
      (by rw [hdj]; exact hje) (by omega)
    have hElen : hE < b.keys.length := by rw [hbk]; exact hpelt
    have hivalen : i < a.vals.length := by rw [hav]; omega
    have hibval : i < b.vals.length := by rw [hbv]; omega
    have hregI : b.vals.getD i none = none := hreg i (le_refl _)
    set A2 : ConstHashHeap KT VT CAP :=
      { a with keys := a.keys.set ki none,
               vals := (a.vals.set i (some (vI, hE))).set i none } with hA2def
    set M2 : List Nat :=
      b.maxhashes.set (ConstHashHeap.borrow_hash NEWCAP a.hashf kI) hashesE
      with hM2def
    set B2 : ConstHashHeap KT VT NEWCAP :=
      { b with maxhashes := M2,
               keys := b.keys.set hE (some (kI, i)),
               vals := b.vals.set i (some (vI, hE)) } with hB2def
    refine ⟨A2, B2, ?_, ?_⟩
    · unfold ConstHashHeap.resizeStep
      dsimp only
      rw [hsva]
      dsimp only
      rw [hska]
      dsimp only
      rw [hpe]
      dsimp only
      rw [hpeslot, hregI]
      simp only [Option.map_some']
      rw [getD_set_self a.vals i (some (vI, hE)) none hivalen]
    · refine ⟨?_, ?_, haf, ?_, ?_, hbl, hbs, hbf, ?_, ?_, ?_, ?_, ?_⟩
      · show (a.keys.set ki none).length = CAP
        rw [List.length_set]
        exact hak
      · show ((a.vals.set i (some (vI, hE))).set i none).length = CAP
        rw [List.length_set, List.length_set]
        exact hav
      · show (b.keys.set hE (some (kI, i))).length = NEWCAP
        rw [List.length_set]
        exact hbk
      · show (b.vals.set i (some (vI, hE))).length = NEWCAP
        rw [List.length_set]
        exact hbv
      · intro j hj
        show ((a.vals.set i (some (vI, hE))).set i none).getD j none
          = s.vals.getD j none
        rw [getD_set_ne _ i j none none (by omega),
            getD_set_ne a.vals i j _ none (by omega)]
        exact hunt j (by omega)
      · intro j v kj hj hsvj
        show (a.keys.set ki none).getD kj none = s.keys.getD kj none
        obtain ⟨kj2, hkj2⟩ := hx.2.1 j v kj hsvj
        have hkjki : kj ≠ ki := by
          intro he
          rw [he, hki] at hkj2
          simp only [Option.some.injEq, Prod.mk.injEq] at hkj2
          omega
        rw [getD_set_ne a.keys ki kj none none (fun he => hkjki he.symm)]
        exact hukeys j v kj (by omega) hsvj
      · intro j hj
        by_cases hji : j = i
        · refine ⟨vI, ki, kI, hE, ?_, ?_, ?_, hpelt, ?_⟩
          · rw [hji]; exact hsv
          · rw [hji]; exact hki
          · show (b.vals.set i (some (vI, hE))).getD j none = some (vI, hE)
            rw [hji, getD_set_self b.vals i _ none hibval]
          · show (b.keys.set hE (some (kI, i))).getD hE none = some (kI, j)
            rw [getD_set_self b.keys hE _ none hElen, hji]
        · obtain ⟨v, kj, k, h, h1, h2, h3, h4, h5⟩ := hmoved j (by omega)
          refine ⟨v, kj, k, h, h1, h2, ?_, h4, ?_⟩
          · show (b.vals.set i (some (vI, hE))).getD j none = some (v, h)
            rw [getD_set_ne b.vals i j _ none (fun he => hji he.symm)]
            exact h3
          · show (b.keys.set hE (some (kI, i))).getD h none = some (k, j)
            have hhE : h ≠ hE := by
              intro he
              rw [he, hpeslot] at h5
              exact Option.noConfusion h5
            rw [getD_set_ne b.keys hE h _ none (fun he => hhE he.symm)]
            exact h5
      · intro j hj
        show (b.vals.set i (some (vI, hE))).getD j none = none
        rw [getD_set_ne b.vals i j _ none (by omega)]
        exact hreg j (by omega)
      · intro h2 k vi2 hk2
        have hk2e : (b.keys.set hE (some (kI, i))).getD h2 none = some (k, vi2) := hk2
        by_cases hhE : h2 = hE
        · rw [hhE, getD_set_self b.keys hE _ none hElen] at hk2e
          simp only [Option.some.injEq, Prod.mk.injEq] at hk2e
          refine ⟨by omega, vI, ?_⟩
          show (b.vals.set i (some (vI, hE))).getD vi2 none = some (vI, h2)
          rw [← hk2e.2, getD_set_self b.vals i _ none hibval, hhE]
        · rw [getD_set_ne b.keys hE h2 _ none (fun he => hhE he.symm)] at hk2e
          obtain ⟨hlt2, v, hv⟩ := hbkeys h2 k vi2 hk2e
          refine ⟨by omega, v, ?_⟩
          show (b.vals.set i (some (vI, hE))).getD vi2 none = some (v, h2)
          rw [getD_set_ne b.vals i vi2 _ none (by omega)]
          exact hv

theorem chh_resizeGo_inv (s : ConstHashHeap KT VT CAP) (NEWCAP : Nat)
    (hx : ConstHashHeap.Xref s) (hsh : ConstHashHeap.Shape s)
    (hle : s.size ≤ NEWCAP) :
    ∀ (k i : Nat) (a : ConstHashHeap KT VT CAP) (b : ConstHashHeap KT VT NEWCAP),
      i + k = s.size → ConstHashHeap.ResizeInv s NEWCAP i a b →
      ∃ q, ConstHashHeap.resizeGo (a, b) i k = some q
        ∧ ConstHashHeap.ResizeInv s NEWCAP s.size q.1 q.2 := by
  intro k
  induction k with
  | zero =>
    intro i a b hik hP
    refine ⟨(a, b), rfl, ?_⟩
    rw [show s.size = i by omega]
    exact hP
  | succ k ih =>
    intro i a b hik hP
    obtain ⟨a2, b2, hstep, hP2⟩ := chh_resizeStep_inv s NEWCAP i a b hx hsh
      (by omega) hle hP
    obtain ⟨q, hgo, hPq⟩ := ih (i+1) a2 b2 (by omega) hP2
    refine ⟨q, ?_, hPq⟩
    show (ConstHashHeap.resizeStep a b i).bind
      (fun q2 => ConstHashHeap.resizeGo q2 (i+1) k) = some q
    rw [hstep]
    exact hgo

theorem chh_resize_full (s : ConstHashHeap KT VT CAP) (NEWCAP : Nat)
    (hinv : ConstHashHeap.Inv s) (hle : s.size ≤ NEWCAP) :
    ∃ t : ConstHashHeap KT VT NEWCAP,
      ConstHashHeap.resize s NEWCAP = some t
      ∧ t.lessthan = s.lessthan ∧ t.size = s.size
      ∧ (∀ i, i < s.size → (t.vals.getD i none).map (fun p => p.1)
          = (s.vals.getD i none).map (fun p => p.1))
      ∧ (∀ i, i < s.size → ConstHashHeap.keyName t (t.vals.getD i none)
          = ConstHashHeap.keyName s (s.vals.getD i none))
      ∧ ConstHashHeap.pairsOfC t = ConstHashHeap.pairsOfC s
      ∧ ConstHashHeap.Xref t
      ∧ (∀ mh, ConstHashHeap.CmpIs s mh → HeapD t.lessthan t.vals t.size) := by
  obtain ⟨hsh, hx, hheap⟩ := hinv
  have hszC : s.size ≤ CAP := hsh.2.2.2
  have hP0 : ConstHashHeap.ResizeInv s NEWCAP 0 s
      { (ConstHashHeap.new true s.hashf : ConstHashHeap KT VT NEWCAP) with lessthan := s.lessthan, size := s.size } := by
    refine ⟨hsh.1, hsh.2.1, rfl, ?_, ?_, rfl, rfl, rfl, ?_, ?_, ?_, ?_, ?_⟩
    · exact List.length_replicate NEWCAP none
    · exact List.length_replicate NEWCAP none
    · intro j _
      rfl
    · intro j v kj _ _
      rfl
    · intro j hj
      exact absurd hj (by omega)
    · intro j _
      exact getD_replicate_none NEWCAP j
    · intro h k vi2 hk
      have hk2 : (List.replicate NEWCAP (none : Option (KT × Nat))).getD h none
          = some (k, vi2) := hk
      rw [getD_replicate_none NEWCAP h] at hk2
      exact Option.noConfusion hk2
  obtain ⟨q, hgo, hPf⟩ := chh_resizeGo_inv s NEWCAP hx hsh hle s.size 0 s _
    (by omega) hP0
  obtain ⟨fak, fav, faf, fbk, fbv, fbl, fbs, fbf, funt, fukeys, fmoved, freg,
    fbkeys⟩ := hPf
  have hvalmap : ∀ i, i < s.size → (q.2.vals.getD i none).map (fun p => p.1)
      = (s.vals.getD i none).map (fun p => p.1) := by
    intro i hi
    obtain ⟨v, kj, k, h, h1, h2, h3, h4, h5⟩ := fmoved i hi
    rw [h3, h1]
    rfl
  have hkeymap : ∀ i, i < s.size → ConstHashHeap.keyName q.2 (q.2.vals.getD i none)
      = ConstHashHeap.keyName s (s.vals.getD i none) := by
    intro i hi
    obtain ⟨v, kj, k, h, h1, h2, h3, h4, h5⟩ := fmoved i hi
    rw [h3, h1]
    show (q.2.keys.getD h none).map (fun p2 => p2.1)
      = (s.keys.getD kj none).map (fun p2 => p2.1)
    rw [h5, h2]
  refine ⟨q.2, ?_, fbl, fbs, hvalmap, hkeymap, ?_, ⟨⟨?_, ?_⟩, ?_, ?_⟩, ?_⟩
  · show (ConstHashHeap.resizeGo (s,
      { (ConstHashHeap.new true s.hashf : ConstHashHeap KT VT NEWCAP) with lessthan := s.lessthan, size := s.size }) 0 s.size).map
      (fun q2 => q2.2) = some q.2
    rw [hgo]
    rfl
  · -- same multiset of stored pairs
    unfold ConstHashHeap.pairsOfC
    have htk : q.2.vals.take q.2.size = q.2.vals.take s.size := by rw [fbs]
    rw [htk]
    have hLeq : (q.2.vals.take s.size).map (fun x =>
        (ConstHashHeap.keyName q.2 x, x.map (fun p => p.1)))
        = (s.vals.take s.size).map (fun x =>
          (ConstHashHeap.keyName s x, x.map (fun p => p.1))) := by
      apply list_eq_of_getD_ext
      · rw [List.length_map, List.length_map, List.length_take, List.length_take,
            fbv, hsh.2.1]
        omega
      · intro j hj
        rw [List.length_map, List.length_take, fbv] at hj
        have hjs : j < s.size := by omega
        have hjt : j < (q.2.vals.take s.size).length := by
          rw [List.length_take, fbv]
          omega
        have hjs2 : j < (s.vals.take s.size).length := by
          rw [List.length_take, hsh.2.1]
          omega
        have e1 := getD_map_lt (fun x : Option (VT × Nat) =>
          (ConstHashHeap.keyName q.2 x, x.map (fun p => p.1)))
          (q.2.vals.take s.size) j none default hjt
        have e2 := getD_map_lt (fun x : Option (VT × Nat) =>
          (ConstHashHeap.keyName s x, x.map (fun p => p.1)))
          (s.vals.take s.size) j none default hjs2
        rw [e1, e2, getD_take q.2.vals s.size j none hjs,
            getD_take s.vals s.size j none hjs]
        have ha := hkeymap j hjs
        have hb := hvalmap j hjs
        rw [Prod.mk.injEq]
        exact ⟨ha, hb⟩
    rw [hLeq]
  · -- occupancy of the result at its size
    intro j hj
    have hj2 : j < s.size := by
      have : j < q.2.size := hj
      omega
    obtain ⟨v, kj, k, h, h1, h2, h3, h4, h5⟩ := fmoved j hj2
    rw [h3]
    rfl
  · intro j hj
    have hj2 : s.size ≤ j := by
      have : q.2.size ≤ j := hj
      omega
    exact freg j hj2
  · -- value slots point back at their key slots
    intro j v2 h2 hv2
    have hjs : j < s.size := by
      by_contra hge
      rw [freg j (by omega)] at hv2
      exact Option.noConfusion hv2
    obtain ⟨v, kj, k, h, h1, h2e, h3, h4, h5⟩ := fmoved j hjs
    rw [h3] at hv2
    simp only [Option.some.injEq, Prod.mk.injEq] at hv2
    refine ⟨k, ?_⟩
    rw [← hv2.2]
    exact h5
  · -- key slots point back at their value slots
    intro h k vi2 hk
    obtain ⟨_, v, hv⟩ := fbkeys h k vi2 hk
    exact ⟨v, hv⟩
  · -- heap order carries over for the canonical comparators
    intro mh hc c hc0 hcn
    have hcs : c < s.size := by
      have : c < q.2.size := hcn
      omega
    have hps : heapParent c < s.size := by
      have : heapParent c ≤ c := by
        unfold heapParent
        omega
      omega
    obtain ⟨vc, kc, kkc, hhc, hc1, hc2, hc3, hc4, hc5⟩ := fmoved c hcs
    obtain ⟨vp, kp, kkp, hhp, hp1, hp2, hp3, hp4, hp5⟩ := fmoved (heapParent c) hps
    have hc3d : q.2.vals.getD c default = some (vc, hhc) := hc3
    have hp3d : q.2.vals.getD (heapParent c) default = some (vp, hhp) := hp3
    have hc1d : s.vals.getD c default = some (vc, kc) := hc1
    have hp1d : s.vals.getD (heapParent c) default = some (vp, kp) := hp1
    rw [fbl, hc, hp3d, hc3d, canonLt_nat_irrel mh vp vc hhp hhc kp kc,
        ← hc, ← hp1d, ← hc1d]
    exact hheap c hc0 hcs

end C8Section

/-- C8: for the bounded variant with size not exceeding the new capacity,
`resize` succeeds and produces a structure containing exactly the same multiset
of (key, value) pairs, with every value occupying the same heap position
(index in the value array) as before, the comparator carried over, and the
cross-references and heap order (for the constructor-installed comparators)
already valid — no re-heapify is performed; `refresh` is exactly `resize` to
the same capacity, so it does likewise. -/
theorem c8_resize_preserves {KT VT : Type} [DecidableEq KT] [LinearOrder VT]
    {CAP : Nat} (s : ConstHashHeap KT VT CAP) (NEWCAP : Nat)
    (hinv : ConstHashHeap.Inv s) (hle : s.size ≤ NEWCAP) :
    (∃ t : ConstHashHeap KT VT NEWCAP,
      ConstHashHeap.resize s NEWCAP = some t
      ∧ t.lessthan = s.lessthan ∧ t.size = s.size
      ∧ (∀ i, i < s.size → (t.vals.getD i none).map (fun p => p.1)
          = (s.vals.getD i none).map (fun p => p.1))
      ∧ (∀ i, i < s.size → ConstHashHeap.keyName t (t.vals.getD i none)
          = ConstHashHeap.keyName s (s.vals.getD i none))
      ∧ ConstHashHeap.pairsOfC t = ConstHashHeap.pairsOfC s
      ∧ ConstHashHeap.Xref t
      ∧ (∀ mh, ConstHashHeap.CmpIs s mh → HeapD t.lessthan t.vals t.size))
    ∧ ConstHashHeap.refresh s = ConstHashHeap.resize s CAP :=
  ⟨chh_resize_full s NEWCAP hinv hle, rfl⟩

/-- C8 witness: resizing a concrete two-element bounded heap from capacity 4
to capacity 8 succeeds, and `refresh` coincides with `resize` at the original
capacity. -/
theorem c8_resize_preserves_witness :
    (ConstHashHeap.Inv chhW2 ∧ chhW2.size ≤ 8)
    ∧ (ConstHashHeap.resize chhW2 8).isSome = true
    ∧ ConstHashHeap.refresh chhW2 = ConstHashHeap.resize chhW2 4 := by
  have hr : ConstHashHeap.Reach chhW2 :=
    ConstHashHeap.Reach.insert chhW1 chhW2 16 1 3 true
      (ConstHashHeap.Reach.insert chhW0 chhW1 16 0 5 true
        (ConstHashHeap.Reach.init false id) (by rfl))
      (by rfl)
  have hinv := (chh_reach_inv chhW2 hr).1
  obtain ⟨⟨t, ht, _⟩, hrf⟩ := c8_resize_preserves chhW2 8 hinv (by decide)
  refine ⟨⟨hinv, by decide⟩, ?_, hrf⟩
  rw [ht]
  rfl

